import Mathlib

/-!
# Go-kart controller: SBUS decoding and actuation encoding

A shallow embedding of

* `lib/FUTABA_SBUS/FUTABA_SBUS.cpp` (`FUTABA_SBUS::FeedLine`, `FUTABA_SBUS::UpdateChannels`),
* `lib/FUTABA_SBUS/Translation.hpp` (`Translation::normalize`,
  `Translation::getTriSwitchMode`),
* `lib/FUTABA_SBUS/SBusTracker.cpp` (the constructor, `SBusTracker::add` and the getters),
* `include/config.hpp` (the constants used below and the table `STERING_MAPPING`),
* `src/Actuation/vesc_can_tools.hpp` (`clamp`, `map_range`, `map_steer2motor`,
  `buffer_append_*`, `can_transmit_eid`, the `comm_can_set_*` encoders,
  `comm_can_set_speed`, `comm_can_set_angle`, `comm_can_set_brake_position`),

followed by theorems about these definitions.

Modelling conventions.

* `uint8_t` values are `Byte = Fin 256`; wider machine integers are `Nat` / `Int` with the
  reduction `% 2 ^ w` written where the C code stores into a `w`-bit unsigned object.
* `float` and `double` values are rationals (`ℚ`).  An operation whose result the source
  holds in a `float` (IEEE binary32) is followed by `to_float`, one that it holds in a
  `double` (binary64) by `to_double`: rounding to the nearest value of the format, ties to
  the even significand, with gradual underflow; an operation is in `double` as soon as one
  operand is.  Infinities and NaN are not modelled, and contraction of a product and a sum
  into one fused operation is not assumed.  An integer-valued literal or constant of the
  source is its own `float` and `double` value.  A `double` product of a `float` and one of
  the literals `-1.0`, `4.0`, `60.0`, `1000.0`, `100000.0`, `1000000.0` is exact (a 24-bit
  significand times a 20-bit integer fits the 53 bits of a `double`) and is written
  without `to_double`.
* The steering interpolation is embedded twice: `map_steer2motor` over the exact rationals
  with the decimal literals of the table, which is the arithmetic that the specification
  stipulates for the interpolation, and `binary32.map_steer2motor` with the table and the
  arithmetic of binary32, which is what decides the iteration at which the traversal
  returns for a `float` argument.
* `Translation::normalize` is embedded over the exact rationals: the rounding of its one
  `double` division is not part of the embedding.
* A conversion `(int32_t) f` / `(unsigned int) f` truncates toward zero.
* `int` and `unsigned int` are 32 bits wide.
* Reading through the past-the-end iterator of a `std::map` has no defined result; the
  function that does so returns `none`.
* The `BufferedSerial` behind `sbusSerial` is the list of the bytes that are available to
  read, oldest first: `readable()` holds when the list is not empty, and `read(buf, n)`
  removes and stores the first `min n (length)` bytes and returns their number.
-/

/-- An octet, the C type `uint8_t`. -/
abbrev Byte := Fin 256

/-! ## Binary floating-point arithmetic -/

/-- Rounding of a rational to the nearest integer, a tie to the even one. -/
def round_half_even (q : ℚ) : Int :=
  let f := ⌊q⌋
  if q - f < 1 / 2 then f
  else if 1 / 2 < q - f then f + 1
  else if f % 2 = 0 then f else f + 1

/-- Rounding of a rational to the binary floating-point format with `p` bits of precision
and least normal exponent `emin`: the unit in the last place of `q` is `2 ^ (e - (p - 1))`
for the exponent `e` of the binade of `q`, and not less than that of the least normal
number; `q` is rounded to the nearest multiple of it, a tie to the even one. -/
def round_binary (p : Nat) (emin : Int) (q : ℚ) : ℚ :=
  if q = 0 then 0 else
  let e := max (Int.log 2 |q|) emin
  let ulp : ℚ := 2 ^ (e - ((p : Int) - 1))
  round_half_even (q / ulp) * ulp

/-- Rounding to `float`, IEEE binary32. -/
def to_float (q : ℚ) : ℚ := round_binary 24 (-126) q

/-- Rounding to `double`, IEEE binary64. -/
def to_double (q : ℚ) : ℚ := round_binary 53 (-1022) q

/-- The value of type `int` with the same 32 low bits as `z`.  (Overflow of a signed
operation has no defined result in C; the two's-complement wrap-around is taken.) -/
def to_int32 (z : Int) : Int := (z + 2 ^ 31) % 2 ^ 32 - 2 ^ 31

/-- Conversion of an integer to `unsigned int`. -/
def to_uint32 (z : Int) : Nat := (z % 2 ^ 32).toNat

/-! ## `FUTABA_SBUS` -/

/-- `SBUS_FRAME_SIZE` of `FUTABA_SBUS.h`. -/
def SBUS_FRAME_SIZE : Nat := 25

/-- `SBUS_START_BYTE` of `FUTABA_SBUS.h`. -/
def SBUS_START_BYTE : Nat := 0x0F

/-- The data members of `class FUTABA_SBUS`: `uint16_t channels[16]`, the flag
`toChannels`, the bytes available on the serial port `sbusSerial`, and
`uint8_t frameBuffer[25]`. -/
structure FUTABA_SBUS where
  channels : Fin 16 → Nat
  toChannels : Nat
  sbusSerial : List Byte
  frameBuffer : Fin 25 → Byte

namespace FUTABA_SBUS

/-- The frame buffer after `frameBuffer[0] = byte` and a `read(frameBuffer + 1, ...)` that
delivered the bytes `got`: cell `0` holds `byte`, cells `1 .. got.length` hold `got`, the
other cells keep their content. -/
def storeFrame (frameBuffer : Fin 25 → Byte) (byte : Byte) (got : List Byte) :
    Fin 25 → Byte :=
  fun i =>
    if i.val = 0 then byte
    else if i.val ≤ got.length then got.getD (i.val - 1) (frameBuffer i)
    else frameBuffer i

/-- The `while` loop of `FUTABA_SBUS::FeedLine`, with a bound on the number of iterations.
One iteration: leave when nothing is readable; otherwise read one byte; when it is the start
byte, store it, read up to 24 bytes into `frameBuffer + 1`, and when 24 were read raise
`toChannels` and return. -/
def FeedLine_loop : Nat → FUTABA_SBUS → FUTABA_SBUS
  | 0, s => s
  | fuel + 1, s =>
    match s.sbusSerial with
    | [] => s
    | byte :: rest =>
      if byte.val = SBUS_START_BYTE then
        let got := rest.take (SBUS_FRAME_SIZE - 1)
        let s1 : FUTABA_SBUS :=
          { s with
            frameBuffer := storeFrame s.frameBuffer byte got
            sbusSerial := rest.drop (SBUS_FRAME_SIZE - 1) }
        if got.length = SBUS_FRAME_SIZE - 1 then
          { s1 with toChannels := 1 }
        else FeedLine_loop fuel s1
      else FeedLine_loop fuel { s with sbusSerial := rest }

/-- `FUTABA_SBUS::FeedLine`.  Every iteration of the loop consumes at least one byte, so as
many iterations as there are readable bytes run the loop to its end. -/
def FeedLine (s : FUTABA_SBUS) : FUTABA_SBUS :=
  FeedLine_loop s.sbusSerial.length s

/-- `FUTABA_SBUS::UpdateChannels`.  Each right-hand side is the C expression of the same
line; the operands are promoted to `int`, so no shift overflows, and the final `% 65536`
is the store into a `uint16_t`. -/
def UpdateChannels (s : FUTABA_SBUS) : FUTABA_SBUS :=
  if s.toChannels = 0 then s else
  let fb : Fin 25 → Nat := fun i => (s.frameBuffer i).val
  { s with
    channels := fun k =>
      match k.val with
      | 0  => ((fb 1 ||| (fb 2 <<< 8)) &&& 0x07FF) % 65536
      | 1  => (((fb 2 >>> 3) ||| (fb 3 <<< 5)) &&& 0x07FF) % 65536
      | 2  => (((fb 3 >>> 6) ||| (fb 4 <<< 2) ||| ((fb 5 &&& 0x01) <<< 10)) &&& 0x07FF) % 65536
      | 3  => (((fb 5 >>> 1) ||| (fb 6 <<< 7)) &&& 0x07FF) % 65536
      | 4  => (((fb 6 >>> 4) ||| (fb 7 <<< 4)) &&& 0x07FF) % 65536
      | 5  => (((fb 7 >>> 7) ||| (fb 8 <<< 1) ||| ((fb 9 &&& 0x03) <<< 9)) &&& 0x07FF) % 65536
      | 6  => (((fb 9 >>> 2) ||| (fb 10 <<< 6)) &&& 0x07FF) % 65536
      | 7  => (((fb 10 >>> 5) ||| (fb 11 <<< 3)) &&& 0x07FF) % 65536
      | 8  => ((fb 12 ||| (fb 13 <<< 8)) &&& 0x07FF) % 65536
      | 9  => (((fb 13 >>> 3) ||| (fb 14 <<< 5)) &&& 0x07FF) % 65536
      | 10 => (((fb 14 >>> 6) ||| (fb 15 <<< 2) ||| ((fb 16 &&& 0x01) <<< 10)) &&& 0x07FF) % 65536
      | 11 => (((fb 16 >>> 1) ||| (fb 17 <<< 7)) &&& 0x07FF) % 65536
      | 12 => (((fb 17 >>> 4) ||| (fb 18 <<< 4)) &&& 0x07FF) % 65536
      | 13 => (((fb 18 >>> 7) ||| (fb 19 <<< 1) ||| ((fb 20 &&& 0x03) <<< 9)) &&& 0x07FF) % 65536
      | 14 => (((fb 20 >>> 2) ||| (fb 21 <<< 6)) &&& 0x07FF) % 65536
      | _  => (((fb 21 >>> 5) ||| (fb 22 <<< 3)) &&& 0x07FF) % 65536
    toChannels := 0 }

/-- Specification side: bit `j` of the little-endian bit stream of `frameBuffer[1..22]`,
that is bit `j mod 8` of `frameBuffer[1 + j / 8]`, as `0` or `1`. -/
def spec_streamBit (frameBuffer : Fin 25 → Byte) (j : Nat) : Nat :=
  ((frameBuffer (Fin.ofNat (1 + j / 8))).val / 2 ^ (j % 8)) % 2

/-- Specification side: the 11-bit unsigned value formed by the stream bits
`11 k .. 11 k + 10`, least significant first. -/
def spec_channel (frameBuffer : Fin 25 → Byte) (k : Nat) : Nat :=
  ((List.range 11).map (fun i => spec_streamBit frameBuffer (11 * k + i) * 2 ^ i)).sum

/-- A sample decoder state with a frame pending: byte `i` of the frame is
`(37 i + 11) mod 256`. -/
def sampleState : FUTABA_SBUS :=
  { channels := fun _ => 0
    toChannels := 1
    sbusSerial := []
    frameBuffer := fun i => Fin.ofNat (i.val * 37 + 11) }

/-- The sample state with the bytes 0, 23 and 24 of the frame buffer (start marker, flags
and end byte) replaced by `0xFF`. -/
def sampleStateOtherFlags : FUTABA_SBUS :=
  { sampleState with
    frameBuffer := fun i =>
      if i.val = 0 ∨ 23 ≤ i.val then 0xFF else sampleState.frameBuffer i }

/-- A decoder state with no frame pending and three readable bytes, none of them the start
marker. -/
def idleState : FUTABA_SBUS :=
  { channels := fun k => 992 + k.val
    toChannels := 0
    sbusSerial := [1, 2, 3]
    frameBuffer := fun _ => 0 }

/-- The sample state, in which a complete frame is pending, with three more readable bytes:
a start marker followed by two bytes only. -/
def pendingState : FUTABA_SBUS :=
  { sampleState with sbusSerial := [0x0F, 3, 4] }

/-- A decoder state with no frame pending whose readable bytes are two stray bytes, a start
marker and 26 further bytes `0, 1, .., 25`. -/
def framedState : FUTABA_SBUS :=
  { channels := fun _ => 0
    toChannels := 0
    sbusSerial := [1, 2] ++ 0x0F :: (List.range 26).map (fun n => Fin.ofNat n)
    frameBuffer := fun _ => 0 }

end FUTABA_SBUS

/-! ## `Translation` -/

/-- `enum TriSwitchMode`. -/
inductive TriSwitchMode where
  | DOWN
  | MID
  | UP
  deriving DecidableEq

/-- The enumerator values `DOWN = 0`, `MID = 1`, `UP = 2`. -/
def TriSwitchMode.toNat : TriSwitchMode → Nat
  | TriSwitchMode.DOWN => 0
  | TriSwitchMode.MID => 1
  | TriSwitchMode.UP => 2

namespace Translation

/-- `Translation::normalize`. -/
def normalize (analogValue : Int) : ℚ :=
  let analogValue := if analogValue > 1800 then 1800 else analogValue
  let analogValue := if analogValue < 174 then 174 else analogValue
  let analogValue := analogValue - 992
  if analogValue ≥ 0 then (analogValue : ℚ) / ((1800 - 992 : Int) : ℚ)
  else (analogValue : ℚ) / ((992 - 174 : Int) : ℚ)

/-- `Translation::getTriSwitchMode`. -/
def getTriSwitchMode (TriVal : Int) : TriSwitchMode :=
  let norm := normalize TriVal
  if norm < -0.5 then TriSwitchMode.DOWN
  else if norm > 0.4 then TriSwitchMode.UP
  else TriSwitchMode.MID

end Translation

/-! ## `SBusTracker`

The header `SBusTracker.h`, which defines `HISTORY_SIZE` and declares the members, is not
among the sources.  The window size is the parameter `HISTORY_SIZE` below.  The members
`rolling_sum` and `tracker_array[]` are taken to be of type `int`, the type of the arguments
`pre_load` and `instance` that are stored into them and of the `%d` with which `print_arr`
prints a cell; `head_index` is an index below `HISTORY_SIZE`. -/

/-- The data members of `class SBusTracker`: `rolling_sum`, `head_index` and
`tracker_array[HISTORY_SIZE]`. -/
structure SBusTracker where
  rolling_sum : Int
  head_index : Nat
  tracker_array : List Int

namespace SBusTracker

/-- One iteration of the `for` loop of the constructor. -/
def new_step (pre_load : Int) (t : SBusTracker) (i : Nat) : SBusTracker :=
  { t with
    tracker_array := t.tracker_array.set i pre_load
    rolling_sum := to_int32 (t.rolling_sum + pre_load) }

/-- `SBusTracker::SBusTracker`.  The array is not initialised before the loop; every cell is
written by the loop. -/
def new (HISTORY_SIZE : Nat) (pre_load : Int) : SBusTracker :=
  (List.range HISTORY_SIZE).foldl (new_step pre_load)
    { rolling_sum := 0, head_index := 0, tracker_array := List.replicate HISTORY_SIZE 0 }

/-- `SBusTracker::add`. -/
def add (HISTORY_SIZE : Nat) (t : SBusTracker) (instance_ : Int) : SBusTracker :=
  let rolling_sum := to_int32 (t.rolling_sum - t.tracker_array.getD t.head_index 0)
  let rolling_sum := to_int32 (rolling_sum + instance_)
  let tracker_array := t.tracker_array.set t.head_index instance_
  let head_index := (t.head_index + 1) % HISTORY_SIZE
  { rolling_sum := rolling_sum, head_index := head_index, tracker_array := tracker_array }

/-- `SBusTracker::get_head_index`: the member, converted to the return type
`unsigned int`. -/
def get_head_index (t : SBusTracker) : Nat := t.head_index % 2 ^ 32

/-- `SBusTracker::get_rolling_sum`: the member, converted to the return type
`unsigned int`. -/
def get_rolling_sum (t : SBusTracker) : Nat := to_uint32 t.rolling_sum

/-- `SBusTracker::get_estimated`: the quotient of the `int` division, which truncates,
converted to the return type `unsigned int`. -/
def get_estimated (HISTORY_SIZE : Nat) (t : SBusTracker) : Nat :=
  to_uint32 (to_int32 (Int.tdiv t.rolling_sum (HISTORY_SIZE : Int)))

/-- The tracker after the constructor and the calls `add (v_1)`, .., `add (v_n)`. -/
def after (HISTORY_SIZE : Nat) (pre_load : Int) (vs : List Int) : SBusTracker :=
  vs.foldl (add HISTORY_SIZE) (new HISTORY_SIZE pre_load)

/-- Specification side: the last `k` elements of a list. -/
def spec_last (k : Nat) (vs : List Int) : List Int := vs.drop (vs.length - k)

/-- Specification side: one step of the constructor over the unbounded integers. -/
def spec_new_step (pre_load : Int) (t : SBusTracker) (i : Nat) : SBusTracker :=
  { t with
    tracker_array := t.tracker_array.set i pre_load
    rolling_sum := t.rolling_sum + pre_load }

/-- Specification side: the constructor over the unbounded integers. -/
def spec_new (HISTORY_SIZE : Nat) (pre_load : Int) : SBusTracker :=
  (List.range HISTORY_SIZE).foldl (spec_new_step pre_load)
    { rolling_sum := 0, head_index := 0, tracker_array := List.replicate HISTORY_SIZE 0 }

/-- Specification side: one addition over the unbounded integers. -/
def spec_add (HISTORY_SIZE : Nat) (t : SBusTracker) (v : Int) : SBusTracker :=
  { rolling_sum := t.rolling_sum - t.tracker_array.getD t.head_index 0 + v
    head_index := (t.head_index + 1) % HISTORY_SIZE
    tracker_array := t.tracker_array.set t.head_index v }

/-- Specification side: the tracker over the unbounded integers after the constructor and
the additions of `vs`. -/
def spec_after (HISTORY_SIZE : Nat) (pre_load : Int) (vs : List Int) : SBusTracker :=
  vs.foldl (spec_add HISTORY_SIZE) (spec_new HISTORY_SIZE pre_load)

end SBusTracker

/-! ## `config.hpp` -/

namespace tritonai.gkc

/-- The names `CAN_1`, `CAN_2` of the two CAN peripherals. -/
inductive CANName where
  | CAN_1
  | CAN_2
  deriving DecidableEq

/-- `CAN_THROTTLE`. -/
def CAN_THROTTLE : CANName := CANName.CAN_2

/-- `CAN_BRAKE`. -/
def CAN_BRAKE : CANName := CANName.CAN_1

/-- `CAN_STEER`. -/
def CAN_STEER : CANName := CANName.CAN_2

/-- `THROTTLE_CAN_PORT`. -/
def THROTTLE_CAN_PORT : Nat := 2

/-- `STEER_CAN_PORT`. -/
def STEER_CAN_PORT : Nat := 2

/-- `BRAKE_CAN_PORT`. -/
def BRAKE_CAN_PORT : Nat := 1

/-- `CAN2_BAUDRATE`. -/
def CAN2_BAUDRATE : Nat := 500000

/-- `MAX_BRAKE_VAL`. -/
def MAX_BRAKE_VAL : Nat := 3000

/-- `MIN_BRAKE_VAL`. -/
def MIN_BRAKE_VAL : Nat := 600

/-- `THROTTLE_CAN_ID`. -/
def THROTTLE_CAN_ID : Nat := 1

/-- `STEER_CAN_ID`. -/
def STEER_CAN_ID : Nat := 2

/-- `BRAKE_CAN_ID`. -/
def BRAKE_CAN_ID : Nat := 0x00FF0000

/-- `MOTOR_OFFSET`, the decimal literal. -/
def MOTOR_OFFSET : ℚ := 0.3

/-- The initializer list `STERING_MAPPING`: pairs `(motor angle, wheel angle)` in radians,
the decimal literals in the order in which they are written in `config.hpp`.  The map that
the code builds from them holds their `float` values: `binary32.mapping`. -/
def STERING_MAPPING : List (ℚ × ℚ) :=
  [(0, 0),
   (0.523599, 0.15708),
   (0.872665, 0.20944),
   (1.22173, 0.296706),
   (1.39626, 0.349066),
   (1.57079, 0.401425),
   (1.74532, 0.453785),
   (1.91986, 0.506145)]

/-! ## `std::map<float, float>` -/

/-- Insertion of one pair into a `std::map`, kept as the list of its pairs in increasing
key order; a key that is already present keeps its old value. -/
def std_map_insert (kv : ℚ × ℚ) : List (ℚ × ℚ) → List (ℚ × ℚ)
  | [] => [kv]
  | p :: rest =>
    if kv.1 < p.1 then kv :: p :: rest
    else if p.1 < kv.1 then p :: std_map_insert kv rest
    else p :: rest

/-- Construction of a `std::map` from an initializer list: the pairs in iteration (key)
order. -/
def std_map (init : List (ℚ × ℚ)) : List (ℚ × ℚ) :=
  init.foldl (fun m kv => std_map_insert kv m) []

/-! ## The CAN driver

`CAN` and `CANMessage` belong to the mbed library.  A bus is modelled by the history of the
calls made on it together with the answer the controller gives to a write attempt. -/

/-- mbed `CANType`. -/
inductive CANType where
  | CANData
  | CANRemote
  deriving DecidableEq

/-- mbed `CANFormat`. -/
inductive CANFormat where
  | CANStandard
  | CANExtended
  | CANAny
  deriving DecidableEq

/-- mbed `CANMessage`: identifier, payload bytes, payload length, type and format. -/
structure CANMessage where
  id : Nat
  data : List Nat
  len : Nat
  type : CANType
  format : CANFormat
  deriving DecidableEq

/-- The constructor `CANMessage(id, data, len, type, format)`: the identifier is an
`unsigned int`, at most 8 bytes are copied from `data`. -/
def CANMessage.new (id : Nat) (data : List Nat) (len : Nat) (type : CANType)
    (format : CANFormat) : CANMessage :=
  { id := id % 2 ^ 32, data := data.take (min len 8), len := min len 8,
    type := type, format := format }

/-- One call made on a bus. -/
inductive CANEvent where
  | write (msg : CANMessage) (accepted : Bool)
  | reset
  | frequency (hz : Nat)
  deriving DecidableEq

/-- A CAN interface: `accepts` is the answer of the controller to a write attempt, given
the history of the bus, and `log` is that history, oldest call first. -/
structure CAN where
  accepts : List CANEvent → CANMessage → Bool
  log : List CANEvent

/-- `CAN::write`: one write attempt, recorded with its outcome. -/
def CAN.write (c : CAN) (msg : CANMessage) : Bool × CAN :=
  let ok := c.accepts c.log msg
  (ok, { c with log := c.log ++ [CANEvent.write msg ok] })

/-- `CAN::reset`. -/
def CAN.reset (c : CAN) : CAN :=
  { c with log := c.log ++ [CANEvent.reset] }

/-- `CAN::frequency`. -/
def CAN.frequency (c : CAN) (hz : Nat) : CAN :=
  { c with log := c.log ++ [CANEvent.frequency hz] }

/-! ## `vesc_can_tools.hpp` -/

/-- The objects with static storage duration of `vesc_can_tools.hpp`: the interfaces
`can1` and `can2`, and the function-static `buffer` of `comm_can_set_brake_position`. -/
structure State where
  can1 : CAN
  can2 : CAN
  brake_buffer : List Nat

/-- The initial value of the function-static `buffer` of `comm_can_set_brake_position`. -/
def brake_buffer_init : List Nat := [0x0F, 0x4A, 0x00, 0xC0, 0, 0, 0, 0]

/-- Conversion of a `float` to a signed integer type: truncation toward zero.  (A value
outside the range of the target type has no defined result in C; the mathematical integer
is kept.) -/
def float_to_int (q : ℚ) : Int := if 0 ≤ q then ⌊q⌋ else ⌈q⌉

/-- Conversion of a `float` to `unsigned int`. -/
def float_to_uint (q : ℚ) : Nat := (float_to_int q).toNat % 2 ^ 32

/-- Conversion of an integer to `uint8_t`. -/
def to_uint8 (z : Int) : Nat := (z % 256).toNat

/-- `can_transmit_eid`: one write on `can2`; on failure `can2.reset()` and
`can2.frequency(CAN2_BAUDRATE)`. -/
def can_transmit_eid (id : Nat) (data : List Nat) (len : Nat) (w : State) : State :=
  let cMsg := CANMessage.new id data len CANType.CANData CANFormat.CANExtended
  let r := w.can2.write cMsg
  if !r.1 then
    { w with can2 := (r.2.reset).frequency CAN2_BAUDRATE }
  else
    { w with can2 := r.2 }

/-- `CAN_PACKET_SET_DUTY`. -/
def CAN_PACKET_SET_DUTY : Nat := 0

/-- `CAN_PACKET_SET_CURRENT`. -/
def CAN_PACKET_SET_CURRENT : Nat := 1

/-- `CAN_PACKET_SET_CURRENT_BRAKE`. -/
def CAN_PACKET_SET_CURRENT_BRAKE : Nat := 2

/-- `CAN_PACKET_SET_RPM`. -/
def CAN_PACKET_SET_RPM : Nat := 3

/-- `CAN_PACKET_SET_POS`. -/
def CAN_PACKET_SET_POS : Nat := 4

/-- `CAN_PACKET_SET_CURRENT_REL`. -/
def CAN_PACKET_SET_CURRENT_REL : Nat := 10

/-- `CAN_PACKET_SET_CURRENT_BRAKE_REL`. -/
def CAN_PACKET_SET_CURRENT_BRAKE_REL : Nat := 11

/-- `CAN_PACKET_SET_CURRENT_HANDBRAKE`. -/
def CAN_PACKET_SET_CURRENT_HANDBRAKE : Nat := 12

/-- `CAN_PACKET_SET_CURRENT_HANDBRAKE_REL`. -/
def CAN_PACKET_SET_CURRENT_HANDBRAKE_REL : Nat := 13

/-- `buffer_append_int16`: returns the buffer and the advanced index.  The right shift of a
signed number is the arithmetic shift. -/
def buffer_append_int16 (buffer : List Nat) (number : Int) (index : Nat) : List Nat × Nat :=
  let buffer := buffer.set index (to_uint8 (number >>> (8 : Nat)))
  let index := index + 1
  let buffer := buffer.set index (to_uint8 number)
  let index := index + 1
  (buffer, index)

/-- `buffer_append_int32`: returns the buffer and the advanced index. -/
def buffer_append_int32 (buffer : List Nat) (number : Int) (index : Nat) : List Nat × Nat :=
  let buffer := buffer.set index (to_uint8 (number >>> (24 : Nat)))
  let index := index + 1
  let buffer := buffer.set index (to_uint8 (number >>> (16 : Nat)))
  let index := index + 1
  let buffer := buffer.set index (to_uint8 (number >>> (8 : Nat)))
  let index := index + 1
  let buffer := buffer.set index (to_uint8 number)
  let index := index + 1
  (buffer, index)

/-- `buffer_append_float16`: the product of two `float` values is a `float`. -/
def buffer_append_float16 (buffer : List Nat) (number scale : ℚ) (index : Nat) :
    List Nat × Nat :=
  buffer_append_int16 buffer (float_to_int (to_float (number * scale))) index

/-- `buffer_append_float32`: the product of two `float` values is a `float`. -/
def buffer_append_float32 (buffer : List Nat) (number scale : ℚ) (index : Nat) :
    List Nat × Nat :=
  buffer_append_int32 buffer (float_to_int (to_float (number * scale))) index

/-- `comm_can_set_duty`.  As in `comm_can_set_rpm`, every cell of the local buffer is written before it is read. -/
def comm_can_set_duty (controller_id : Byte) (duty : ℚ) (w : State) : State :=
  let send_index := 0
  let buffer := List.replicate 4 0
  let r := buffer_append_int32 buffer (float_to_int (duty * 100000.0)) send_index
  can_transmit_eid (controller_id.val ||| (CAN_PACKET_SET_DUTY <<< 8)) r.1 r.2 w

/-- `comm_can_set_current`.  As in `comm_can_set_rpm`, every cell of the local buffer is written before it is read. -/
def comm_can_set_current (controller_id : Byte) (current : ℚ) (w : State) : State :=
  let send_index := 0
  let buffer := List.replicate 4 0
  let r := buffer_append_int32 buffer (float_to_int (current * 1000.0)) send_index
  can_transmit_eid (controller_id.val ||| (CAN_PACKET_SET_CURRENT <<< 8)) r.1 r.2 w

/-- `comm_can_set_current_brake`.  As in `comm_can_set_rpm`, every cell of the local buffer is written before it is read. -/
def comm_can_set_current_brake (controller_id : Byte) (current : ℚ) (w : State) : State :=
  let send_index := 0
  let buffer := List.replicate 4 0
  let r := buffer_append_int32 buffer (float_to_int (current * 1000.0)) send_index
  can_transmit_eid (controller_id.val ||| (CAN_PACKET_SET_CURRENT_BRAKE <<< 8)) r.1 r.2 w

/-- `comm_can_set_rpm`.  The local `buffer[4]` is not initialised in C; all four cells are
written before the buffer is read. -/
def comm_can_set_rpm (controller_id : Byte) (rpm : ℚ) (w : State) : State :=
  let send_index := 0
  let buffer := List.replicate 4 0
  let r := buffer_append_int32 buffer (float_to_int rpm) send_index
  can_transmit_eid (controller_id.val ||| (CAN_PACKET_SET_RPM <<< 8)) r.1 r.2 w

/-- `comm_can_set_pos`.  As in `comm_can_set_rpm`, every cell of the local buffer is written before it is read. -/
def comm_can_set_pos (controller_id : Byte) (pos : ℚ) (w : State) : State :=
  let send_index := 0
  let buffer := List.replicate 4 0
  let r := buffer_append_int32 buffer (float_to_int (-1.0 * pos * 1000000.0)) send_index
  can_transmit_eid (controller_id.val ||| (CAN_PACKET_SET_POS <<< 8)) r.1 r.2 w

/-- `comm_can_set_current_rel`.  As in `comm_can_set_rpm`, every cell of the local buffer is written before it is read. -/
def comm_can_set_current_rel (controller_id : Byte) (current_rel : ℚ) (w : State) : State :=
  let send_index := 0
  let buffer := List.replicate 4 0
  let r := buffer_append_float32 buffer current_rel 1e5 send_index
  can_transmit_eid (controller_id.val ||| (CAN_PACKET_SET_CURRENT_REL <<< 8)) r.1 r.2 w

/-- `comm_can_set_current_off_delay`.  All six cells of the local buffer are written
before it is read. -/
def comm_can_set_current_off_delay (controller_id : Byte) (current off_delay : ℚ)
    (w : State) : State :=
  let send_index := 0
  let buffer := List.replicate 6 0
  let r := buffer_append_int32 buffer (float_to_int (current * 1000.0)) send_index
  let r := buffer_append_float16 r.1 off_delay 1e3 r.2
  can_transmit_eid (controller_id.val ||| (CAN_PACKET_SET_CURRENT <<< 8)) r.1 r.2 w

/-- `comm_can_set_current_rel_off_delay`.  All six cells of the local buffer are written
before it is read. -/
def comm_can_set_current_rel_off_delay (controller_id : Byte) (current_rel off_delay : ℚ)
    (w : State) : State :=
  let send_index := 0
  let buffer := List.replicate 6 0
  let r := buffer_append_float32 buffer current_rel 1e5 send_index
  let r := buffer_append_float16 r.1 off_delay 1e3 r.2
  can_transmit_eid (controller_id.val ||| (CAN_PACKET_SET_CURRENT_REL <<< 8)) r.1 r.2 w

/-- `comm_can_set_current_brake_rel`.  As in `comm_can_set_rpm`, every cell of the local buffer is written before it is read. -/
def comm_can_set_current_brake_rel (controller_id : Byte) (current_rel : ℚ) (w : State) : State :=
  let send_index := 0
  let buffer := List.replicate 4 0
  let r := buffer_append_float32 buffer current_rel 1e5 send_index
  can_transmit_eid (controller_id.val ||| (CAN_PACKET_SET_CURRENT_BRAKE_REL <<< 8)) r.1 r.2 w

/-- `comm_can_set_handbrake`.  As in `comm_can_set_rpm`, every cell of the local buffer is written before it is read. -/
def comm_can_set_handbrake (controller_id : Byte) (current : ℚ) (w : State) : State :=
  let send_index := 0
  let buffer := List.replicate 4 0
  let r := buffer_append_float32 buffer current 1e3 send_index
  can_transmit_eid (controller_id.val ||| (CAN_PACKET_SET_CURRENT_HANDBRAKE <<< 8)) r.1 r.2 w

/-- `comm_can_set_handbrake_rel`.  As in `comm_can_set_rpm`, every cell of the local buffer is written before it is read. -/
def comm_can_set_handbrake_rel (controller_id : Byte) (current_rel : ℚ) (w : State) : State :=
  let send_index := 0
  let buffer := List.replicate 4 0
  let r := buffer_append_float32 buffer current_rel 1e5 send_index
  can_transmit_eid (controller_id.val ||| (CAN_PACKET_SET_CURRENT_HANDBRAKE_REL <<< 8)) r.1 r.2 w

/-- `comm_can_set_speed`.  The initialisers are `double` expressions stored into `float`
variables; the first three operations of `speed_to_erpm` are between `float` values, the
product with the `double` literal `60.0` is an exact `double`, stored into a `float`. -/
def comm_can_set_speed (speed_ms : ℚ) (w : State) : State :=
  let motor_poles : ℚ := 5.0
  let gear_ratio : ℚ := to_float (to_double (59.0 / 22.0))
  let wheel_circumference : ℚ := to_float (to_double 0.85)
  let speed_to_erpm :=
    to_float (to_float (to_float (to_float (speed_ms * motor_poles) * gear_ratio)
      / wheel_circumference) * 60.0)
  comm_can_set_rpm (Fin.ofNat THROTTLE_CAN_ID) speed_to_erpm w

/-- The function template `clamp`. -/
def clamp (val min max : ℚ) : ℚ :=
  if val > max then max else if val < min then min else val

/-- The function template `map_range`, at `S = D = float`, over the exact rationals. -/
def map_range (source source_min source_max dest_min dest_max : ℚ) : ℚ :=
  let source_f := clamp source source_min source_max
  let source_f := (source_f - source_min) / (source_max - source_min)
  source_f * (dest_max - dest_min) + dest_min

/-- The `for` loop of `map_steer2motor`; the list is the part of the map from `it` on.
At the last entry `std::next(it)` is `mapping.end()`, and reading `->second` through it has
no defined result: `none`.  The loop falls through to `return 0` only when the map is
empty. -/
def map_steer2motor_loop (sign : ℚ) (steer_angle : ℚ) : List (ℚ × ℚ) → Option ℚ
  | [] => some 0
  | it :: rest =>
    match rest.head? with
    | none => none
    | some next =>
      if next.2 ≥ sign * steer_angle then
        some (sign * map_range (sign * steer_angle) it.2 next.2 it.1 next.1)
      else map_steer2motor_loop sign steer_angle rest

/-- `map_steer2motor` over the exact rationals, with the decimal literals of the table. -/
def map_steer2motor (steer_angle : ℚ) : Option ℚ :=
  let mapping := std_map STERING_MAPPING
  let sign : ℚ := if steer_angle ≥ 0 then 1 else -1
  map_steer2motor_loop sign steer_angle mapping

/-- `comm_can_set_angle`.  Both initialisers are `double` expressions, evaluated from left
to right and stored into `float` variables. -/
def comm_can_set_angle (steer_angle : ℚ) (w : State) : State :=
  let motor_angle : ℚ :=
    to_float (to_double (steer_angle * 4.0 + to_double MOTOR_OFFSET))
  let rad_to_deg : ℚ :=
    to_float (to_double (to_double (180.0 / to_double 3.14159265358979323846)
      * motor_angle))
  comm_can_set_pos (Fin.ofNat STEER_CAN_ID) rad_to_deg w

/-- The local `pos` of `comm_can_set_brake_position`.  The difference of the two `int`
constants is converted to `float`, and the product of two `float` values is a `float`. -/
def comm_can_set_brake_position_pos (brake_position : ℚ) : Nat :=
  let brake_position : ℚ :=
    if brake_position < 0.0 then 0.0
    else if brake_position > 1.0 then 1.0
    else brake_position
  (float_to_uint (to_float (brake_position * ((MAX_BRAKE_VAL - MIN_BRAKE_VAL : Nat) : ℚ)))
    + MIN_BRAKE_VAL) % 2 ^ 32

/-- `comm_can_set_brake_position`. -/
def comm_can_set_brake_position (brake_position : ℚ) (w : State) : State :=
  let pos := comm_can_set_brake_position_pos brake_position
  let buffer := w.brake_buffer
  let buffer := buffer.set 2 ((pos &&& 0xFF) % 256)
  let buffer := buffer.set 3 ((0xC0 ||| ((pos >>> 8) &&& 0x1F)) % 256)
  can_transmit_eid BRAKE_CAN_ID buffer 8 { w with brake_buffer := buffer }

/-! ## The steering table and its traversal in binary32 -/

namespace binary32

/-- The local `std::map<float, float> mapping` of `map_steer2motor`: every literal of the
initializer list `STERING_MAPPING` is a `double`, converted to `float` when its pair is
built. -/
def mapping : List (ℚ × ℚ) :=
  std_map (STERING_MAPPING.map
    (fun kv => (to_float (to_double kv.1), to_float (to_double kv.2))))

/-- The function template `map_range` at `S = D = float`: every operation is between
`float` values. -/
def map_range (source source_min source_max dest_min dest_max : ℚ) : ℚ :=
  let source_f := clamp source source_min source_max
  let source_f :=
    to_float (to_float (source_f - source_min) / to_float (source_max - source_min))
  to_float (to_float (source_f * to_float (dest_max - dest_min)) + dest_min)

/-- The `for` loop of `map_steer2motor`; the list is the part of the map from `it` on, and
`none` is the read of `->second` through `mapping.end()`.  The comparison and the products
with `sign` are exact. -/
def map_steer2motor_loop (sign : ℚ) (steer_angle : ℚ) : List (ℚ × ℚ) → Option ℚ
  | [] => some 0
  | it :: rest =>
    match rest.head? with
    | none => none
    | some next =>
      if next.2 ≥ sign * steer_angle then
        some (sign * map_range (sign * steer_angle) it.2 next.2 it.1 next.1)
      else map_steer2motor_loop sign steer_angle rest

/-- `map_steer2motor`, for a `float` argument. -/
def map_steer2motor (steer_angle : ℚ) : Option ℚ :=
  let sign : ℚ := if steer_angle ≥ 0 then 1 else -1
  map_steer2motor_loop sign steer_angle mapping

end binary32

/-! ## Specification-side notions for the steering table -/

/-- Entry `i` of a table. -/
def tableAt (tbl : List (ℚ × ℚ)) (i : Nat) : ℚ × ℚ := tbl.getD i (0, 0)

/-- Specification side: the linear interpolation
`m_i + (a - w_i) / (w_{i+1} - w_i) * (m_{i+1} - m_i)` between entries `i` and `i + 1`. -/
def interpolate (tbl : List (ℚ × ℚ)) (i : Nat) (a : ℚ) : ℚ :=
  (tableAt tbl i).1
    + (a - (tableAt tbl i).2) / ((tableAt tbl (i + 1)).2 - (tableAt tbl i).2)
      * ((tableAt tbl (i + 1)).1 - (tableAt tbl i).1)

/-- Specification side: entries `i`, `i + 1` are the first consecutive pairs of the table
with `w_{i+1} ≥ a`. -/
def isFirstBracket (tbl : List (ℚ × ℚ)) (i : Nat) (a : ℚ) : Prop :=
  i + 1 < tbl.length ∧ (∀ j, j < i → (tableAt tbl (j + 1)).2 < a) ∧ a ≤ (tableAt tbl (i + 1)).2

/-- Specification side: the sign of a rational, `1`, `0` or `-1`. -/
def sgn (x : ℚ) : ℚ := if 0 < x then 1 else if x < 0 then -1 else 0

/-- The set-RPM frame with an all-zero payload, addressed to `0x301`. -/
def zero_rpm_frame : CANMessage :=
  { id := 0x301, data := [0, 0, 0, 0], len := 4,
    type := CANType.CANData, format := CANFormat.CANExtended }

/-! ## Specification-side notions for the frame layout -/

/-- Specification side: the two bytes of the 16-bit two's-complement representation of
`v`, most significant first. -/
def spec_be16 (v : Int) : List Nat :=
  let u := (v % 2 ^ 16).toNat
  [u / 2 ^ 8 % 256, u % 256]

/-- Specification side: the four bytes of the 32-bit two's-complement representation of
`v`, most significant first. -/
def spec_be32 (v : Int) : List Nat :=
  let u := (v % 2 ^ 32).toNat
  [u / 2 ^ 24 % 256, u / 2 ^ 16 % 256, u / 2 ^ 8 % 256, u % 256]

/-- Specification side: the unsigned number written by a byte string, most significant
byte first. -/
def spec_read_be (bytes : List Nat) : Nat :=
  bytes.foldl (fun acc b => acc * 256 + b) 0

/-- Specification side: the `bits`-bit two's-complement reading of an unsigned number. -/
def spec_signed (bits : Nat) (u : Nat) : Int :=
  if u < 2 ^ (bits - 1) then (u : Int) else (u : Int) - 2 ^ bits

/-- The command types of `CAN_PACKET_ID` that the encoders use. -/
def CAN_PACKET_IDs : List Nat :=
  [CAN_PACKET_SET_DUTY, CAN_PACKET_SET_CURRENT, CAN_PACKET_SET_CURRENT_BRAKE,
   CAN_PACKET_SET_RPM, CAN_PACKET_SET_POS, CAN_PACKET_SET_CURRENT_REL,
   CAN_PACKET_SET_CURRENT_BRAKE_REL, CAN_PACKET_SET_CURRENT_HANDBRAKE,
   CAN_PACKET_SET_CURRENT_HANDBRAKE_REL]

/-- Specification side: truncation toward zero, as the quotient of the numerator by the
denominator. -/
def spec_trunc (q : ℚ) : Int := q.num.tdiv q.den

/-- Specification side: the truncation of `q` fits a signed integer of `bits` bits, which
is when the conversion of `q` to that type is defined. -/
def spec_fits (bits : Nat) (q : ℚ) : Prop :=
  -2 ^ (bits - 1) ≤ spec_trunc q ∧ spec_trunc q < 2 ^ (bits - 1)

/-- Specification side: the value `speed_to_erpm` for the speed `s`, with the gear ratio
and the wheel circumference as the `float` values `11248361 / 2 ^ 22` and
`7130317 / 2 ^ 23`: four operations, each rounded to `float`. -/
def spec_speed_to_erpm (s : ℚ) : ℚ :=
  to_float (to_float (to_float (to_float (s * 5) * (11248361 / 4194304))
    / (7130317 / 8388608)) * 60)

/-- Specification side: the value `rad_to_deg` for the steering angle `a`, with the motor
offset and the factor `180 / pi` as the `double` values `5404319552844595 / 2 ^ 54` and
`1007958012753983 / 2 ^ 44`. -/
def spec_rad_to_deg (a : ℚ) : ℚ :=
  to_float (to_double (1007958012753983 / 17592186044416
    * to_float (to_double (a * 4 + 5404319552844595 / 18014398509481984))))

/-- Specification side: a field of a payload, a signed integer of 32 or of 16 bits. -/
inductive PayloadField where
  | int32 (v : Int)
  | int16 (v : Int)

/-- Specification side: the bytes of a field, most significant first. -/
def PayloadField.bytes : PayloadField → List Nat
  | PayloadField.int32 v => spec_be32 v
  | PayloadField.int16 v => spec_be16 v

/-- Specification side: the canonical layout of the frame that carries the field values
`fields` to the controller `controller_id` with the command `command_type`.  The address is
`controller_id | (command_type << 8)` for an 8-bit controller and a command type of
`CAN_PACKET_ID`, the payload has `len` bytes with `2 ≤ len ≤ 6`, and it consists of the
fields in their order, each with its most significant byte first. -/
def isCanonicalFrame (controller_id command_type : Nat) (fields : List PayloadField)
    (msg : CANMessage) : Prop :=
  controller_id < 256 ∧ command_type ∈ CAN_PACKET_IDs
  ∧ msg.id = controller_id ||| (command_type <<< 8)
  ∧ 2 ≤ msg.len ∧ msg.len ≤ 6 ∧ msg.data.length = msg.len
  ∧ msg.data = (fields.map PayloadField.bytes).flatten
  ∧ msg.type = CANType.CANData ∧ msg.format = CANFormat.CANExtended

/-- Specification side: the frames of the write attempts in a bus history. -/
def framesOf : List CANEvent → List CANMessage
  | [] => []
  | CANEvent.write msg _ :: rest => msg :: framesOf rest
  | _ :: rest => framesOf rest

/-- Specification side: a command makes one write attempt on `can2`, and its frame has the
canonical layout for the given controller, command type and field values. -/
def sendsCanonicalFrame (f : State → State) (controller_id command_type : Nat)
    (fields : List PayloadField) : Prop :=
  ∀ w, ∃ msg, framesOf (f w).can2.log = framesOf w.can2.log ++ [msg]
    ∧ isCanonicalFrame controller_id command_type fields msg

/-- Specification side: the frame of the last write attempt on `can2`. -/
def lastFrame (w : State) : Option CANMessage := (framesOf w.can2.log).getLast?

/-- The eleven VESC command encoders in the order of the source, each with the command type
of `CAN_PACKET_ID` that its address carries. -/
def vescEncoders (controller_id : Byte) (x off_delay : ℚ) : List (Nat × (State → State)) :=
  [(CAN_PACKET_SET_DUTY, comm_can_set_duty controller_id x),
   (CAN_PACKET_SET_CURRENT, comm_can_set_current controller_id x),
   (CAN_PACKET_SET_CURRENT_BRAKE, comm_can_set_current_brake controller_id x),
   (CAN_PACKET_SET_RPM, comm_can_set_rpm controller_id x),
   (CAN_PACKET_SET_POS, comm_can_set_pos controller_id x),
   (CAN_PACKET_SET_CURRENT_REL, comm_can_set_current_rel controller_id x),
   (CAN_PACKET_SET_CURRENT, comm_can_set_current_off_delay controller_id x off_delay),
   (CAN_PACKET_SET_CURRENT_REL, comm_can_set_current_rel_off_delay controller_id x off_delay),
   (CAN_PACKET_SET_CURRENT_BRAKE_REL, comm_can_set_current_brake_rel controller_id x),
   (CAN_PACKET_SET_CURRENT_HANDBRAKE, comm_can_set_handbrake controller_id x),
   (CAN_PACKET_SET_CURRENT_HANDBRAKE_REL, comm_can_set_handbrake_rel controller_id x)]

/-- The interface object that drives a CAN peripheral: `can1` is constructed on the pins
of CAN 1 and `can2` on those of CAN 2. -/
def State.bus (w : State) : CANName → CAN
  | CANName.CAN_1 => w.can1
  | CANName.CAN_2 => w.can2

/-- Specification side: the brake frame for the position value `pos`, the 8 bytes
`0x0F, 0x4A, pos & 0xFF, 0xC0 | ((pos >> 8) & 0x1F), 0, 0, 0, 0` at the extended
identifier `0x00FF0000`. -/
def spec_brake_frame (pos : Nat) : CANMessage :=
  { id := 0x00FF0000
    data := [0x0F, 0x4A, pos &&& 0xFF, 0xC0 ||| ((pos >>> 8) &&& 0x1F), 0, 0, 0, 0]
    len := 8
    type := CANType.CANData
    format := CANFormat.CANExtended }

/-- The shape that the function-static buffer of `comm_can_set_brake_position` keeps: only
the cells 2 and 3 are ever written. -/
def brakeBufferShape (w : State) : Prop :=
  ∃ b2 b3 : Nat, w.brake_buffer = [0x0F, 0x4A, b2, b3, 0, 0, 0, 0]

/-- The state after a sequence of earlier calls of `comm_can_set_brake_position`. -/
def afterBrakeCalls (earlier : List ℚ) (w : State) : State :=
  earlier.foldl (fun w b => comm_can_set_brake_position b w) w

/-- The state in which nothing has been sent: both buses with an empty history and a
controller that accepts every write, and the function-static buffer at its initial
value. -/
def initialState : State :=
  { can1 := { accepts := fun _ _ => true, log := [] }
    can2 := { accepts := fun _ _ => true, log := [] }
    brake_buffer := brake_buffer_init }

/-- The initial state with a second bus whose controller rejects every write. -/
def rejectingState : State :=
  { initialState with can2 := { accepts := fun _ _ => false, log := [] } }

end tritonai.gkc

/-! ## Theorems: binary floating-point arithmetic -/

/-- The rounded integer is the floor or its successor, at a distance of at most one half. -/
theorem round_half_even_bounds (q : ℚ) :
    (⌊q⌋ ≤ round_half_even q ∧ round_half_even q ≤ ⌊q⌋ + 1)
    ∧ |q - round_half_even q| ≤ 1 / 2 := by
  have h1 := Int.floor_le q
  have h2 := Int.lt_floor_add_one q
  unfold round_half_even
  simp only
  split_ifs with a b c
  · refine ⟨⟨le_rfl, by omega⟩, ?_⟩
    rw [abs_le]; constructor <;> linarith
  · refine ⟨⟨by omega, le_rfl⟩, ?_⟩
    push_cast
    rw [abs_le]; constructor <;> linarith
  · refine ⟨⟨le_rfl, by omega⟩, ?_⟩
    rw [abs_le]; constructor <;> linarith
  · refine ⟨⟨by omega, le_rfl⟩, ?_⟩
    push_cast
    rw [abs_le]; constructor <;> linarith

/-- An integer is its own rounding. -/
theorem round_half_even_intCast (n : Int) : round_half_even (n : ℚ) = n := by
  unfold round_half_even
  simp

/-- An integer at a distance below one half is the rounding. -/
theorem round_half_even_eq_of_lt (q : ℚ) (n : Int) (h : |q - n| < 1 / 2) :
    round_half_even q = n := by
  obtain ⟨_, hb⟩ := round_half_even_bounds q
  rw [abs_lt] at h
  rw [abs_le] at hb
  have h3 : ((round_half_even q - n : Int) : ℚ) < 1 := by push_cast; linarith
  have h4 : (-1 : ℚ) < ((round_half_even q - n : Int) : ℚ) := by push_cast; linarith
  have h5 : round_half_even q - n < 1 := by exact_mod_cast h3
  have h6 : -1 < round_half_even q - n := by exact_mod_cast h4
  omega

/-- Rounding to an integer is monotone. -/
theorem round_half_even_mono {a b : ℚ} (h : a ≤ b) : round_half_even a ≤ round_half_even b := by
  have hf : ⌊a⌋ ≤ ⌊b⌋ := Int.floor_mono h
  obtain ⟨⟨a1, a2⟩, _⟩ := round_half_even_bounds a
  obtain ⟨⟨b1, b2⟩, _⟩ := round_half_even_bounds b
  rcases hf.lt_or_eq with hlt | heq
  · omega
  · unfold round_half_even
    simp only [heq]
    split_ifs <;> first | omega | linarith

/-- Rounding to an integer is an odd function. -/
theorem round_half_even_neg (q : ℚ) : round_half_even (-q) = - round_half_even q := by
  by_cases hq : (⌊q⌋ : ℚ) = q
  · rw [← hq, ← Int.cast_neg, round_half_even_intCast, round_half_even_intCast]
  · have h1 := Int.floor_le q
    have h2 := Int.lt_floor_add_one q
    have h1l : (⌊q⌋ : ℚ) < q := lt_of_le_of_ne h1 hq
    have hfl : ⌊-q⌋ = -⌊q⌋ - 1 := by
      rw [Int.floor_eq_iff]
      push_cast
      constructor <;> linarith
    unfold round_half_even
    simp only [hfl]
    push_cast
    split_ifs <;> first | omega | linarith

/-- Zero is its own rounding. -/
theorem round_binary_zero (p : Nat) (emin : Int) : round_binary p emin 0 = 0 := by
  simp [round_binary]

/-- Rounding to a binary format is an odd function. -/
theorem round_binary_neg (p : Nat) (emin : Int) (q : ℚ) :
    round_binary p emin (-q) = - round_binary p emin q := by
  unfold round_binary
  by_cases h : q = 0
  · simp [h]
  · simp only [neg_eq_zero, if_neg h, abs_neg, neg_div, round_half_even_neg]
    push_cast
    ring

/-- The binade of a positive rational. -/
theorem log_eq_of_bounds (q : ℚ) (e : Int) (h1 : (2 : ℚ) ^ e ≤ q) (h2 : q < (2 : ℚ) ^ (e + 1)) :
    Int.log 2 q = e := by
  have hq : 0 < q := lt_of_lt_of_le (by positivity) h1
  have a : e ≤ Int.log 2 q := by
    rw [← Int.zpow_le_iff_le_log (by norm_num) hq]
    exact_mod_cast h1
  have b : Int.log 2 q < e + 1 := by
    rw [← Int.lt_zpow_iff_log_lt (by norm_num) hq]
    exact_mod_cast h2
  omega

/-- Evaluation of a rounding: for `q` in the binade of exponent `e`, not below the least
normal exponent, the multiple `n` of the unit in the last place at a distance below half a
unit is the rounded value. -/
theorem round_binary_eq (p : Nat) (emin : Int) (q : ℚ) (e n : Int)
    (h1 : (2 : ℚ) ^ e ≤ |q|) (h2 : |q| < (2 : ℚ) ^ (e + 1)) (hemin : emin ≤ e)
    (hn : |q / 2 ^ (e - ((p : Int) - 1)) - n| < 1 / 2) :
    round_binary p emin q = n * 2 ^ (e - ((p : Int) - 1)) := by
  have hq : q ≠ 0 := by
    intro h
    rw [h, abs_zero] at h1
    exact absurd h1 (not_le.mpr (by positivity))
  unfold round_binary
  rw [if_neg hq]
  simp only [log_eq_of_bounds _ e h1 h2, max_eq_left hemin, round_half_even_eq_of_lt _ n hn]

/-- For a positive `q` in the binade `e` the rounded value lies in the closed binade, and
below the least normal exponent it lies between `0` and the least normal number. -/
theorem round_binary_range (p : Nat) (hp : 0 < p) (emin : Int) (q : ℚ) (hq : 0 < q) :
    (emin ≤ Int.log 2 q → (2 : ℚ) ^ (Int.log 2 q) ≤ round_binary p emin q)
    ∧ 0 ≤ round_binary p emin q
    ∧ round_binary p emin q ≤ (2 : ℚ) ^ (max (Int.log 2 q) emin + 1) := by
  have habs : |q| = q := abs_of_pos hq
  have hlo : ((2 : ℕ) : ℚ) ^ Int.log 2 q ≤ q := Int.zpow_log_le_self (by norm_num) hq
  have hhi : q < ((2 : ℕ) : ℚ) ^ (Int.log 2 q + 1) := Int.lt_zpow_succ_log_self (by norm_num) q
  rw [Nat.cast_ofNat] at hlo hhi
  set e := max (Int.log 2 q) emin with he
  have hu : (0 : ℚ) < 2 ^ (e - ((p : Int) - 1)) := by positivity
  have hval : round_binary p emin q
      = round_half_even (q / 2 ^ (e - ((p : Int) - 1))) * 2 ^ (e - ((p : Int) - 1)) := by
    unfold round_binary
    rw [if_neg hq.ne', habs]
  have hpow : ∀ k : Int, (2 : ℚ) ^ k = ((2 ^ (p - 1) : Int) : ℚ) * 2 ^ (k - ((p : Int) - 1)) := by
    intro k
    have : ((2 ^ (p - 1) : Int) : ℚ) = (2 : ℚ) ^ ((p : Int) - 1) := by
      push_cast
      rw [← zpow_natCast]
      congr 1
      omega
    rw [this, ← zpow_add₀ (by norm_num : (2 : ℚ) ≠ 0)]
    congr 1
    ring
  refine ⟨fun hem => ?_, ?_, ?_⟩
  · have hee : e = Int.log 2 q := max_eq_left hem
    rw [hval, hee, hpow (Int.log 2 q)]
    apply mul_le_mul_of_nonneg_right _ (by positivity)
    have : ((2 ^ (p - 1) : Int) : ℚ) ≤ q / 2 ^ (Int.log 2 q - ((p : Int) - 1)) := by
      rw [le_div_iff₀ (by positivity), ← hpow]
      exact hlo
    have := round_half_even_mono this
    rw [round_half_even_intCast] at this
    exact_mod_cast this
  · rw [hval]
    apply mul_nonneg _ hu.le
    have : ((0 : Int) : ℚ) ≤ q / 2 ^ (e - ((p : Int) - 1)) := by
      push_cast
      positivity
    have := round_half_even_mono this
    rw [round_half_even_intCast] at this
    exact_mod_cast this
  · have hq2 : q ≤ (2 : ℚ) ^ (e + 1) := by
      refine le_trans hhi.le ?_
      apply zpow_le_zpow_right₀ (by norm_num)
      have := le_max_left (Int.log 2 q) emin
      omega
    have e2 : (2 : ℚ) ^ (e + 1) = ((2 ^ p : Int) : ℚ) * 2 ^ (e - ((p : Int) - 1)) := by
      have : ((2 ^ p : Int) : ℚ) = (2 : ℚ) ^ (p : Int) := by
        push_cast
        rw [zpow_natCast]
      rw [this, ← zpow_add₀ (by norm_num : (2 : ℚ) ≠ 0)]
      congr 1
      ring
    rw [hval, e2]
    apply mul_le_mul_of_nonneg_right _ hu.le
    have : q / 2 ^ (e - ((p : Int) - 1)) ≤ ((2 ^ p : Int) : ℚ) := by
      rw [div_le_iff₀ hu, ← e2]
      exact hq2
    have := round_half_even_mono this
    rw [round_half_even_intCast] at this
    exact_mod_cast this

/-- The rounding of a non-negative value is not negative. -/
theorem round_binary_nonneg (p : Nat) (hp : 0 < p) (emin : Int) (q : ℚ) (hq : 0 ≤ q) :
    0 ≤ round_binary p emin q := by
  rcases hq.lt_or_eq with h | h
  · exact (round_binary_range p hp emin q h).2.1
  · rw [← h, round_binary_zero]

/-- Rounding is monotone on the positive values. -/
theorem round_binary_mono_pos (p : Nat) (hp : 0 < p) (emin : Int) (a b : ℚ) (ha : 0 < a)
    (hab : a ≤ b) : round_binary p emin a ≤ round_binary p emin b := by
  have hb : 0 < b := lt_of_lt_of_le ha hab
  have hlog : Int.log 2 a ≤ Int.log 2 b := Int.log_mono_right ha hab
  rcases (max_le_max hlog (le_refl emin)).lt_or_eq with hlt | heq
  · have hbn : emin ≤ Int.log 2 b := by
      by_contra hc
      rw [max_eq_right (not_le.mp hc).le] at hlt
      exact absurd (le_max_right _ _) (not_le.mpr hlt)
    rw [max_eq_left hbn] at hlt
    have h1 := (round_binary_range p hp emin a ha).2.2
    have h2 := (round_binary_range p hp emin b hb).1 hbn
    refine le_trans h1 (le_trans ?_ h2)
    apply zpow_le_zpow_right₀ (by norm_num)
    omega
  · unfold round_binary
    rw [if_neg ha.ne', if_neg hb.ne', abs_of_pos ha, abs_of_pos hb]
    simp only [heq]
    apply mul_le_mul_of_nonneg_right _ (by positivity)
    have : a / 2 ^ (max (Int.log 2 b) emin - ((p : Int) - 1))
        ≤ b / 2 ^ (max (Int.log 2 b) emin - ((p : Int) - 1)) :=
      div_le_div_of_nonneg_right hab (by positivity)
    exact_mod_cast round_half_even_mono this

/-- Rounding to a binary format is monotone. -/
theorem round_binary_mono (p : Nat) (hp : 0 < p) (emin : Int) {a b : ℚ} (hab : a ≤ b) :
    round_binary p emin a ≤ round_binary p emin b := by
  rcases lt_trichotomy a 0 with ha | ha | ha
  · rcases lt_or_le b 0 with hb | hb
    · have := round_binary_mono_pos p hp emin (-b) (-a) (by linarith) (by linarith)
      rw [round_binary_neg, round_binary_neg] at this
      linarith
    · have h1 := round_binary_nonneg p hp emin (-a) (by linarith)
      rw [round_binary_neg] at h1
      have h2 := round_binary_nonneg p hp emin b hb
      linarith
  · subst ha
    rw [round_binary_zero]
    exact round_binary_nonneg p hp emin b hab
  · exact round_binary_mono_pos p hp emin a b ha hab

/-- The rounding error is at most half a unit in the last place. -/
theorem round_binary_error (p : Nat) (emin : Int) (q : ℚ) (e : Int)
    (h2 : |q| < (2 : ℚ) ^ (e + 1)) (hemin : emin ≤ e) :
    |round_binary p emin q - q| ≤ (2 : ℚ) ^ (e - (p : Int)) := by
  by_cases hq : q = 0
  · rw [hq, round_binary_zero, sub_zero, abs_zero]
    positivity
  · have hpos : 0 < |q| := abs_pos.mpr hq
    have hl : Int.log 2 |q| < e + 1 := by
      rw [← Int.lt_zpow_iff_log_lt (by norm_num) hpos]
      exact_mod_cast h2
    have he : max (Int.log 2 |q|) emin ≤ e := max_le (by omega) hemin
    unfold round_binary
    rw [if_neg hq]
    simp only
    generalize max (Int.log 2 |q|) emin = e1 at he
    have hu : (0 : ℚ) < 2 ^ (e1 - ((p : Int) - 1)) := by positivity
    have hb := (round_half_even_bounds (q / 2 ^ (e1 - ((p : Int) - 1)))).2
    have e1' : (round_half_even (q / 2 ^ (e1 - ((p : Int) - 1))) : ℚ) * 2 ^ (e1 - ((p : Int) - 1)) - q
        = -((q / 2 ^ (e1 - ((p : Int) - 1)) - round_half_even (q / 2 ^ (e1 - ((p : Int) - 1))))
            * 2 ^ (e1 - ((p : Int) - 1))) := by
      field_simp
      ring
    rw [e1', abs_neg, abs_mul, abs_of_pos hu]
    have hhalf : (1 / 2 : ℚ) * 2 ^ (e1 - ((p : Int) - 1)) = 2 ^ (e1 - (p : Int)) := by
      have : e1 - ((p : Int) - 1) = (e1 - (p : Int)) + 1 := by ring
      rw [this, zpow_add_one₀ (by norm_num : (2 : ℚ) ≠ 0)]
      ring
    calc |q / 2 ^ (e1 - ((p : Int) - 1)) - round_half_even (q / 2 ^ (e1 - ((p : Int) - 1)))|
          * 2 ^ (e1 - ((p : Int) - 1))
        ≤ 1 / 2 * 2 ^ (e1 - ((p : Int) - 1)) := mul_le_mul_of_nonneg_right hb hu.le
      _ = 2 ^ (e1 - (p : Int)) := hhalf
      _ ≤ 2 ^ (e - (p : Int)) := zpow_le_zpow_right₀ (by norm_num) (by omega)

/-- Zero is a `float`. -/
theorem to_float_zero : to_float 0 = 0 := round_binary_zero _ _

/-- Rounding to `float` is an odd function. -/
theorem to_float_neg (q : ℚ) : to_float (-q) = - to_float q := round_binary_neg _ _ q

/-- Rounding to `float` is monotone. -/
theorem to_float_mono {a b : ℚ} (h : a ≤ b) : to_float a ≤ to_float b :=
  round_binary_mono 24 (by norm_num) _ h

/-- The `float` of a non-negative value is not negative. -/
theorem to_float_nonneg {q : ℚ} (h : 0 ≤ q) : 0 ≤ to_float q :=
  round_binary_nonneg 24 (by norm_num) _ q h

/-- The `float` of a value that is not positive is not positive. -/
theorem to_float_nonpos {q : ℚ} (h : q ≤ 0) : to_float q ≤ 0 := by
  have := to_float_mono h
  rwa [to_float_zero] at this

/-- Evaluation of a rounding to `float`. -/
theorem to_float_eq (q : ℚ) (e n : Int) (h1 : (2 : ℚ) ^ e ≤ |q|) (h2 : |q| < (2 : ℚ) ^ (e + 1))
    (hemin : -126 ≤ e) (hn : |q / 2 ^ (e - 23) - n| < 1 / 2) :
    to_float q = n * 2 ^ (e - 23) :=
  round_binary_eq 24 (-126) q e n h1 h2 hemin hn

/-- Evaluation of a rounding to `double`. -/
theorem to_double_eq (q : ℚ) (e n : Int) (h1 : (2 : ℚ) ^ e ≤ |q|) (h2 : |q| < (2 : ℚ) ^ (e + 1))
    (hemin : -1022 ≤ e) (hn : |q / 2 ^ (e - 52) - n| < 1 / 2) :
    to_double q = n * 2 ^ (e - 52) :=
  round_binary_eq 53 (-1022) q e n h1 h2 hemin hn

/-! ## Theorems: SBUS channel decoding -/

namespace FUTABA_SBUS

/-- A bitwise OR with a left-shifted operand is a sum when the other operand is below the
shift. -/
theorem lor_shiftLeft_eq_add (a b i : Nat) (h : a < 2 ^ i) :
    a ||| (b <<< i) = a + b * 2 ^ i := by
  rw [Nat.lor_comm, Nat.shiftLeft_eq, Nat.mul_comm, ← Nat.mul_add_lt_is_or h]
  omega

/-- Masking with `0x07FF` keeps the value modulo `2048`. -/
theorem and_2047 (x : Nat) : x &&& 2047 = x % 2048 :=
  Nat.and_pow_two_sub_one_eq_mod x 11

/-- Masking with `0x03` keeps the value modulo `4`. -/
theorem and_3 (x : Nat) : x &&& 3 = x % 4 :=
  Nat.and_pow_two_sub_one_eq_mod x 2

/-- Masking with `0x01` keeps the value modulo `2`. -/
theorem and_1 (x : Nat) : x &&& 1 = x % 2 :=
  Nat.and_pow_two_sub_one_eq_mod x 1

set_option maxHeartbeats 4000000 in
/-- Claim C1.  For every 25-byte frame buffer with the frame-ready flag set,
`UpdateChannels` sets `channels[k]`, for every `k` in `0..15`, to the 11-bit value formed
by bits `11 k .. 11 k + 10` of the little-endian bit stream of `frameBuffer[1..22]`;
every decoded channel is at most `2047`. -/
theorem UpdateChannels_decodes_bit_stream (s : FUTABA_SBUS) (h : s.toChannels ≠ 0)
    (k : Fin 16) :
    (UpdateChannels s).channels k = spec_channel s.frameBuffer k.val
      ∧ (UpdateChannels s).channels k ≤ 2047 := by
  have hb : ∀ i, (s.frameBuffer i).val < 256 := fun i => (s.frameBuffer i).isLt
  have h1 := hb 1; have h2 := hb 2; have h3 := hb 3; have h4 := hb 4; have h5 := hb 5
  have h6 := hb 6; have h7 := hb 7; have h8 := hb 8; have h9 := hb 9; have h10 := hb 10
  have h11 := hb 11; have h12 := hb 12; have h13 := hb 13; have h14 := hb 14
  have h15 := hb 15; have h16 := hb 16; have h17 := hb 17; have h18 := hb 18
  have h19 := hb 19; have h20 := hb 20; have h21 := hb 21; have h22 := hb 22
  clear hb
  fin_cases k <;>
  · simp only [UpdateChannels, if_neg h, spec_channel, spec_streamBit, List.range,
      List.range.loop, Fin.ofNat, and_2047, and_3, and_1, Nat.shiftRight_eq_div_pow]
    simp
    try rw [lor_shiftLeft_eq_add (_ / _) _ _ (by omega)]
    repeat rw [lor_shiftLeft_eq_add _ _ _ (by omega)]
    omega

/-- Claim C1 applied to the sample state, at channel 3. -/
theorem UpdateChannels_decodes_bit_stream_witness :
    sampleState.toChannels ≠ 0
      ∧ (UpdateChannels sampleState).channels 3 = spec_channel sampleState.frameBuffer 3
      ∧ (UpdateChannels sampleState).channels 3 ≤ 2047 :=
  ⟨by decide, UpdateChannels_decodes_bit_stream sampleState (by decide) 3⟩

end FUTABA_SBUS

/-! ## Theorems: steering table and `map_steer2motor` -/

namespace tritonai.gkc

/-- The map built from `STERING_MAPPING` iterates in the order of the initializer list. -/
theorem std_map_STERING_MAPPING : std_map STERING_MAPPING = STERING_MAPPING := by
  norm_num [std_map, STERING_MAPPING, std_map_insert]

/-- Inside the source range `clamp` is the identity. -/
theorem clamp_of_mem {v lo hi : ℚ} (h1 : lo ≤ v) (h2 : v ≤ hi) : clamp v lo hi = v := by
  unfold clamp
  rw [if_neg (not_lt.mpr h2), if_neg (not_lt.mpr h1)]

/-- Inside the source range `map_range` is the interpolation formula. -/
theorem map_range_of_mem {a lo hi : ℚ} (dlo dhi : ℚ) (h1 : lo ≤ a) (h2 : a ≤ hi) :
    map_range a lo hi dlo dhi = dlo + (a - lo) / (hi - lo) * (dhi - dlo) := by
  simp only [map_range, clamp_of_mem h1 h2]
  ring

/-- The saved sign times the angle is the magnitude of the angle. -/
theorem sign_mul_eq_abs (x : ℚ) : (if x ≥ 0 then (1 : ℚ) else -1) * x = |x| := by
  split_ifs with h
  · rw [one_mul, abs_of_nonneg h]
  · rw [abs_of_neg (lt_of_not_le h)]
    ring

set_option linter.unnecessarySeqFocus false in
/-- For `0 ≤ a ≤ 0.506145` the traversal of the table returns at the first bracketing pair,
with the interpolated value. -/
theorem loop_bracket (sg x a : ℚ) (ha : sg * x = a) (h0 : 0 ≤ a) (h7 : a ≤ 0.506145) :
    ∃ i, isFirstBracket STERING_MAPPING i a ∧
      map_steer2motor_loop sg x STERING_MAPPING
        = some (sg * interpolate STERING_MAPPING i a) := by
  by_cases c1 : a ≤ 0.15708
  · refine ⟨0, ⟨by simp [STERING_MAPPING], fun j hj => by omega,
      by simpa [tableAt, STERING_MAPPING] using c1⟩, ?_⟩
    simp only [map_steer2motor_loop, STERING_MAPPING, List.head?, ha, ge_iff_le,
      if_pos c1]
    rw [map_range_of_mem _ _ h0 c1]
    simp [interpolate, tableAt]
  by_cases c2 : a ≤ 0.20944
  · refine ⟨1, ⟨by simp [STERING_MAPPING], fun j hj => by
      interval_cases j <;> norm_num [tableAt, STERING_MAPPING] <;> linarith,
      by simpa [tableAt, STERING_MAPPING] using c2⟩, ?_⟩
    simp only [map_steer2motor_loop, STERING_MAPPING, List.head?, ha, ge_iff_le,
      if_pos c2, if_neg c1]
    rw [map_range_of_mem _ _ (le_of_not_le c1) c2]
    simp [interpolate, tableAt]
  by_cases c3 : a ≤ 0.296706
  · refine ⟨2, ⟨by simp [STERING_MAPPING], fun j hj => by
      interval_cases j <;> norm_num [tableAt, STERING_MAPPING] <;> linarith,
      by simpa [tableAt, STERING_MAPPING] using c3⟩, ?_⟩
    simp only [map_steer2motor_loop, STERING_MAPPING, List.head?, ha, ge_iff_le,
      if_pos c3, if_neg c1, if_neg c2]
    rw [map_range_of_mem _ _ (le_of_not_le c2) c3]
    simp [interpolate, tableAt]
  by_cases c4 : a ≤ 0.349066
  · refine ⟨3, ⟨by simp [STERING_MAPPING], fun j hj => by
      interval_cases j <;> norm_num [tableAt, STERING_MAPPING] <;> linarith,
      by simpa [tableAt, STERING_MAPPING] using c4⟩, ?_⟩
    simp only [map_steer2motor_loop, STERING_MAPPING, List.head?, ha, ge_iff_le,
      if_pos c4, if_neg c1, if_neg c2, if_neg c3]
    rw [map_range_of_mem _ _ (le_of_not_le c3) c4]
    simp [interpolate, tableAt]
  by_cases c5 : a ≤ 0.401425
  · refine ⟨4, ⟨by simp [STERING_MAPPING], fun j hj => by
      interval_cases j <;> norm_num [tableAt, STERING_MAPPING] <;> linarith,
      by simpa [tableAt, STERING_MAPPING] using c5⟩, ?_⟩
    simp only [map_steer2motor_loop, STERING_MAPPING, List.head?, ha, ge_iff_le,
      if_pos c5, if_neg c1, if_neg c2, if_neg c3, if_neg c4]
    rw [map_range_of_mem _ _ (le_of_not_le c4) c5]
    simp [interpolate, tableAt]
  by_cases c6 : a ≤ 0.453785
  · refine ⟨5, ⟨by simp [STERING_MAPPING], fun j hj => by
      interval_cases j <;> norm_num [tableAt, STERING_MAPPING] <;> linarith,
      by simpa [tableAt, STERING_MAPPING] using c6⟩, ?_⟩
    simp only [map_steer2motor_loop, STERING_MAPPING, List.head?, ha, ge_iff_le,
      if_pos c6, if_neg c1, if_neg c2, if_neg c3, if_neg c4, if_neg c5]
    rw [map_range_of_mem _ _ (le_of_not_le c5) c6]
    simp [interpolate, tableAt]
  · refine ⟨6, ⟨by simp [STERING_MAPPING], fun j hj => by
      interval_cases j <;> norm_num [tableAt, STERING_MAPPING] <;> linarith,
      by simpa [tableAt, STERING_MAPPING] using h7⟩, ?_⟩
    simp only [map_steer2motor_loop, STERING_MAPPING, List.head?, ha, ge_iff_le,
      if_pos h7, if_neg c1, if_neg c2, if_neg c3, if_neg c4, if_neg c5, if_neg c6]
    rw [map_range_of_mem _ _ (le_of_not_le c6) h7]
    simp [interpolate, tableAt]

/-- Unfolding of `map_steer2motor` on the sorted table. -/
theorem map_steer2motor_eq (x : ℚ) :
    map_steer2motor x
      = map_steer2motor_loop (if x ≥ 0 then 1 else -1) x STERING_MAPPING := by
  simp only [map_steer2motor, std_map_STERING_MAPPING]

/-- Inside the table range `map_steer2motor` returns the saved sign times the
interpolation at the first bracketing pair. -/
theorem map_steer2motor_bracket (x : ℚ) (hx : |x| ≤ 0.506145) :
    ∃ i, isFirstBracket STERING_MAPPING i |x| ∧
      map_steer2motor x
        = some ((if x ≥ 0 then 1 else -1) * interpolate STERING_MAPPING i |x|) := by
  rw [map_steer2motor_eq]
  exact loop_bracket _ x |x| (sign_mul_eq_abs x) (abs_nonneg x) hx

/-- At `0` the first bracket is the first pair and the interpolation is `0`. -/
theorem interpolate_zero (i : Nat) (h : isFirstBracket STERING_MAPPING i 0) :
    interpolate STERING_MAPPING i 0 = 0 := by
  obtain ⟨_, h2, _⟩ := h
  have : i = 0 := by
    by_contra hne
    have := h2 0 (Nat.pos_of_ne_zero hne)
    norm_num [tableAt, STERING_MAPPING] at this
  subst this
  norm_num [interpolate, tableAt, STERING_MAPPING]

/-- Beyond the largest wheel angle the traversal reaches the last entry and reads through
the past-the-end iterator. -/
theorem loop_out_of_table (sg x : ℚ) (h : 0.506145 < sg * x) :
    map_steer2motor_loop sg x STERING_MAPPING = none := by
  have n1 : ¬ sg * x ≤ 0.15708 := by intro c; norm_num at c h; linarith
  have n2 : ¬ sg * x ≤ 0.20944 := by intro c; norm_num at c h; linarith
  have n3 : ¬ sg * x ≤ 0.296706 := by intro c; norm_num at c h; linarith
  have n4 : ¬ sg * x ≤ 0.349066 := by intro c; norm_num at c h; linarith
  have n5 : ¬ sg * x ≤ 0.401425 := by intro c; norm_num at c h; linarith
  have n6 : ¬ sg * x ≤ 0.453785 := by intro c; norm_num at c h; linarith
  have n7 : ¬ sg * x ≤ 0.506145 := not_le.mpr h
  simp only [map_steer2motor_loop, STERING_MAPPING, List.head?, ge_iff_le, if_neg n1,
    if_neg n2, if_neg n3, if_neg n4, if_neg n5, if_neg n6, if_neg n7]

/-- Beyond the table range `map_steer2motor` has no defined result. -/
theorem map_steer2motor_out_of_table (x : ℚ) (h : 0.506145 < |x|) :
    map_steer2motor x = none := by
  rw [map_steer2motor_eq]
  exact loop_out_of_table _ x (by rw [sign_mul_eq_abs]; exact h)

/-- A first bracket has index at most 6. -/
theorem bracket_index_lt {i : Nat} {a : ℚ} (h : isFirstBracket STERING_MAPPING i a) :
    i < 7 := by
  have := h.1
  simp [STERING_MAPPING] at this
  omega

/-- The lower wheel angle of the first bracket is at most the angle. -/
theorem bracket_lower {i : Nat} {a : ℚ} (h : isFirstBracket STERING_MAPPING i a)
    (h0 : 0 ≤ a) : (tableAt STERING_MAPPING i).2 ≤ a := by
  rcases Nat.eq_zero_or_pos i with hz | hp
  · subst hz
    simpa [tableAt, STERING_MAPPING] using h0
  · have := h.2.1 (i - 1) (by omega)
    rw [Nat.sub_add_cancel hp] at this
    exact this.le

set_option linter.unnecessarySeqFocus false in
/-- The interpolated value lies between the two motor angles of the bracket. -/
theorem interpolate_bounds {i : Nat} {a : ℚ} (h : isFirstBracket STERING_MAPPING i a)
    (h0 : 0 ≤ a) :
    (tableAt STERING_MAPPING i).1 ≤ interpolate STERING_MAPPING i a
      ∧ interpolate STERING_MAPPING i a ≤ (tableAt STERING_MAPPING (i + 1)).1 := by
  have la := bracket_lower h h0
  have ua := h.2.2
  have hi := bracket_index_lt h
  clear h
  interval_cases i <;>
    norm_num [interpolate, tableAt, STERING_MAPPING] at la ua ⊢ <;> constructor <;> linarith

/-- The motor angles of the table are non-decreasing in the index. -/
theorem motor_mono {i j : Nat} (hij : i ≤ j) (hj : j < 8) :
    (tableAt STERING_MAPPING i).1 ≤ (tableAt STERING_MAPPING j).1 := by
  interval_cases j <;> interval_cases i <;> norm_num [tableAt, STERING_MAPPING]

/-- The interpolation at the first bracket is non-negative. -/
theorem interpolate_nonneg {i : Nat} {a : ℚ} (h : isFirstBracket STERING_MAPPING i a)
    (h0 : 0 ≤ a) : 0 ≤ interpolate STERING_MAPPING i a := by
  have h1 := (interpolate_bounds h h0).1
  have h2 := motor_mono (Nat.zero_le i) (by have := bracket_index_lt h; omega)
  have h3 : (tableAt STERING_MAPPING 0).1 = 0 := by simp [tableAt, STERING_MAPPING]
  linarith

/-- The interpolation at the first bracket is at most the largest motor angle. -/
theorem interpolate_le_max {i : Nat} {a : ℚ} (h : isFirstBracket STERING_MAPPING i a)
    (h0 : 0 ≤ a) : interpolate STERING_MAPPING i a ≤ 1.91986 := by
  have h1 := (interpolate_bounds h h0).2
  have h2 := motor_mono (Nat.le_of_lt_succ (Nat.succ_lt_succ (bracket_index_lt h)))
    (Nat.lt_succ_self 7)
  have h3 : (tableAt STERING_MAPPING 7).1 = 1.91986 := by simp [tableAt, STERING_MAPPING]
  linarith

/-- Inside the table range the motor angle is bounded by the largest motor angle of the
table and has the sign of the steering angle. -/
theorem map_steer2motor_in_table_bounded (x : ℚ) (hx : |x| ≤ 0.506145) :
    ∃ v, map_steer2motor x = some v ∧ |v| ≤ 1.91986 ∧ (0 ≤ x → 0 ≤ v) ∧ (x ≤ 0 → v ≤ 0) := by
  obtain ⟨i, hi, e⟩ := map_steer2motor_bracket x hx
  have n := interpolate_nonneg hi (abs_nonneg x)
  have m := interpolate_le_max hi (abs_nonneg x)
  refine ⟨_, e, ?_, fun h => ?_, fun h => ?_⟩
  · split_ifs
    · rw [one_mul, abs_of_nonneg n]
      exact m
    · rw [neg_one_mul, abs_neg, abs_of_nonneg n]
      exact m
  · rw [if_pos h, one_mul]
    exact n
  · rcases h.lt_or_eq with h1 | h1
    · rw [if_neg (not_le.mpr h1)]
      linarith
    · subst h1
      rw [abs_zero] at hi
      simp [interpolate_zero i hi]

/-- Claim C2.  For every steering angle `x` with `|x| ≤ 0.506145`, `map_steer2motor x` is
`sign x` times the linear interpolation between the first consecutive table pairs with
`w_{i+1} ≥ |x|` (arithmetic over the rationals); `map_steer2motor 0 = 0`; and every table
wheel angle `w_i > 0` maps exactly to its motor angle `m_i`. -/
theorem map_steer2motor_interpolates :
    (∀ x : ℚ, |x| ≤ 0.506145 →
      ∃ i, isFirstBracket (std_map STERING_MAPPING) i |x| ∧
        map_steer2motor x = some (sgn x * interpolate (std_map STERING_MAPPING) i |x|))
    ∧ map_steer2motor 0 = some 0
    ∧ (∀ p ∈ std_map STERING_MAPPING, 0 < p.2 → map_steer2motor p.2 = some p.1) := by
  rw [std_map_STERING_MAPPING]
  refine ⟨fun x hx => ?_, ?_, ?_⟩
  · obtain ⟨i, hi, hv⟩ := map_steer2motor_bracket x hx
    refine ⟨i, hi, ?_⟩
    rw [hv]
    rcases lt_trichotomy x 0 with h | h | h
    · simp [sgn, h, not_le.mpr h, not_lt.mpr h.le]
    · subst h
      simp only [abs_zero] at hi ⊢
      rw [interpolate_zero i hi]
      simp
    · simp [sgn, h, h.le]
  · rw [map_steer2motor_eq]
    norm_num [STERING_MAPPING, map_steer2motor_loop, map_range, clamp]
  · intro p hp hpos
    simp only [STERING_MAPPING, List.mem_cons, List.mem_singleton, List.not_mem_nil,
      or_false] at hp
    rcases hp with h | h | h | h | h | h | h | h <;> subst h <;> rw [map_steer2motor_eq] <;>
      norm_num [STERING_MAPPING, map_steer2motor_loop, map_range, clamp] at hpos ⊢

/-- Claim C2 applied at the steering angle `0.3`. -/
theorem map_steer2motor_interpolates_witness :
    |(0.3 : ℚ)| ≤ 0.506145 ∧
      ∃ i, isFirstBracket (std_map STERING_MAPPING) i |(0.3 : ℚ)| ∧
        map_steer2motor 0.3
          = some (sgn 0.3 * interpolate (std_map STERING_MAPPING) i |(0.3 : ℚ)|) :=
  ⟨by rw [abs_le]; constructor <;> norm_num,
   map_steer2motor_interpolates.1 0.3 (by rw [abs_le]; constructor <;> norm_num)⟩

/-- Claim C3 (evaluation at the failing input `0.6`).  The steering angle `0.6` exceeds
the largest wheel angle; the traversal compares with every successor, reaches the last
entry and reads `std::next(it)->second` at `mapping.end()` before `return 0` is reached:
the result is not the neutral angle `0` but undefined. -/
theorem map_steer2motor_beyond_table_reads_past_end :
    map_steer2motor 0.6 = none ∧ map_steer2motor 0.6 ≠ some 0 := by
  have h : map_steer2motor 0.6 = none :=
    map_steer2motor_out_of_table _ (by rw [lt_abs]; left; norm_num)
  exact ⟨h, by rw [h]; exact fun c => Option.noConfusion c⟩

/-- Claim C5 (evaluation at the failing input `-1`).  For the out-of-table steering angle
`-1` the traversal reads through the past-the-end iterator: no bounded, sign-preserving
motor angle is produced. -/
theorem steer_minus_one_has_no_bounded_result :
    map_steer2motor (-1) = none
      ∧ ¬ ∃ v, map_steer2motor (-1) = some v ∧ |v| ≤ 1.91986 := by
  have h : map_steer2motor (-1) = none :=
    map_steer2motor_out_of_table _ (by rw [lt_abs]; right; norm_num)
  refine ⟨h, ?_⟩
  rintro ⟨v, hv, _⟩
  rw [h] at hv
  exact Option.noConfusion hv

/-- Claim C6 as stated fails: the steering angle `0.872665` lies beyond the largest wheel
angle `0.506145`, and `map_steer2motor` does not return `0.20944` for it. -/
theorem steer_0872665_not_motor_020944 : map_steer2motor 0.872665 ≠ some 0.20944 := by
  rw [map_steer2motor_out_of_table _ (by rw [lt_abs]; left; norm_num)]
  exact fun h => Option.noConfusion h

/-- Claim C6, amended.  With the table `STERING_MAPPING`, the steering (wheel) angle
`0.20944` maps through `map_steer2motor` to the motor angle `0.872665` exactly: a table
hit. -/
theorem steer_020944_maps_to_motor_0872665 : map_steer2motor 0.20944 = some 0.872665 := by
  rw [map_steer2motor_eq]
  norm_num [STERING_MAPPING, map_steer2motor_loop, map_range, clamp]

/-- Claim C7.  The table `STERING_MAPPING`, read in the key order of the `std::map`, is
strictly increasing in both fields and starts at `(0, 0)`; hence no two consecutive wheel
angles are equal, and the divisor `source_max - source_min` of every `map_range` call of
`map_steer2motor` (the difference of two consecutive wheel angles) is not zero. -/
theorem STERING_MAPPING_strictly_increasing :
    List.Pairwise (fun p q : ℚ × ℚ => p.1 < q.1 ∧ p.2 < q.2) (std_map STERING_MAPPING)
    ∧ (std_map STERING_MAPPING).head? = some (0, 0)
    ∧ (∀ i, i + 1 < (std_map STERING_MAPPING).length →
        (tableAt (std_map STERING_MAPPING) (i + 1)).2 ≠ (tableAt (std_map STERING_MAPPING) i).2
        ∧ (tableAt (std_map STERING_MAPPING) (i + 1)).2
            - (tableAt (std_map STERING_MAPPING) i).2 ≠ 0) := by
  rw [std_map_STERING_MAPPING]
  refine ⟨by norm_num [STERING_MAPPING], by simp [STERING_MAPPING], fun i hi => ?_⟩
  have hi7 : i < 7 := by
    simp [STERING_MAPPING] at hi
    omega
  interval_cases i <;> norm_num [tableAt, STERING_MAPPING]

/-- Claim C7 applied at the consecutive entries 3 and 4. -/
theorem STERING_MAPPING_strictly_increasing_witness :
    3 + 1 < (std_map STERING_MAPPING).length
    ∧ (tableAt (std_map STERING_MAPPING) (3 + 1)).2 ≠ (tableAt (std_map STERING_MAPPING) 3).2
    ∧ (tableAt (std_map STERING_MAPPING) (3 + 1)).2
        - (tableAt (std_map STERING_MAPPING) 3).2 ≠ 0 :=
  ⟨by rw [std_map_STERING_MAPPING]; decide,
   STERING_MAPPING_strictly_increasing.2.2 3 (by rw [std_map_STERING_MAPPING]; decide)⟩

end tritonai.gkc

/-! ## Theorems: brake position and throttle frame -/

namespace tritonai.gkc

/-- The `float` value of `2400`, the difference of the two brake constants. -/
theorem to_float_2400 : to_float 2400 = 2400 := by
  rw [to_float_eq 2400 11 9830400 (by norm_num [abs_of_nonneg]) (by norm_num [abs_of_nonneg])
    (by norm_num) (by norm_num [abs_lt])]
  norm_num

/-- The `float` product of a fraction in `[0, 1]` and `2400` lies in `[0, 2400]`. -/
theorem brake_product_range (c : ℚ) (h0 : 0 ≤ c) (h1 : c ≤ 1) :
    0 ≤ to_float (c * 2400) ∧ to_float (c * 2400) ≤ 2400 := by
  refine ⟨to_float_nonneg (by positivity), ?_⟩
  have := to_float_mono (show c * 2400 ≤ 2400 by linarith)
  rwa [to_float_2400] at this

/-- The local `pos` is `600` plus the integer part of the `float` product of the clamped
fraction and `2400`. -/
theorem brake_pos_eq (b : ℚ) :
    (comm_can_set_brake_position_pos b : ℤ) = 600 + ⌊to_float (max 0 (min b 1) * 2400)⌋ := by
  have key : ∀ c : ℚ, 0 ≤ c → c ≤ 1 →
      (((float_to_uint (to_float (c * ((MAX_BRAKE_VAL - MIN_BRAKE_VAL : Nat) : ℚ)))
          + MIN_BRAKE_VAL) % 2 ^ 32 : ℕ) : ℤ) = 600 + ⌊to_float (c * 2400)⌋ := by
    intro c h0 h1
    have e : ((MAX_BRAKE_VAL - MIN_BRAKE_VAL : Nat) : ℚ) = 2400 := by
      norm_num [MAX_BRAKE_VAL, MIN_BRAKE_VAL]
    obtain ⟨p0, p1⟩ := brake_product_range c h0 h1
    have f0 : 0 ≤ ⌊to_float (c * 2400)⌋ := Int.floor_nonneg.mpr p0
    have f1 : ⌊to_float (c * 2400)⌋ ≤ 2400 := by
      have : ⌊to_float (c * 2400)⌋ ≤ ⌊(2400 : ℚ)⌋ := Int.floor_mono p1
      simpa using this
    rw [e]
    simp only [float_to_uint, float_to_int, if_pos p0, MIN_BRAKE_VAL]
    omega
  have z : (0.0 : ℚ) = 0 := by norm_num
  have o : (1.0 : ℚ) = 1 := by norm_num
  simp only [comm_can_set_brake_position_pos, z, o]
  by_cases h0 : b < 0
  · have : max 0 (min b 1) = 0 := by
      rw [max_eq_left]
      exact le_trans (min_le_left _ _) h0.le
    rw [if_pos h0, this]
    exact key 0 le_rfl zero_le_one
  · by_cases h1 : b > 1
    · have : max 0 (min b 1) = 1 := by
        rw [min_eq_right h1.le]
        norm_num
      rw [if_neg h0, if_pos h1, this]
      exact key 1 zero_le_one le_rfl
    · have : max 0 (min b 1) = b := by
        rw [min_eq_left (not_lt.mp h1), max_eq_right (not_lt.mp h0)]
      rw [if_neg h0, if_neg h1, this]
      exact key b (not_lt.mp h0) (not_lt.mp h1)

/-- The position value for the brake fraction `0`. -/
theorem brake_pos_zero : comm_can_set_brake_position_pos 0 = 600 := by
  have h := brake_pos_eq 0
  norm_num [to_float_zero] at h
  exact_mod_cast h

/-- The position value for the brake fraction `1`. -/
theorem brake_pos_one : comm_can_set_brake_position_pos 1 = 3000 := by
  have h := brake_pos_eq 1
  norm_num [to_float_2400] at h
  exact_mod_cast h

/-- Claim C8.  Encoding brake fraction `0.0` yields exactly `MIN_BRAKE_VAL` (600) and
encoding brake fraction `1.0` yields exactly `MAX_BRAKE_VAL` (3000) as the position value
computed by `comm_can_set_brake_position`. -/
theorem brake_position_endpoints :
    comm_can_set_brake_position_pos 0.0 = MIN_BRAKE_VAL ∧ MIN_BRAKE_VAL = 600
    ∧ comm_can_set_brake_position_pos 1.0 = MAX_BRAKE_VAL ∧ MAX_BRAKE_VAL = 3000 := by
  have z : (0.0 : ℚ) = 0 := by norm_num
  have o : (1.0 : ℚ) = 1 := by norm_num
  refine ⟨?_, rfl, ?_, rfl⟩
  · rw [z, brake_pos_zero]
    rfl
  · rw [o, brake_pos_one]
    rfl

/-- The `float` product of the `float` nearest to `0.7` and `2400`. -/
theorem brake_product_at_07 : to_float (11744051 / 16777216 * 2400) = 1680 := by
  rw [to_float_eq (11744051 / 16777216 * 2400) 10 13762560 (by norm_num [abs_of_nonneg])
    (by norm_num [abs_of_nonneg]) (by norm_num) (by norm_num [abs_lt])]
  norm_num

/-- The position value for the `float` nearest to `0.7`. -/
theorem brake_pos_at_07 : comm_can_set_brake_position_pos (11744051 / 16777216) = 2280 := by
  have h := brake_pos_eq (11744051 / 16777216)
  have hc : max 0 (min (11744051 / 16777216 : ℚ) 1) = 11744051 / 16777216 := by
    rw [min_eq_left (by norm_num), max_eq_right (by norm_num)]
  rw [hc, brake_product_at_07] at h
  norm_num at h
  exact_mod_cast h

/-- Claim C9 as stated fails.  The brake fraction `0.7f = 11744051 / 2 ^ 24` (the `float`
nearest to `0.7`) gives the exact product `1679.99997..`, whose `float` value is `1680`:
the code computes `pos = 2280`, and `600 + trunc (clamp (b, 0, 1) * 2400)` is `2279`. -/
theorem brake_position_rounds_before_truncation :
    to_float 0.7 = 11744051 / 16777216
    ∧ comm_can_set_brake_position_pos (11744051 / 16777216) = 2280
    ∧ 600 + ⌊max 0 (min (11744051 / 16777216 : ℚ) 1) * 2400⌋ = 2279 := by
  refine ⟨?_, ?_, ?_⟩
  · rw [to_float_eq 0.7 (-1) 11744051 (by norm_num [abs_of_nonneg])
      (by norm_num [abs_of_nonneg]) (by norm_num) (by norm_num [abs_lt])]
    norm_num
  · exact brake_pos_at_07
  · have hc : max 0 (min (11744051 / 16777216 : ℚ) 1) = 11744051 / 16777216 := by
      rw [min_eq_left (by norm_num), max_eq_right (by norm_num)]
    rw [hc]
    have : ⌊(11744051 / 16777216 : ℚ) * 2400⌋ = 1679 := by
      rw [Int.floor_eq_iff]
      norm_num
    rw [this]
    norm_num

/-- Claim C9, amended.  For every `float` `brake_position` `b`,
`comm_can_set_brake_position` computes `pos = 600 + trunc (fl (clamp (b, 0, 1) * 2400))`,
where `fl` rounds the product to `float` (the truncation of a non-negative value is its
floor) and differs from the exact product by at most `2 ^ (-13)`, so that for instance
`0.7f = 11744051 / 2 ^ 24` gives `2280`: every `b < 0` gives `600`, every `b > 1` gives
`3000`, `pos` always lies in `[MIN_BRAKE_VAL, MAX_BRAKE_VAL] = [600, 3000]`, and `pos` is
non-decreasing in `b`. -/
theorem brake_position_clamped_scaled (b : ℚ) :
    (comm_can_set_brake_position_pos b : ℤ) = 600 + ⌊to_float (max 0 (min b 1) * 2400)⌋
    ∧ |to_float (max 0 (min b 1) * 2400) - max 0 (min b 1) * 2400| ≤ 1 / 8192
    ∧ comm_can_set_brake_position_pos (11744051 / 16777216) = 2280
    ∧ (b < 0 → comm_can_set_brake_position_pos b = 600)
    ∧ (b > 1 → comm_can_set_brake_position_pos b = 3000)
    ∧ MIN_BRAKE_VAL ≤ comm_can_set_brake_position_pos b
    ∧ comm_can_set_brake_position_pos b ≤ MAX_BRAKE_VAL
    ∧ MIN_BRAKE_VAL = 600 ∧ MAX_BRAKE_VAL = 3000
    ∧ (∀ b2 : ℚ, b ≤ b2 →
        comm_can_set_brake_position_pos b ≤ comm_can_set_brake_position_pos b2) := by
  have hb := brake_pos_eq b
  have c0 : (0 : ℚ) ≤ max 0 (min b 1) := le_max_left _ _
  have c1 : max 0 (min b 1) ≤ (1 : ℚ) := max_le zero_le_one (min_le_right _ _)
  obtain ⟨p0, p1⟩ := brake_product_range _ c0 c1
  have f0 : 0 ≤ ⌊to_float (max 0 (min b 1) * 2400)⌋ := Int.floor_nonneg.mpr p0
  have f1 : ⌊to_float (max 0 (min b 1) * 2400)⌋ ≤ 2400 := by
    have : ⌊to_float (max 0 (min b 1) * 2400)⌋ ≤ ⌊(2400 : ℚ)⌋ := Int.floor_mono p1
    simpa using this
  refine ⟨hb, ?_, brake_pos_at_07, fun h => ?_, fun h => ?_, ?_, ?_, rfl, rfl,
    fun b2 h => ?_⟩
  · have := round_binary_error 24 (-126) (max 0 (min b 1) * 2400) 11
      (by rw [abs_of_nonneg (by positivity)]; norm_num; linarith) (by norm_num)
    norm_num at this
    exact this
  · have : max 0 (min b 1) = 0 := by
      rw [max_eq_left]
      exact le_trans (min_le_left _ _) h.le
    rw [this] at hb
    norm_num [to_float_zero] at hb
    exact_mod_cast hb
  · have : max 0 (min b 1) = 1 := by
      rw [min_eq_right h.le]
      norm_num
    rw [this] at hb
    norm_num [to_float_2400] at hb
    exact_mod_cast hb
  · simp only [MIN_BRAKE_VAL]
    omega
  · simp only [MAX_BRAKE_VAL]
    omega
  · have hb2 := brake_pos_eq b2
    have : ⌊to_float (max 0 (min b 1) * 2400)⌋ ≤ ⌊to_float (max 0 (min b2 1) * 2400)⌋ := by
      apply Int.floor_mono
      apply to_float_mono
      have : max 0 (min b 1) ≤ max 0 (min b2 1) := max_le_max le_rfl (min_le_min h le_rfl)
      linarith
    omega

/-- Claim C9 (amended) applied at `b = -1/2` (below the range), compared with `b2 = 2`
(above). -/
theorem brake_position_clamped_scaled_witness :
    ((-1 / 2 : ℚ) < 0 ∧ comm_can_set_brake_position_pos (-1 / 2) = 600)
    ∧ ((-1 / 2 : ℚ) ≤ 2 ∧
        comm_can_set_brake_position_pos (-1 / 2) ≤ comm_can_set_brake_position_pos 2) :=
  ⟨⟨by norm_num, (brake_position_clamped_scaled (-1 / 2)).2.2.2.1 (by norm_num)⟩,
   ⟨by norm_num,
    (brake_position_clamped_scaled (-1 / 2)).2.2.2.2.2.2.2.2.2 2 (by norm_num)⟩⟩

/-- The calls that `can_transmit_eid` makes on `can2`: one write attempt, followed by a
reset and a bit-rate setting exactly when the write is rejected. -/
theorem can_transmit_eid_log (id : Nat) (data : List Nat) (len : Nat) (w : State) :
    (can_transmit_eid id data len w).can2.log =
      w.can2.log ++
        CANEvent.write (CANMessage.new id data len CANType.CANData CANFormat.CANExtended)
          (w.can2.accepts w.can2.log
            (CANMessage.new id data len CANType.CANData CANFormat.CANExtended)) ::
          (if w.can2.accepts w.can2.log
              (CANMessage.new id data len CANType.CANData CANFormat.CANExtended) then []
           else [CANEvent.reset, CANEvent.frequency CAN2_BAUDRATE]) := by
  simp only [can_transmit_eid, CAN.write]
  cases w.can2.accepts w.can2.log
      (CANMessage.new id data len CANType.CANData CANFormat.CANExtended) <;>
    simp [CAN.reset, CAN.frequency]

/-- The interface `can1` is not touched by `can_transmit_eid`. -/
theorem can_transmit_eid_can1 (id : Nat) (data : List Nat) (len : Nat) (w : State) :
    (can_transmit_eid id data len w).can1 = w.can1 := by
  simp only [can_transmit_eid]
  split_ifs <;> rfl

/-- Claim C10.  Encoding throttle speed `0.0` m/s with `comm_can_set_speed` yields an RPM
bus frame whose 4-byte payload is all zero, addressed to
`THROTTLE_CAN_ID | (CAN_PACKET_SET_RPM << 8) = 0x301`: the call is the transmission of that
frame, and it is the frame of the one write attempt added to the history of `can2`. -/
theorem comm_can_set_speed_zero (w : State) :
    THROTTLE_CAN_ID ||| (CAN_PACKET_SET_RPM <<< 8) = 0x301
    ∧ comm_can_set_speed 0.0 w = can_transmit_eid 0x301 [0, 0, 0, 0] 4 w
    ∧ (comm_can_set_speed 0.0 w).can2.log =
        w.can2.log ++
          CANEvent.write zero_rpm_frame (w.can2.accepts w.can2.log zero_rpm_frame) ::
            (if w.can2.accepts w.can2.log zero_rpm_frame then []
             else [CANEvent.reset, CANEvent.frequency CAN2_BAUDRATE])
    ∧ (comm_can_set_speed 0.0 w).can1 = w.can1 := by
  have e : comm_can_set_speed 0.0 w = can_transmit_eid 0x301 [0, 0, 0, 0] 4 w := by
    norm_num [comm_can_set_speed, comm_can_set_rpm, buffer_append_int32, float_to_int,
      to_uint8, THROTTLE_CAN_ID, CAN_PACKET_SET_RPM, Fin.ofNat, to_float_zero]
    rfl
  have m : CANMessage.new 0x301 [0, 0, 0, 0] 4 CANType.CANData CANFormat.CANExtended
      = zero_rpm_frame := by decide
  refine ⟨by decide, e, ?_, ?_⟩
  · rw [e, can_transmit_eid_log, m]
  · rw [e, can_transmit_eid_can1]

/-- Resets and bit-rate settings carry no frame. -/
theorem framesOf_append_write (l : List CANEvent) (m : CANMessage) (ok : Bool)
    (tail : List CANEvent)
    (ht : ∀ e ∈ tail, e = CANEvent.reset ∨ ∃ hz, e = CANEvent.frequency hz) :
    framesOf (l ++ CANEvent.write m ok :: tail) = framesOf l ++ [m] := by
  have htail : framesOf tail = [] := by
    induction tail with
    | nil => rfl
    | cons e t ih =>
      rcases ht e (List.mem_cons_self _ _) with h | ⟨hz, h⟩
      · subst h
        exact ih (fun x hx => ht x (List.mem_cons_of_mem _ hx))
      · subst h
        exact ih (fun x hx => ht x (List.mem_cons_of_mem _ hx))
  induction l with
  | nil => simp [framesOf, htail]
  | cons e t ih => cases e <;> simp [framesOf, ih]

/-- A call of `can_transmit_eid` adds exactly one frame to the write attempts on `can2`. -/
theorem framesOf_can_transmit_eid (id : Nat) (data : List Nat) (len : Nat) (w : State) :
    framesOf (can_transmit_eid id data len w).can2.log
      = framesOf w.can2.log
          ++ [CANMessage.new id data len CANType.CANData CANFormat.CANExtended] := by
  rw [can_transmit_eid_log]
  apply framesOf_append_write
  intro e he
  split_ifs at he
  · exact absurd he (List.not_mem_nil _)
  · simp only [List.mem_cons, List.mem_singleton, List.not_mem_nil, or_false] at he
    rcases he with h | h
    · exact Or.inl h
    · exact Or.inr ⟨_, h⟩

/-- The frame of the last write attempt after a call of `can_transmit_eid`. -/
theorem lastFrame_can_transmit_eid (id : Nat) (data : List Nat) (len : Nat) (w : State) :
    lastFrame (can_transmit_eid id data len w)
      = some (CANMessage.new id data len CANType.CANData CANFormat.CANExtended) := by
  rw [lastFrame, framesOf_can_transmit_eid]
  simp

/-- The position value never exceeds `MAX_BRAKE_VAL`. -/
theorem brake_pos_le (b : ℚ) : comm_can_set_brake_position_pos b ≤ 3000 := by
  have hb := brake_pos_eq b
  have c0 : (0 : ℚ) ≤ max 0 (min b 1) := le_max_left _ _
  have c1 : max 0 (min b 1) ≤ (1 : ℚ) := max_le zero_le_one (min_le_right _ _)
  have f1 : ⌊to_float (max 0 (min b 1) * 2400)⌋ ≤ 2400 := by
    have : ⌊to_float (max 0 (min b 1) * 2400)⌋ ≤ ⌊(2400 : ℚ)⌋ :=
      Int.floor_mono (brake_product_range _ c0 c1).2
    simpa using this
  omega

end tritonai.gkc

/-! ## Theorems: big-endian packing and the VESC command frames -/

namespace tritonai.gkc

/-- Byte `k` (counted from the least significant) of an integer, as the C conversion to
`uint8_t` of the shifted value computes it, is the digit of its two's-complement
representation on 32 bits. -/
theorem to_uint8_shiftRight_32 (v : Int) :
    to_uint8 (v >>> (24 : Nat)) = (v % 2 ^ 32).toNat / 2 ^ 24 % 256
    ∧ to_uint8 (v >>> (16 : Nat)) = (v % 2 ^ 32).toNat / 2 ^ 16 % 256
    ∧ to_uint8 (v >>> (8 : Nat)) = (v % 2 ^ 32).toNat / 2 ^ 8 % 256
    ∧ to_uint8 v = (v % 2 ^ 32).toNat % 256 := by
  have hu : ((v % 2 ^ 32).toNat : Int) = v % 2 ^ 32 :=
    Int.toNat_of_nonneg (Int.emod_nonneg _ (by norm_num))
  generalize (v % 2 ^ 32).toNat = u at hu ⊢
  simp only [to_uint8, Int.shiftRight_eq_div_pow]
  norm_num at hu ⊢
  refine ⟨?_, ?_, ?_, ?_⟩ <;> omega

/-- The two bytes written for a 16-bit number are the digits of its two's-complement
representation on 16 bits. -/
theorem to_uint8_shiftRight_16 (v : Int) :
    to_uint8 (v >>> (8 : Nat)) = (v % 2 ^ 16).toNat / 2 ^ 8 % 256
    ∧ to_uint8 v = (v % 2 ^ 16).toNat % 256 := by
  have hu : ((v % 2 ^ 16).toNat : Int) = v % 2 ^ 16 :=
    Int.toNat_of_nonneg (Int.emod_nonneg _ (by norm_num))
  generalize (v % 2 ^ 16).toNat = u at hu ⊢
  simp only [to_uint8, Int.shiftRight_eq_div_pow]
  norm_num at hu ⊢
  refine ⟨?_, ?_⟩ <;> omega

/-- Appending a 32-bit number to a fresh 4-byte buffer gives its big-endian bytes. -/
theorem buffer_append_int32_fresh (v : Int) :
    buffer_append_int32 (List.replicate 4 0) v 0 = (spec_be32 v, 4) := by
  obtain ⟨h1, h2, h3, h4⟩ := to_uint8_shiftRight_32 v
  simp only [buffer_append_int32, List.replicate, List.set, spec_be32, h1, h2, h3, h4]

/-- Appending a 32-bit number and then a 16-bit number to a fresh 6-byte buffer gives the
big-endian bytes of the first followed by those of the second. -/
theorem buffer_append_int32_int16_fresh (v d : Int) :
    buffer_append_int16 (buffer_append_int32 (List.replicate 6 0) v 0).1 d
        (buffer_append_int32 (List.replicate 6 0) v 0).2
      = (spec_be32 v ++ spec_be16 d, 6) := by
  obtain ⟨h1, h2, h3, h4⟩ := to_uint8_shiftRight_32 v
  obtain ⟨g1, g2⟩ := to_uint8_shiftRight_16 d
  simp only [buffer_append_int32, buffer_append_int16, List.replicate, List.set, spec_be32,
    spec_be16, h1, h2, h3, h4, g1, g2, List.cons_append, List.nil_append]

/-- The frame of `comm_can_set_duty`. -/
theorem comm_can_set_duty_eq (controller_id : Byte) (duty : ℚ) (w : State) :
    comm_can_set_duty controller_id duty w
      = can_transmit_eid (controller_id.val ||| (CAN_PACKET_SET_DUTY <<< 8))
          (spec_be32 (float_to_int (duty * 100000.0))) 4 w := by
  simp only [comm_can_set_duty, buffer_append_int32_fresh]

/-- The frame of `comm_can_set_current`. -/
theorem comm_can_set_current_eq (controller_id : Byte) (current : ℚ) (w : State) :
    comm_can_set_current controller_id current w
      = can_transmit_eid (controller_id.val ||| (CAN_PACKET_SET_CURRENT <<< 8))
          (spec_be32 (float_to_int (current * 1000.0))) 4 w := by
  simp only [comm_can_set_current, buffer_append_int32_fresh]

/-- The frame of `comm_can_set_current_brake`. -/
theorem comm_can_set_current_brake_eq (controller_id : Byte) (current : ℚ) (w : State) :
    comm_can_set_current_brake controller_id current w
      = can_transmit_eid (controller_id.val ||| (CAN_PACKET_SET_CURRENT_BRAKE <<< 8))
          (spec_be32 (float_to_int (current * 1000.0))) 4 w := by
  simp only [comm_can_set_current_brake, buffer_append_int32_fresh]

/-- The frame of `comm_can_set_rpm`. -/
theorem comm_can_set_rpm_eq (controller_id : Byte) (rpm : ℚ) (w : State) :
    comm_can_set_rpm controller_id rpm w
      = can_transmit_eid (controller_id.val ||| (CAN_PACKET_SET_RPM <<< 8))
          (spec_be32 (float_to_int (rpm))) 4 w := by
  simp only [comm_can_set_rpm, buffer_append_int32_fresh]

/-- The frame of `comm_can_set_pos`. -/
theorem comm_can_set_pos_eq (controller_id : Byte) (pos : ℚ) (w : State) :
    comm_can_set_pos controller_id pos w
      = can_transmit_eid (controller_id.val ||| (CAN_PACKET_SET_POS <<< 8))
          (spec_be32 (float_to_int (-1.0 * pos * 1000000.0))) 4 w := by
  simp only [comm_can_set_pos, buffer_append_int32_fresh]

/-- The frame of `comm_can_set_current_rel`. -/
theorem comm_can_set_current_rel_eq (controller_id : Byte) (current_rel : ℚ) (w : State) :
    comm_can_set_current_rel controller_id current_rel w
      = can_transmit_eid (controller_id.val ||| (CAN_PACKET_SET_CURRENT_REL <<< 8))
          (spec_be32 (float_to_int (to_float (current_rel * 1e5)))) 4 w := by
  simp only [comm_can_set_current_rel, buffer_append_float32, buffer_append_int32_fresh]

/-- The frame of `comm_can_set_current_brake_rel`. -/
theorem comm_can_set_current_brake_rel_eq (controller_id : Byte) (current_rel : ℚ) (w : State) :
    comm_can_set_current_brake_rel controller_id current_rel w
      = can_transmit_eid (controller_id.val ||| (CAN_PACKET_SET_CURRENT_BRAKE_REL <<< 8))
          (spec_be32 (float_to_int (to_float (current_rel * 1e5)))) 4 w := by
  simp only [comm_can_set_current_brake_rel, buffer_append_float32, buffer_append_int32_fresh]

/-- The frame of `comm_can_set_handbrake`. -/
theorem comm_can_set_handbrake_eq (controller_id : Byte) (current : ℚ) (w : State) :
    comm_can_set_handbrake controller_id current w
      = can_transmit_eid (controller_id.val ||| (CAN_PACKET_SET_CURRENT_HANDBRAKE <<< 8))
          (spec_be32 (float_to_int (to_float (current * 1e3)))) 4 w := by
  simp only [comm_can_set_handbrake, buffer_append_float32, buffer_append_int32_fresh]

/-- The frame of `comm_can_set_handbrake_rel`. -/
theorem comm_can_set_handbrake_rel_eq (controller_id : Byte) (current_rel : ℚ) (w : State) :
    comm_can_set_handbrake_rel controller_id current_rel w
      = can_transmit_eid (controller_id.val ||| (CAN_PACKET_SET_CURRENT_HANDBRAKE_REL <<< 8))
          (spec_be32 (float_to_int (to_float (current_rel * 1e5)))) 4 w := by
  simp only [comm_can_set_handbrake_rel, buffer_append_float32, buffer_append_int32_fresh]

/-- The frame of `comm_can_set_current_off_delay`. -/
theorem comm_can_set_current_off_delay_eq (controller_id : Byte) (current off_delay : ℚ)
    (w : State) :
    comm_can_set_current_off_delay controller_id current off_delay w
      = can_transmit_eid (controller_id.val ||| (CAN_PACKET_SET_CURRENT <<< 8))
          (spec_be32 (float_to_int (current * 1000.0))
            ++ spec_be16 (float_to_int (to_float (off_delay * 1e3)))) 6 w := by
  simp only [comm_can_set_current_off_delay, buffer_append_float16,
    buffer_append_int32_int16_fresh]

/-- The frame of `comm_can_set_current_rel_off_delay`. -/
theorem comm_can_set_current_rel_off_delay_eq (controller_id : Byte)
    (current_rel off_delay : ℚ) (w : State) :
    comm_can_set_current_rel_off_delay controller_id current_rel off_delay w
      = can_transmit_eid (controller_id.val ||| (CAN_PACKET_SET_CURRENT_REL <<< 8))
          (spec_be32 (float_to_int (to_float (current_rel * 1e5)))
            ++ spec_be16 (float_to_int (to_float (off_delay * 1e3)))) 6 w := by
  simp only [comm_can_set_current_rel_off_delay, buffer_append_float16, buffer_append_float32,
    buffer_append_int32_int16_fresh]

/-- Reading back the big-endian bytes of a number that fits 16 bits gives the number. -/
theorem spec_be16_roundtrip (v : Int) (h1 : -2 ^ 15 ≤ v) (h2 : v < 2 ^ 15) :
    spec_signed 16 (spec_read_be (spec_be16 v)) = v := by
  have hu : ((v % 2 ^ 16).toNat : Int) = v % 2 ^ 16 :=
    Int.toNat_of_nonneg (Int.emod_nonneg _ (by norm_num))
  generalize (v % 2 ^ 16).toNat = u at hu ⊢
  simp only [spec_signed, spec_read_be, spec_be16, List.foldl]
  norm_num at hu h1 h2 ⊢
  split_ifs <;> omega

/-- Reading back the big-endian bytes of a number that fits 32 bits gives the number. -/
theorem spec_be32_roundtrip (v : Int) (h1 : -2 ^ 31 ≤ v) (h2 : v < 2 ^ 31) :
    spec_signed 32 (spec_read_be (spec_be32 v)) = v := by
  have hu : ((v % 2 ^ 32).toNat : Int) = v % 2 ^ 32 :=
    Int.toNat_of_nonneg (Int.emod_nonneg _ (by norm_num))
  generalize (v % 2 ^ 32).toNat = u at hu ⊢
  simp only [spec_signed, spec_read_be, spec_be32, List.foldl]
  norm_num at hu h1 h2 ⊢
  split_ifs <;> omega

/-- Truncation toward zero is an odd function. -/
theorem float_to_int_neg (q : ℚ) : float_to_int (-q) = - float_to_int q := by
  unfold float_to_int
  rcases lt_trichotomy q 0 with h | h | h
  · rw [if_pos (by linarith), if_neg (by linarith), Int.floor_neg]
  · subst h
    simp
  · rw [if_neg (by linarith), if_pos h.le, Int.ceil_neg]

/-- Truncation toward zero keeps the sign. -/
theorem float_to_int_sign (q : ℚ) :
    (0 ≤ q → 0 ≤ float_to_int q) ∧ (q ≤ 0 → float_to_int q ≤ 0) := by
  unfold float_to_int
  constructor
  · intro h
    rw [if_pos h]
    exact Int.floor_nonneg.mpr h
  · intro h
    rcases h.lt_or_eq with h1 | h1
    · rw [if_neg (by linarith)]
      exact Int.ceil_le.mpr (by exact_mod_cast h)
    · subst h1
      simp

/-- The conversion of a `float` to an integer is the quotient of the numerator by the
denominator, rounded toward zero. -/
theorem float_to_int_eq_spec_trunc (q : ℚ) : float_to_int q = spec_trunc q := by
  have hden : (0 : Int) ≤ q.den := Int.natCast_nonneg _
  unfold float_to_int spec_trunc
  split_ifs with h
  · rw [Rat.floor_def, Int.tdiv_eq_ediv (Rat.num_nonneg.mpr h) hden]
  · have hn : 0 ≤ (-q).num := Rat.num_nonneg.mpr (by linarith)
    have e : ⌈q⌉ = -⌊-q⌋ := by rw [Int.floor_neg, neg_neg]
    rw [e, Rat.floor_def, ← Int.tdiv_eq_ediv hn (by simp), Rat.neg_num, Rat.neg_den,
      Int.neg_tdiv, neg_neg]

/-- The `float` value of the gear ratio `59.0 / 22.0`. -/
theorem gear_ratio_eq : to_float (to_double (59.0 / 22.0)) = 11248361 / 4194304 := by
  have h1 : to_double (59.0 / 22.0) = 1509729420538973 / 562949953421312 := by
    rw [to_double_eq (59.0 / 22.0) 1 6038917682155892 (by norm_num [abs_of_nonneg])
      (by norm_num [abs_of_nonneg]) (by norm_num) (by norm_num [abs_lt])]
    norm_num
  rw [h1, to_float_eq _ 1 11248361 (by norm_num [abs_of_nonneg])
    (by norm_num [abs_of_nonneg]) (by norm_num) (by norm_num [abs_lt])]
  norm_num

/-- The `float` value of the wheel circumference `0.85`. -/
theorem wheel_circumference_eq : to_float (to_double 0.85) = 7130317 / 8388608 := by
  have h1 : to_double 0.85 = 7656119366529843 / 9007199254740992 := by
    rw [to_double_eq 0.85 (-1) 7656119366529843 (by norm_num [abs_of_nonneg])
      (by norm_num [abs_of_nonneg]) (by norm_num) (by norm_num [abs_lt])]
    norm_num
  rw [h1, to_float_eq _ (-1) 14260634 (by norm_num [abs_of_nonneg])
    (by norm_num [abs_of_nonneg]) (by norm_num) (by norm_num [abs_lt])]
  norm_num

/-- The frame of `comm_can_set_speed`. -/
theorem comm_can_set_speed_eq (s : ℚ) (w : State) :
    comm_can_set_speed s w
      = can_transmit_eid 0x301 (spec_be32 (spec_trunc (spec_speed_to_erpm s))) 4 w := by
  have hid : (Fin.ofNat THROTTLE_CAN_ID : Byte).val ||| (CAN_PACKET_SET_RPM <<< 8) = 0x301 := by
    decide
  have e5 : (5.0 : ℚ) = 5 := by norm_num
  have e60 : (60.0 : ℚ) = 60 := by norm_num
  simp only [comm_can_set_speed, comm_can_set_rpm_eq, hid, gear_ratio_eq,
    wheel_circumference_eq, float_to_int_eq_spec_trunc, spec_speed_to_erpm, e5, e60]

/-- The value `speed_to_erpm` is an odd function of the speed. -/
theorem spec_speed_to_erpm_neg (s : ℚ) : spec_speed_to_erpm (-s) = - spec_speed_to_erpm s := by
  simp only [spec_speed_to_erpm, neg_mul, neg_div, to_float_neg]

/-- The value `speed_to_erpm` has the sign of the speed. -/
theorem spec_speed_to_erpm_sign (s : ℚ) :
    (0 ≤ s → 0 ≤ spec_speed_to_erpm s) ∧ (s ≤ 0 → spec_speed_to_erpm s ≤ 0) := by
  have key : ∀ t : ℚ, 0 ≤ t → 0 ≤ spec_speed_to_erpm t := by
    intro t ht
    unfold spec_speed_to_erpm
    have h1 : 0 ≤ to_float (t * 5) := to_float_nonneg (by positivity)
    have h2 : 0 ≤ to_float (to_float (t * 5) * (11248361 / 4194304)) :=
      to_float_nonneg (by positivity)
    have h3 : 0 ≤ to_float (to_float (to_float (t * 5) * (11248361 / 4194304))
        / (7130317 / 8388608)) := to_float_nonneg (by positivity)
    exact to_float_nonneg (by positivity)
  refine ⟨key s, fun h => ?_⟩
  have := key (-s) (by linarith)
  rw [spec_speed_to_erpm_neg] at this
  linarith

/-- The four rounded operations of `speed_to_erpm` at the `float` nearest to `16.83`. -/
theorem spec_speed_to_erpm_at_1683 : spec_speed_to_erpm (8823767 / 524288) = 15930 := by
  have h1 : to_float ((8823767 / 524288 : ℚ) * 5) = 11029709 / 131072 := by
    rw [to_float_eq _ 6 11029709 (by norm_num [abs_of_nonneg])
      (by norm_num [abs_of_nonneg]) (by norm_num) (by norm_num [abs_lt])]
    norm_num
  have h2 : to_float ((11029709 / 131072 : ℚ) * (11248361 / 4194304)) = 14789837 / 65536 := by
    rw [to_float_eq _ 7 14789837 (by norm_num [abs_of_nonneg])
      (by norm_num [abs_of_nonneg]) (by norm_num) (by norm_num [abs_lt])]
    norm_num
  have h3 : to_float ((14789837 / 65536 : ℚ) / (7130317 / 8388608)) = 531 / 2 := by
    rw [to_float_eq _ 8 8699904 (by norm_num [abs_of_nonneg])
      (by norm_num [abs_of_nonneg]) (by norm_num) (by norm_num [abs_lt])]
    norm_num
  have h4 : to_float ((531 / 2 : ℚ) * 60) = 15930 := by
    rw [to_float_eq _ 13 16312320 (by norm_num [abs_of_nonneg])
      (by norm_num [abs_of_nonneg]) (by norm_num) (by norm_num [abs_lt])]
    norm_num
  rw [spec_speed_to_erpm, h1, h2, h3, h4]

/-- Claim C11 as stated fails.  At the speed `16.83f = 8823767 / 2 ^ 19` (the `float`
nearest to `16.83`) the code sends the value `15930`, the bytes `00 00 3E 3A`, while
`trunc (s * 5 * (59/22) / 0.85 * 60)` is `15929`: each of the four operations is rounded to
`float`, and the quotient by the wheel circumference rounds up to `265.5`. -/
theorem comm_can_set_speed_rounds_each_step :
    to_float 16.83 = 8823767 / 524288
    ∧ comm_can_set_speed (8823767 / 524288) initialState
        = can_transmit_eid 0x301 [0x00, 0x00, 0x3E, 0x3A] 4 initialState
    ∧ spec_signed 32 (spec_read_be [0x00, 0x00, 0x3E, 0x3A]) = 15930
    ∧ spec_trunc ((8823767 / 524288 : ℚ) * 5 * (59 / 22) / 0.85 * 60) = 15929 := by
  refine ⟨?_, ?_, by decide, ?_⟩
  · rw [to_float_eq 16.83 4 8823767 (by norm_num [abs_of_nonneg])
      (by norm_num [abs_of_nonneg]) (by norm_num) (by norm_num [abs_lt])]
    norm_num
  · rw [comm_can_set_speed_eq, spec_speed_to_erpm_at_1683]
    have : spec_trunc 15930 = 15930 := by
      rw [← float_to_int_eq_spec_trunc]
      norm_num [float_to_int]
    rw [this]
    rfl
  · rw [← float_to_int_eq_spec_trunc]
    have hq : (0 : ℚ) ≤ (8823767 / 524288 : ℚ) * 5 * (59 / 22) / 0.85 * 60 := by norm_num
    rw [float_to_int, if_pos hq, Int.floor_eq_iff]
    norm_num

/-- Claim C11, amended.  For every `float` speed `s` in m/s, `comm_can_set_speed` sends the
set-RPM frame (address `0x301`) whose payload is the big-endian signed 32-bit value
`trunc (fl (fl (fl (fl (s * 5) * g) / c) * 60))`, where `fl` rounds to `float`,
`g = 11248361 / 2 ^ 22` is the `float` value of `59/22` and `c = 7130317 / 2 ^ 23` that of
`0.85` (at `s = 16.83f = 8823767 / 2 ^ 19` the rounded value is `15930`), when that value
fits a signed 32-bit integer, and then the payload reads back to it; the value is
sign-preserving and odd in `s`: the payload for `-s` is that of the negated value. -/
theorem comm_can_set_speed_payload (s : ℚ) (w : State) :
    spec_speed_to_erpm s
        = to_float (to_float (to_float (to_float (s * 5) * (11248361 / 4194304))
            / (7130317 / 8388608)) * 60)
    ∧ to_float (to_double (59 / 22)) = 11248361 / 4194304
    ∧ to_float (to_double 0.85) = 7130317 / 8388608
    ∧ spec_speed_to_erpm (8823767 / 524288) = 15930
    ∧ (spec_fits 32 (spec_speed_to_erpm s) →
        comm_can_set_speed s w
            = can_transmit_eid 0x301 (spec_be32 (spec_trunc (spec_speed_to_erpm s))) 4 w
        ∧ spec_signed 32 (spec_read_be (spec_be32 (spec_trunc (spec_speed_to_erpm s))))
            = spec_trunc (spec_speed_to_erpm s))
    ∧ (0 ≤ s → 0 ≤ spec_trunc (spec_speed_to_erpm s))
    ∧ (s ≤ 0 → spec_trunc (spec_speed_to_erpm s) ≤ 0)
    ∧ spec_trunc (spec_speed_to_erpm (-s)) = - spec_trunc (spec_speed_to_erpm s)
    ∧ (spec_fits 32 (spec_speed_to_erpm (-s)) →
        comm_can_set_speed (-s) w
          = can_transmit_eid 0x301
              (spec_be32 (- spec_trunc (spec_speed_to_erpm s))) 4 w) := by
  have hodd : spec_trunc (spec_speed_to_erpm (-s)) = - spec_trunc (spec_speed_to_erpm s) := by
    rw [spec_speed_to_erpm_neg, ← float_to_int_eq_spec_trunc, ← float_to_int_eq_spec_trunc,
      float_to_int_neg]
  have hg := gear_ratio_eq
  norm_num at hg
  refine ⟨rfl, hg, wheel_circumference_eq, spec_speed_to_erpm_at_1683,
    fun h => ⟨comm_can_set_speed_eq s w, spec_be32_roundtrip _ h.1 h.2⟩,
    fun h => ?_, fun h => ?_, hodd, fun _ => ?_⟩
  · rw [← float_to_int_eq_spec_trunc]
    exact (float_to_int_sign _).1 ((spec_speed_to_erpm_sign s).1 h)
  · rw [← float_to_int_eq_spec_trunc]
    exact (float_to_int_sign _).2 ((spec_speed_to_erpm_sign s).2 h)
  · rw [comm_can_set_speed_eq, hodd]

/-- Claim C11 (amended) applied at the `float` nearest to `16.83`: the value is `15930`,
which fits 32 bits and is not negative. -/
theorem comm_can_set_speed_payload_witness :
    spec_fits 32 (spec_speed_to_erpm (8823767 / 524288))
    ∧ spec_trunc (spec_speed_to_erpm (8823767 / 524288)) = 15930
    ∧ comm_can_set_speed (8823767 / 524288) initialState
        = can_transmit_eid 0x301
            (spec_be32 (spec_trunc (spec_speed_to_erpm (8823767 / 524288)))) 4 initialState
    ∧ spec_signed 32
          (spec_read_be (spec_be32 (spec_trunc (spec_speed_to_erpm (8823767 / 524288)))))
        = spec_trunc (spec_speed_to_erpm (8823767 / 524288))
    ∧ ((0 : ℚ) ≤ 8823767 / 524288
      ∧ 0 ≤ spec_trunc (spec_speed_to_erpm (8823767 / 524288))) := by
  have h : spec_trunc (spec_speed_to_erpm (8823767 / 524288)) = 15930 := by
    rw [spec_speed_to_erpm_at_1683, ← float_to_int_eq_spec_trunc]
    norm_num [float_to_int]
  have hf : spec_fits 32 (spec_speed_to_erpm (8823767 / 524288)) := by
    unfold spec_fits
    rw [h]
    norm_num
  have h0 : (0 : ℚ) ≤ 8823767 / 524288 := by norm_num
  have hp := (comm_can_set_speed_payload (8823767 / 524288) initialState).2.2.2.2.1 hf
  exact ⟨hf, h, hp.1, hp.2,
    h0, (comm_can_set_speed_payload (8823767 / 524288) initialState).2.2.2.2.2.1 h0⟩

/-- Masking with `0xFF` keeps the value modulo `256`. -/
theorem and_255 (x : Nat) : x &&& 255 = x % 256 :=
  Nat.and_pow_two_sub_one_eq_mod x 8

/-- The address of an 8-bit controller and a command type is their sum in base 256. -/
theorem address_eq (controller_id c : Nat) (h : controller_id < 256) :
    controller_id ||| (c <<< 8) = controller_id + c * 256 := by
  rw [FUTABA_SBUS.lor_shiftLeft_eq_add controller_id c 8 (by norm_num; exact h)]
  norm_num

/-- The command types of `CAN_PACKET_ID` are below `14`. -/
theorem CAN_PACKET_IDs_lt (c : Nat) (hc : c ∈ CAN_PACKET_IDs) : c < 14 := by
  simp only [CAN_PACKET_IDs, CAN_PACKET_SET_DUTY, CAN_PACKET_SET_CURRENT,
    CAN_PACKET_SET_CURRENT_BRAKE, CAN_PACKET_SET_RPM, CAN_PACKET_SET_POS,
    CAN_PACKET_SET_CURRENT_REL, CAN_PACKET_SET_CURRENT_BRAKE_REL,
    CAN_PACKET_SET_CURRENT_HANDBRAKE, CAN_PACKET_SET_CURRENT_HANDBRAKE_REL, List.mem_cons,
    List.mem_singleton, List.not_mem_nil, or_false] at hc
  omega

/-- Each VESC encoder is one call of `can_transmit_eid` with the address of its controller
and its command type. -/
theorem vescEncoders_transmit (controller_id : Byte) (x off_delay : ℚ) (e : Nat × (State → State))
    (he : e ∈ vescEncoders controller_id x off_delay) :
    e.1 ∈ CAN_PACKET_IDs
    ∧ ∃ data len, ∀ w,
        e.2 w = can_transmit_eid (controller_id.val ||| (e.1 <<< 8)) data len w := by
  simp only [vescEncoders, List.mem_cons, List.mem_singleton, List.not_mem_nil, or_false] at he
  rcases he with h | h | h | h | h | h | h | h | h | h | h <;> subst h
  · exact ⟨by simp [CAN_PACKET_IDs], _, _, comm_can_set_duty_eq _ _⟩
  · exact ⟨by simp [CAN_PACKET_IDs], _, _, comm_can_set_current_eq _ _⟩
  · exact ⟨by simp [CAN_PACKET_IDs], _, _, comm_can_set_current_brake_eq _ _⟩
  · exact ⟨by simp [CAN_PACKET_IDs], _, _, comm_can_set_rpm_eq _ _⟩
  · exact ⟨by simp [CAN_PACKET_IDs], _, _, comm_can_set_pos_eq _ _⟩
  · exact ⟨by simp [CAN_PACKET_IDs], _, _, comm_can_set_current_rel_eq _ _⟩
  · exact ⟨by simp [CAN_PACKET_IDs], _, _, comm_can_set_current_off_delay_eq _ _ _⟩
  · exact ⟨by simp [CAN_PACKET_IDs], _, _, comm_can_set_current_rel_off_delay_eq _ _ _⟩
  · exact ⟨by simp [CAN_PACKET_IDs], _, _, comm_can_set_current_brake_rel_eq _ _⟩
  · exact ⟨by simp [CAN_PACKET_IDs], _, _, comm_can_set_handbrake_eq _ _⟩
  · exact ⟨by simp [CAN_PACKET_IDs], _, _, comm_can_set_handbrake_rel_eq _ _⟩

/-- The address of the frame that a VESC encoder writes. -/
theorem vescEncoders_address (controller_id : Byte) (x off_delay : ℚ) (w : State)
    (e : Nat × (State → State)) (he : e ∈ vescEncoders controller_id x off_delay) :
    ∃ msg, lastFrame (e.2 w) = some msg
      ∧ msg.id = controller_id.val ||| (e.1 <<< 8)
      ∧ msg.id &&& 0xFF = controller_id.val ∧ msg.id >>> 8 = e.1 := by
  obtain ⟨hc, data, len, h⟩ := vescEncoders_transmit controller_id x off_delay e he
  have hlt := CAN_PACKET_IDs_lt _ hc
  have hid := controller_id.isLt
  refine ⟨_, by rw [h w, lastFrame_can_transmit_eid], ?_, ?_, ?_⟩
  all_goals simp only [CANMessage.new]
  all_goals rw [address_eq _ _ hid]
  · omega
  · rw [and_255]
    omega
  · rw [Nat.shiftRight_eq_div_pow]
    omega

/-- Claim C13.  For every 8-bit `controller_id` and every command type `c` of
`CAN_PACKET_ID` (`0..4`, `10..13`), the address of the frame that a `comm_can_set_*`
encoder writes is `id = controller_id | (c << 8)` for the command type `c` of the encoder,
it satisfies `id & 0xFF = controller_id` and `id >> 8 = c`, and two encoder calls whose
frames have the same address have the same controller and the same command type: distinct
pairs `(controller_id, command type)` give distinct addresses. -/
theorem address_determines_controller_and_command :
    CAN_PACKET_IDs = [0, 1, 2, 3, 4, 10, 11, 12, 13]
    ∧ (∀ (controller_id : Byte) (x off_delay : ℚ),
        (vescEncoders controller_id x off_delay).map Prod.fst
          = [0, 1, 2, 3, 4, 10, 1, 10, 11, 12, 13])
    ∧ (∀ (controller_id : Byte) (x off_delay : ℚ) (w : State),
        ∀ e ∈ vescEncoders controller_id x off_delay,
          ∃ msg, lastFrame (e.2 w) = some msg
            ∧ msg.id = controller_id.val ||| (e.1 <<< 8)
            ∧ msg.id &&& 0xFF = controller_id.val ∧ msg.id >>> 8 = e.1)
    ∧ (∀ (id1 id2 : Byte) (x1 d1 x2 d2 : ℚ) (w1 w2 : State),
        ∀ e1 ∈ vescEncoders id1 x1 d1, ∀ e2 ∈ vescEncoders id2 x2 d2,
        ∀ m1 m2, lastFrame (e1.2 w1) = some m1 → lastFrame (e2.2 w2) = some m2 →
          m1.id = m2.id → id1 = id2 ∧ e1.1 = e2.1) := by
  refine ⟨rfl, fun _ _ _ => rfl, fun controller_id x off_delay w e he =>
    vescEncoders_address controller_id x off_delay w e he, ?_⟩
  intro id1 id2 x1 d1 x2 d2 w1 w2 e1 he1 e2 he2 m1 m2 h1 h2 hid
  obtain ⟨n1, hn1, _, ha1, hb1⟩ := vescEncoders_address id1 x1 d1 w1 e1 he1
  obtain ⟨n2, hn2, _, ha2, hb2⟩ := vescEncoders_address id2 x2 d2 w2 e2 he2
  rw [h1, Option.some.injEq] at hn1
  rw [h2, Option.some.injEq] at hn2
  subst hn1 hn2
  rw [hid] at ha1 hb1
  exact ⟨Fin.ext (ha1.symm.trans ha2), hb1.symm.trans hb2⟩

/-- Claim C13 applied to `comm_can_set_rpm` at the throttle controller (`1`) in the initial
state: the address of its frame is `0x301`. -/
theorem address_determines_controller_and_command_witness :
    (CAN_PACKET_SET_RPM, comm_can_set_rpm 1 0) ∈ vescEncoders 1 0 0
    ∧ ∃ msg, lastFrame (comm_can_set_rpm 1 0 initialState) = some msg
        ∧ msg.id = (1 : Byte).val ||| (CAN_PACKET_SET_RPM <<< 8)
        ∧ msg.id &&& 0xFF = (1 : Byte).val ∧ msg.id >>> 8 = CAN_PACKET_SET_RPM :=
  ⟨by simp [vescEncoders],
   address_determines_controller_and_command.2.2.1 1 0 0 initialState
     (CAN_PACKET_SET_RPM, comm_can_set_rpm 1 0) (by simp [vescEncoders])⟩

/-- A segment of a list is determined by its entries. -/
theorem take_drop_eq_of_getElem? (l bs : List Nat) (i : Nat)
    (h : ∀ k, k < bs.length → l[i + k]? = bs[k]?) : (l.drop i).take bs.length = bs := by
  apply List.ext_getElem?
  intro n
  rw [List.getElem?_take]
  split_ifs with hn
  · rw [List.getElem?_drop]
    exact h n hn
  · exact (List.getElem?_eq_none (not_lt.mp hn)).symm

/-- The effect of `buffer_append_int16` on the cells of the buffer and on the index. -/
theorem buffer_append_int16_cells (buffer : List Nat) (number : Int) (index : Nat)
    (hroom : index + 2 ≤ buffer.length) :
    (buffer_append_int16 buffer number index).2 = index + 2
    ∧ (buffer_append_int16 buffer number index).1.length = buffer.length
    ∧ ((buffer_append_int16 buffer number index).1.drop index).take 2 = spec_be16 number
    ∧ (∀ j, j < index ∨ index + 2 ≤ j →
        (buffer_append_int16 buffer number index).1[j]? = buffer[j]?) := by
  obtain ⟨g1, g2⟩ := to_uint8_shiftRight_16 number
  refine ⟨rfl, by simp [buffer_append_int16], ?_, fun j hj => ?_⟩
  · apply take_drop_eq_of_getElem? _ (spec_be16 number) index
    intro k hk
    simp only [spec_be16, List.length_cons, List.length_nil] at hk
    have hk2 : k = 0 ∨ k = 1 := by omega
    rcases hk2 with rfl | rfl
    · simp only [buffer_append_int16, spec_be16, g1, g2, Nat.add_zero]
      rw [List.getElem?_set_ne (by omega), List.getElem?_set_self (by omega)]
      rfl
    · simp only [buffer_append_int16, spec_be16, g1, g2]
      rw [List.getElem?_set_self (by simp; omega)]
      rfl
  · simp only [buffer_append_int16]
    rw [List.getElem?_set_ne (by omega), List.getElem?_set_ne (by omega)]

/-- The effect of `buffer_append_int32` on the cells of the buffer and on the index. -/
theorem buffer_append_int32_cells (buffer : List Nat) (number : Int) (index : Nat)
    (hroom : index + 4 ≤ buffer.length) :
    (buffer_append_int32 buffer number index).2 = index + 4
    ∧ (buffer_append_int32 buffer number index).1.length = buffer.length
    ∧ ((buffer_append_int32 buffer number index).1.drop index).take 4 = spec_be32 number
    ∧ (∀ j, j < index ∨ index + 4 ≤ j →
        (buffer_append_int32 buffer number index).1[j]? = buffer[j]?) := by
  obtain ⟨h1, h2, h3, h4⟩ := to_uint8_shiftRight_32 number
  refine ⟨rfl, by simp [buffer_append_int32], ?_, fun j hj => ?_⟩
  · apply take_drop_eq_of_getElem? _ (spec_be32 number) index
    intro k hk
    simp only [spec_be32, List.length_cons, List.length_nil] at hk
    have hk2 : k = 0 ∨ k = 1 ∨ k = 2 ∨ k = 3 := by omega
    rcases hk2 with rfl | rfl | rfl | rfl
    · simp only [buffer_append_int32, spec_be32, h1, h2, h3, h4, Nat.add_zero]
      rw [List.getElem?_set_ne (by omega), List.getElem?_set_ne (by omega),
        List.getElem?_set_ne (by omega), List.getElem?_set_self (by omega)]
      rfl
    · simp only [buffer_append_int32, spec_be32, h1, h2, h3, h4]
      rw [List.getElem?_set_ne (by omega), List.getElem?_set_ne (by omega),
        List.getElem?_set_self (by simp; omega)]
      rfl
    · simp only [buffer_append_int32, spec_be32, h1, h2, h3, h4]
      rw [List.getElem?_set_ne (by omega), List.getElem?_set_self (by simp; omega)]
      rfl
    · simp only [buffer_append_int32, spec_be32, h1, h2, h3, h4]
      rw [List.getElem?_set_self (by simp; omega)]
      rfl
  · simp only [buffer_append_int32]
    rw [List.getElem?_set_ne (by omega), List.getElem?_set_ne (by omega),
      List.getElem?_set_ne (by omega), List.getElem?_set_ne (by omega)]

/-- Claim C14.  For every buffer, every index with enough room and every number,
`buffer_append_int16` (resp. `buffer_append_int32`) writes the number's 2 (resp. 4) bytes
most-significant byte first starting at the index, advances the index by exactly 2
(resp. 4), and leaves every other byte of the buffer unchanged; reading those bytes back
as a big-endian two's-complement integer returns the original number. -/
theorem buffer_append_big_endian_roundtrip (buffer : List Nat) (index : Nat) (number : Int) :
    (index + 2 ≤ buffer.length → -2 ^ 15 ≤ number → number < 2 ^ 15 →
      (buffer_append_int16 buffer number index).2 = index + 2
      ∧ (buffer_append_int16 buffer number index).1.length = buffer.length
      ∧ ((buffer_append_int16 buffer number index).1.drop index).take 2 = spec_be16 number
      ∧ (∀ j, j < index ∨ index + 2 ≤ j →
          (buffer_append_int16 buffer number index).1[j]? = buffer[j]?)
      ∧ spec_signed 16
          (spec_read_be (((buffer_append_int16 buffer number index).1.drop index).take 2))
          = number)
    ∧ (index + 4 ≤ buffer.length → -2 ^ 31 ≤ number → number < 2 ^ 31 →
      (buffer_append_int32 buffer number index).2 = index + 4
      ∧ (buffer_append_int32 buffer number index).1.length = buffer.length
      ∧ ((buffer_append_int32 buffer number index).1.drop index).take 4 = spec_be32 number
      ∧ (∀ j, j < index ∨ index + 4 ≤ j →
          (buffer_append_int32 buffer number index).1[j]? = buffer[j]?)
      ∧ spec_signed 32
          (spec_read_be (((buffer_append_int32 buffer number index).1.drop index).take 4))
          = number) := by
  constructor
  · intro hroom h1 h2
    obtain ⟨a, b, c, d⟩ := buffer_append_int16_cells buffer number index hroom
    exact ⟨a, b, c, d, by rw [c]; exact spec_be16_roundtrip number h1 h2⟩
  · intro hroom h1 h2
    obtain ⟨a, b, c, d⟩ := buffer_append_int32_cells buffer number index hroom
    exact ⟨a, b, c, d, by rw [c]; exact spec_be32_roundtrip number h1 h2⟩

/-- Claim C14 applied to the buffer `[9, 9, 9, 9, 9, 9]` at index `1`, with the numbers
`-2` (16 bits) and `-1500` (32 bits). -/
theorem buffer_append_big_endian_roundtrip_witness :
    (1 + 2 ≤ [9, 9, 9, 9, 9, 9].length ∧ (-2 ^ 15 : Int) ≤ -2 ∧ (-2 : Int) < 2 ^ 15
      ∧ (buffer_append_int16 [9, 9, 9, 9, 9, 9] (-2) 1).2 = 1 + 2
      ∧ spec_signed 16
          (spec_read_be (((buffer_append_int16 [9, 9, 9, 9, 9, 9] (-2) 1).1.drop 1).take 2))
          = -2)
    ∧ (1 + 4 ≤ [9, 9, 9, 9, 9, 9].length ∧ (-2 ^ 31 : Int) ≤ -1500 ∧ (-1500 : Int) < 2 ^ 31
      ∧ (buffer_append_int32 [9, 9, 9, 9, 9, 9] (-1500) 1).2 = 1 + 4
      ∧ spec_signed 32
          (spec_read_be (((buffer_append_int32 [9, 9, 9, 9, 9, 9] (-1500) 1).1.drop 1).take 4))
          = -1500) :=
  ⟨⟨by decide, by decide, by decide,
      ((buffer_append_big_endian_roundtrip [9, 9, 9, 9, 9, 9] 1 (-2)).1
        (by decide) (by decide) (by decide)).1,
      ((buffer_append_big_endian_roundtrip [9, 9, 9, 9, 9, 9] 1 (-2)).1
        (by decide) (by decide) (by decide)).2.2.2.2⟩,
   ⟨by decide, by decide, by decide,
      ((buffer_append_big_endian_roundtrip [9, 9, 9, 9, 9, 9] 1 (-1500)).2
        (by decide) (by decide) (by decide)).1,
      ((buffer_append_big_endian_roundtrip [9, 9, 9, 9, 9, 9] 1 (-1500)).2
        (by decide) (by decide) (by decide)).2.2.2.2⟩⟩

/-- The big-endian bytes of a value that fits 32 bits read back to the value. -/
theorem spec_fits_roundtrip32 (q : ℚ) (h : spec_fits 32 q) :
    spec_signed 32 (spec_read_be (spec_be32 (spec_trunc q))) = spec_trunc q :=
  spec_be32_roundtrip _ h.1 h.2

/-- The big-endian bytes of a value that fits 16 bits read back to the value. -/
theorem spec_fits_roundtrip16 (q : ℚ) (h : spec_fits 16 q) :
    spec_signed 16 (spec_read_be (spec_be16 (spec_trunc q))) = spec_trunc q :=
  spec_be16_roundtrip _ h.1 h.2

/-- Truncation of an integer. -/
theorem spec_trunc_intCast (n : Int) : spec_trunc (n : ℚ) = n := by
  simp [spec_trunc]

/-- The `float` product of the `float` nearest to `-0.96` and `100000`. -/
theorem current_rel_product_at_096 :
    to_float ((-16106127 / 16777216 : ℚ) * 100000) = -96000 := by
  rw [to_float_eq _ 16 (-12288000) (by norm_num [abs_of_neg]) (by norm_num [abs_of_neg])
    (by norm_num) (by norm_num [abs_lt])]
  norm_num

/-- Claim C15 as stated fails.  For the relative current `-0.96f = -16106127 / 2 ^ 24` (the
`float` nearest to `-0.96`) the exact product with `100000` is `-95999.99904..`, whose
`float` value is `-96000`: `comm_can_set_current_rel`, called for the controller `2` in the
initial state, sends `-96000`, the bytes `FF FE 89 00`, while `trunc (value * scale)` is
`-95999`. -/
theorem current_rel_rounds_before_truncation :
    to_float (-0.96) = -16106127 / 16777216
    ∧ comm_can_set_current_rel 2 (-16106127 / 16777216) initialState
        = can_transmit_eid ((2 : Byte).val ||| (CAN_PACKET_SET_CURRENT_REL <<< 8))
            [0xFF, 0xFE, 0x89, 0x00] 4 initialState
    ∧ spec_signed 32 (spec_read_be [0xFF, 0xFE, 0x89, 0x00]) = -96000
    ∧ spec_trunc ((-16106127 / 16777216 : ℚ) * 100000) = -95999 := by
  refine ⟨?_, ?_, by decide, ?_⟩
  · rw [to_float_eq (-0.96) (-1) (-16106127) (by norm_num [abs_of_neg])
      (by norm_num [abs_of_neg]) (by norm_num) (by norm_num [abs_lt])]
    norm_num
  · have e5 : (1e5 : ℚ) = 100000 := by norm_num
    rw [comm_can_set_current_rel_eq, e5, current_rel_product_at_096]
    have : float_to_int (-96000) = -96000 := by
      rw [float_to_int_eq_spec_trunc]
      exact_mod_cast spec_trunc_intCast (-96000)
    rw [this]
    rfl
  · rw [← float_to_int_eq_spec_trunc]
    have hq : ¬ (0 : ℚ) ≤ (-16106127 / 16777216 : ℚ) * 100000 := by norm_num
    rw [float_to_int, if_neg hq, Int.ceil_eq_iff]
    norm_num

/-- Claim C15, amended.  Each VESC command encoder sends a 4-byte payload equal to the
big-endian signed 32-bit value `trunc (value * scale)`, where the product is the exact one
for set-duty (`100000`), set-current (`1000`), set-current-brake (`1000`), set-RPM (`1`) and
set-position (`-1000000`, the position is negated), which multiply in `double`, and is
rounded to `float` before the truncation for set-current-rel (`100000`),
set-current-brake-rel (`100000`), set-handbrake (`1000`) and set-handbrake-rel (`100000`),
which multiply in `float` (the `float` product of `-0.96f = -16106127 / 2 ^ 24` and
`100000` is `-96000`); the `*_off_delay` variants append the off delay as the big-endian
16-bit value of the truncation of the `float` product `off_delay * 1000`, giving 6 bytes.
Each statement is for a value whose truncated product fits the integer type, and then the
payload reads back to that value. -/
theorem vesc_encoders_scale_factors (controller_id : Byte) (x off_delay : ℚ) (w : State) :
    to_float ((-16106127 / 16777216 : ℚ) * 100000) = -96000
    ∧ (spec_fits 32 (x * 100000) →
      comm_can_set_duty controller_id x w
          = can_transmit_eid (controller_id.val ||| (CAN_PACKET_SET_DUTY <<< 8))
              (spec_be32 (spec_trunc (x * 100000))) 4 w
      ∧ spec_signed 32 (spec_read_be (spec_be32 (spec_trunc (x * 100000))))
          = spec_trunc (x * 100000))
    ∧ (spec_fits 32 (x * 1000) →
      comm_can_set_current controller_id x w
          = can_transmit_eid (controller_id.val ||| (CAN_PACKET_SET_CURRENT <<< 8))
              (spec_be32 (spec_trunc (x * 1000))) 4 w
      ∧ comm_can_set_current_brake controller_id x w
          = can_transmit_eid (controller_id.val ||| (CAN_PACKET_SET_CURRENT_BRAKE <<< 8))
              (spec_be32 (spec_trunc (x * 1000))) 4 w
      ∧ spec_signed 32 (spec_read_be (spec_be32 (spec_trunc (x * 1000))))
          = spec_trunc (x * 1000))
    ∧ (spec_fits 32 x →
      comm_can_set_rpm controller_id x w
          = can_transmit_eid (controller_id.val ||| (CAN_PACKET_SET_RPM <<< 8))
              (spec_be32 (spec_trunc (x * 1))) 4 w
      ∧ spec_signed 32 (spec_read_be (spec_be32 (spec_trunc (x * 1)))) = spec_trunc x)
    ∧ (spec_fits 32 (x * -1000000) →
      comm_can_set_pos controller_id x w
          = can_transmit_eid (controller_id.val ||| (CAN_PACKET_SET_POS <<< 8))
              (spec_be32 (spec_trunc (x * -1000000))) 4 w
      ∧ spec_signed 32 (spec_read_be (spec_be32 (spec_trunc (x * -1000000))))
          = spec_trunc (x * -1000000))
    ∧ (spec_fits 32 (to_float (x * 100000)) →
      comm_can_set_current_rel controller_id x w
          = can_transmit_eid (controller_id.val ||| (CAN_PACKET_SET_CURRENT_REL <<< 8))
              (spec_be32 (spec_trunc (to_float (x * 100000)))) 4 w
      ∧ comm_can_set_current_brake_rel controller_id x w
          = can_transmit_eid (controller_id.val ||| (CAN_PACKET_SET_CURRENT_BRAKE_REL <<< 8))
              (spec_be32 (spec_trunc (to_float (x * 100000)))) 4 w
      ∧ comm_can_set_handbrake_rel controller_id x w
          = can_transmit_eid
              (controller_id.val ||| (CAN_PACKET_SET_CURRENT_HANDBRAKE_REL <<< 8))
              (spec_be32 (spec_trunc (to_float (x * 100000)))) 4 w
      ∧ spec_signed 32 (spec_read_be (spec_be32 (spec_trunc (to_float (x * 100000)))))
          = spec_trunc (to_float (x * 100000)))
    ∧ (spec_fits 32 (to_float (x * 1000)) →
      comm_can_set_handbrake controller_id x w
          = can_transmit_eid (controller_id.val ||| (CAN_PACKET_SET_CURRENT_HANDBRAKE <<< 8))
              (spec_be32 (spec_trunc (to_float (x * 1000)))) 4 w
      ∧ spec_signed 32 (spec_read_be (spec_be32 (spec_trunc (to_float (x * 1000)))))
          = spec_trunc (to_float (x * 1000)))
    ∧ (spec_fits 32 (x * 1000) → spec_fits 16 (to_float (off_delay * 1000)) →
      comm_can_set_current_off_delay controller_id x off_delay w
          = can_transmit_eid (controller_id.val ||| (CAN_PACKET_SET_CURRENT <<< 8))
              (spec_be32 (spec_trunc (x * 1000))
                ++ spec_be16 (spec_trunc (to_float (off_delay * 1000)))) 6 w
      ∧ spec_signed 16 (spec_read_be (spec_be16 (spec_trunc (to_float (off_delay * 1000)))))
          = spec_trunc (to_float (off_delay * 1000)))
    ∧ (spec_fits 32 (to_float (x * 100000)) → spec_fits 16 (to_float (off_delay * 1000)) →
      comm_can_set_current_rel_off_delay controller_id x off_delay w
          = can_transmit_eid (controller_id.val ||| (CAN_PACKET_SET_CURRENT_REL <<< 8))
              (spec_be32 (spec_trunc (to_float (x * 100000)))
                ++ spec_be16 (spec_trunc (to_float (off_delay * 1000)))) 6 w
      ∧ spec_signed 16 (spec_read_be (spec_be16 (spec_trunc (to_float (off_delay * 1000)))))
          = spec_trunc (to_float (off_delay * 1000))) := by
  have e5 : (1e5 : ℚ) = 100000 := by norm_num
  have e3 : (1e3 : ℚ) = 1000 := by norm_num
  have k5 : (100000.0 : ℚ) = 100000 := by norm_num
  have k3 : (1000.0 : ℚ) = 1000 := by norm_num
  have kp : (-1.0 : ℚ) * x * 1000000.0 = x * -1000000 := by
    norm_num
  refine ⟨current_rel_product_at_096, fun h => ⟨?_, spec_fits_roundtrip32 _ h⟩,
    fun h => ⟨?_, ?_, spec_fits_roundtrip32 _ h⟩,
    fun h => ⟨?_, ?_⟩,
    fun h => ⟨?_, spec_fits_roundtrip32 _ h⟩,
    fun h => ⟨?_, ?_, ?_, spec_fits_roundtrip32 _ h⟩,
    fun h => ⟨?_, spec_fits_roundtrip32 _ h⟩,
    fun _ hd => ⟨?_, spec_fits_roundtrip16 _ hd⟩,
    fun _ hd => ⟨?_, spec_fits_roundtrip16 _ hd⟩⟩
  · rw [comm_can_set_duty_eq, k5, float_to_int_eq_spec_trunc]
  · rw [comm_can_set_current_eq, k3, float_to_int_eq_spec_trunc]
  · rw [comm_can_set_current_brake_eq, k3, float_to_int_eq_spec_trunc]
  · rw [comm_can_set_rpm_eq, mul_one, float_to_int_eq_spec_trunc]
  · rw [mul_one]
    exact spec_fits_roundtrip32 _ h
  · rw [comm_can_set_pos_eq, kp, float_to_int_eq_spec_trunc]
  · rw [comm_can_set_current_rel_eq, e5, float_to_int_eq_spec_trunc]
  · rw [comm_can_set_current_brake_rel_eq, e5, float_to_int_eq_spec_trunc]
  · rw [comm_can_set_handbrake_rel_eq, e5, float_to_int_eq_spec_trunc]
  · rw [comm_can_set_handbrake_eq, e3, float_to_int_eq_spec_trunc]
  · rw [comm_can_set_current_off_delay_eq, k3, e3, float_to_int_eq_spec_trunc,
      float_to_int_eq_spec_trunc]
  · rw [comm_can_set_current_rel_off_delay_eq, e5, e3, float_to_int_eq_spec_trunc,
      float_to_int_eq_spec_trunc]

/-- Claim C15 (amended) applied to `comm_can_set_current_rel` at the controller `2` and the
`float` nearest to `-0.96`, in the initial state: the value sent is `-96000`, it fits 32
bits and it is read back from the payload. -/
theorem vesc_encoders_scale_factors_witness :
    spec_fits 32 (to_float ((-16106127 / 16777216 : ℚ) * 100000))
    ∧ spec_trunc (to_float ((-16106127 / 16777216 : ℚ) * 100000)) = -96000
    ∧ comm_can_set_current_rel 2 (-16106127 / 16777216) initialState
        = can_transmit_eid ((2 : Byte).val ||| (CAN_PACKET_SET_CURRENT_REL <<< 8))
            (spec_be32 (spec_trunc (to_float ((-16106127 / 16777216 : ℚ) * 100000)))) 4
            initialState
    ∧ spec_signed 32 (spec_read_be
          (spec_be32 (spec_trunc (to_float ((-16106127 / 16777216 : ℚ) * 100000)))))
        = spec_trunc (to_float ((-16106127 / 16777216 : ℚ) * 100000)) := by
  have hv : spec_trunc (to_float ((-16106127 / 16777216 : ℚ) * 100000)) = -96000 := by
    rw [current_rel_product_at_096]
    exact_mod_cast spec_trunc_intCast (-96000)
  have hf : spec_fits 32 (to_float ((-16106127 / 16777216 : ℚ) * 100000)) := by
    unfold spec_fits
    rw [hv]
    norm_num
  have h := (vesc_encoders_scale_factors 2 (-16106127 / 16777216) 0
    initialState).2.2.2.2.2.1 hf
  exact ⟨hf, hv, h.1, h.2.2.2⟩

/-- The `double` value of the literal `MOTOR_OFFSET`. -/
theorem motor_offset_eq : to_double MOTOR_OFFSET = 5404319552844595 / 18014398509481984 := by
  rw [MOTOR_OFFSET, to_double_eq 0.3 (-2) 5404319552844595 (by norm_num [abs_of_nonneg])
    (by norm_num [abs_of_nonneg]) (by norm_num) (by norm_num [abs_lt])]
  norm_num

/-- The `double` value of the quotient `180.0 / 3.14159265358979323846`. -/
theorem rad_to_deg_factor_eq :
    to_double (180.0 / to_double 3.14159265358979323846)
      = 1007958012753983 / 17592186044416 := by
  have h1 : to_double 3.14159265358979323846 = 884279719003555 / 281474976710656 := by
    rw [to_double_eq 3.14159265358979323846 1 7074237752028440 (by norm_num [abs_of_nonneg])
      (by norm_num [abs_of_nonneg]) (by norm_num) (by norm_num [abs_lt])]
    norm_num
  rw [h1, to_double_eq _ 5 8063664102031864 (by norm_num [abs_of_nonneg])
    (by norm_num [abs_of_nonneg]) (by norm_num) (by norm_num [abs_lt])]
  norm_num

/-- The call of `comm_can_set_angle` is that of `comm_can_set_pos` at the steering
controller with the value `rad_to_deg`. -/
theorem comm_can_set_angle_eq (a : ℚ) (w : State) :
    comm_can_set_angle a w = comm_can_set_pos (Fin.ofNat STEER_CAN_ID) (spec_rad_to_deg a) w := by
  have e4 : (4.0 : ℚ) = 4 := by norm_num
  simp only [comm_can_set_angle, motor_offset_eq, rad_to_deg_factor_eq, spec_rad_to_deg, e4]

/-- The value `rad_to_deg` at the steering angle `0`, and the position that is sent for
it. -/
theorem spec_rad_to_deg_zero :
    spec_rad_to_deg 0 = 9011847 / 524288
    ∧ spec_trunc (spec_rad_to_deg 0 * -1000000) = -17188734 := by
  have h1 : to_double ((0 : ℚ) * 4 + 5404319552844595 / 18014398509481984)
      = 5404319552844595 / 18014398509481984 := by
    rw [to_double_eq _ (-2) 5404319552844595 (by norm_num [abs_of_nonneg])
      (by norm_num [abs_of_nonneg]) (by norm_num) (by norm_num [abs_lt])]
    norm_num
  have h2 : to_float (5404319552844595 / 18014398509481984) = 5033165 / 16777216 := by
    rw [to_float_eq _ (-2) 10066330 (by norm_num [abs_of_nonneg])
      (by norm_num [abs_of_nonneg]) (by norm_num) (by norm_num [abs_lt])]
    norm_num
  have h3 : to_double ((1007958012753983 / 17592186044416 : ℚ) * (5033165 / 16777216))
      = 1209549663367963 / 70368744177664 := by
    rw [to_double_eq _ 4 4838198653471852 (by norm_num [abs_of_nonneg])
      (by norm_num [abs_of_nonneg]) (by norm_num) (by norm_num [abs_lt])]
    norm_num
  have h4 : to_float (1209549663367963 / 70368744177664) = 9011847 / 524288 := by
    rw [to_float_eq _ 4 9011847 (by norm_num [abs_of_nonneg])
      (by norm_num [abs_of_nonneg]) (by norm_num) (by norm_num [abs_lt])]
    norm_num
  have h : spec_rad_to_deg 0 = 9011847 / 524288 := by
    rw [spec_rad_to_deg, h1, h2, h3, h4]
  refine ⟨h, ?_⟩
  rw [h, ← float_to_int_eq_spec_trunc]
  have hq : ¬ (0 : ℚ) ≤ (9011847 / 524288 : ℚ) * -1000000 := by norm_num
  rw [float_to_int, if_neg hq, Int.ceil_eq_iff]
  norm_num

/-- A call that is one `can_transmit_eid` of the bytes of a list of fields, 2 to 6 bytes
long, to the address of an 8-bit controller and a command type of `CAN_PACKET_ID`, sends a
frame of the canonical layout. -/
theorem sendsCanonicalFrame_of_eq (f : State → State) (controller_id : Byte) (c : Nat)
    (hc : c ∈ CAN_PACKET_IDs) (fields : List PayloadField) (len : Nat)
    (hlen : ((fields.map PayloadField.bytes).flatten).length = len)
    (h2 : 2 ≤ len) (h6 : len ≤ 6)
    (h : ∀ w, f w = can_transmit_eid (controller_id.val ||| (c <<< 8))
      ((fields.map PayloadField.bytes).flatten) len w) :
    sendsCanonicalFrame f controller_id.val c fields := by
  intro w
  have hlt := CAN_PACKET_IDs_lt _ hc
  have hid := controller_id.isLt
  have hmin : min len 8 = len := min_eq_left (by omega)
  refine ⟨_, by rw [h w, framesOf_can_transmit_eid], hid, hc, ?_, ?_, ?_, ?_, ?_, rfl, rfl⟩
  all_goals simp only [CANMessage.new, hmin]
  · rw [address_eq _ _ hid]
    omega
  · exact h2
  · exact h6
  · rw [List.length_take, hlen, min_self]
  · rw [← hlen, List.take_length]

/-- The frame that `comm_can_set_brake_position 0` sends from the initial state. -/
theorem brake_zero_log :
    (comm_can_set_brake_position 0 initialState).can2.log
      = [CANEvent.write
          { id := 0x00FF0000, data := [0x0F, 0x4A, 0x58, 0xC2, 0, 0, 0, 0], len := 8,
            type := CANType.CANData, format := CANFormat.CANExtended } true] := by
  simp only [comm_can_set_brake_position, brake_pos_zero, can_transmit_eid_log]
  decide

/-- Claim C12 as stated fails: the frame that `comm_can_set_brake_position` sends for the
brake fraction `0` is 8 bytes long, at the address `0x00FF0000`, with the low byte `0x58`
of the position `600 = 0x258` before its high bits; it does not have the canonical layout,
for any controller, command type and field values. -/
theorem brake_frame_not_canonical :
    (comm_can_set_brake_position 0 initialState).can2.log
      = [CANEvent.write
          { id := 0x00FF0000, data := [0x0F, 0x4A, 0x58, 0xC2, 0, 0, 0, 0], len := 8,
            type := CANType.CANData, format := CANFormat.CANExtended } true]
    ∧ ¬ ∃ controller_id command_type fields,
        sendsCanonicalFrame (comm_can_set_brake_position 0) controller_id command_type
          fields := by
  refine ⟨brake_zero_log, fun ⟨controller_id, command_type, fields, h⟩ => ?_⟩
  obtain ⟨msg, hmsg, _, _, _, _, h6, _⟩ := h initialState
  rw [brake_zero_log] at hmsg
  simp only [framesOf, initialState, List.nil_append, List.cons.injEq, and_true] at hmsg
  rw [← hmsg] at h6
  simp at h6

/-- The two position bytes of the brake frame, in arithmetic form. -/
theorem brake_position_bytes (pos : Nat) :
    (pos &&& 0xFF) % 256 = pos % 256
    ∧ (0xC0 ||| ((pos >>> 8) &&& 0x1F)) % 256 = 192 + pos / 256 % 32 := by
  have h31 : ∀ x : Nat, x &&& 31 = x % 32 := fun x => Nat.and_pow_two_sub_one_eq_mod x 5
  have hor : ∀ y : Nat, y < 32 → 192 ||| y = 192 + y := by
    intro y hy
    have := Nat.mul_add_lt_is_or (show y < 2 ^ 5 by norm_num; exact hy) 6
    norm_num at this
    exact this.symm
  constructor
  · rw [and_255, Nat.mod_mod]
  · rw [h31, Nat.shiftRight_eq_div_pow, hor _ (Nat.mod_lt _ (by norm_num))]
    norm_num
    omega

/-- Claim C12, amended.  Every outbound frame that the VESC encoders construct (the
`comm_can_set_*` functions other than `comm_can_set_brake_position`, and
`comm_can_set_speed` and `comm_can_set_angle` through them) follows the canonical layout:
the address is `controller_id | (command_type << 8)` for the controller and the command
type of the encoder, the payload is 4 or 6 bytes long (within 2 to 6), and it holds the
value that the encoder computes as a 32-bit field, followed in the `*_off_delay` variants
by the off delay as a 16-bit field, each field with its most significant byte first, for
the arguments whose values fit these fields (the value for `comm_can_set_speed` is that of
claim C11, and `comm_can_set_angle` sends the truncation of `-1000000` times the `float`
value `rad_to_deg`, `-17188734` for the angle `0`).  `comm_can_set_brake_position` sends a
frame of another layout: 8 bytes at the address `BRAKE_CAN_ID`, with the low byte of the
position at offset 2 and its high bits at offset 3. -/
theorem vesc_frames_canonical (controller_id : Byte) (x off_delay : ℚ) :
    (spec_fits 32 (x * 100000) →
      sendsCanonicalFrame (comm_can_set_duty controller_id x) controller_id.val
        CAN_PACKET_SET_DUTY [PayloadField.int32 (spec_trunc (x * 100000))])
    ∧ (spec_fits 32 (x * 1000) →
      sendsCanonicalFrame (comm_can_set_current controller_id x) controller_id.val
        CAN_PACKET_SET_CURRENT [PayloadField.int32 (spec_trunc (x * 1000))])
    ∧ (spec_fits 32 (x * 1000) →
      sendsCanonicalFrame (comm_can_set_current_brake controller_id x) controller_id.val
        CAN_PACKET_SET_CURRENT_BRAKE [PayloadField.int32 (spec_trunc (x * 1000))])
    ∧ (spec_fits 32 x →
      sendsCanonicalFrame (comm_can_set_rpm controller_id x) controller_id.val
        CAN_PACKET_SET_RPM [PayloadField.int32 (spec_trunc x)])
    ∧ (spec_fits 32 (x * -1000000) →
      sendsCanonicalFrame (comm_can_set_pos controller_id x) controller_id.val
        CAN_PACKET_SET_POS [PayloadField.int32 (spec_trunc (x * -1000000))])
    ∧ (spec_fits 32 (to_float (x * 100000)) →
      sendsCanonicalFrame (comm_can_set_current_rel controller_id x) controller_id.val
        CAN_PACKET_SET_CURRENT_REL [PayloadField.int32 (spec_trunc (to_float (x * 100000)))])
    ∧ (spec_fits 32 (x * 1000) → spec_fits 16 (to_float (off_delay * 1000)) →
      sendsCanonicalFrame (comm_can_set_current_off_delay controller_id x off_delay)
        controller_id.val CAN_PACKET_SET_CURRENT
        [PayloadField.int32 (spec_trunc (x * 1000)),
         PayloadField.int16 (spec_trunc (to_float (off_delay * 1000)))])
    ∧ (spec_fits 32 (to_float (x * 100000)) → spec_fits 16 (to_float (off_delay * 1000)) →
      sendsCanonicalFrame (comm_can_set_current_rel_off_delay controller_id x off_delay)
        controller_id.val CAN_PACKET_SET_CURRENT_REL
        [PayloadField.int32 (spec_trunc (to_float (x * 100000))),
         PayloadField.int16 (spec_trunc (to_float (off_delay * 1000)))])
    ∧ (spec_fits 32 (to_float (x * 100000)) →
      sendsCanonicalFrame (comm_can_set_current_brake_rel controller_id x) controller_id.val
        CAN_PACKET_SET_CURRENT_BRAKE_REL
        [PayloadField.int32 (spec_trunc (to_float (x * 100000)))])
    ∧ (spec_fits 32 (to_float (x * 1000)) →
      sendsCanonicalFrame (comm_can_set_handbrake controller_id x) controller_id.val
        CAN_PACKET_SET_CURRENT_HANDBRAKE
        [PayloadField.int32 (spec_trunc (to_float (x * 1000)))])
    ∧ (spec_fits 32 (to_float (x * 100000)) →
      sendsCanonicalFrame (comm_can_set_handbrake_rel controller_id x) controller_id.val
        CAN_PACKET_SET_CURRENT_HANDBRAKE_REL
        [PayloadField.int32 (spec_trunc (to_float (x * 100000)))])
    ∧ (spec_fits 32 (spec_speed_to_erpm x) →
      sendsCanonicalFrame (comm_can_set_speed x) THROTTLE_CAN_ID CAN_PACKET_SET_RPM
        [PayloadField.int32 (spec_trunc (spec_speed_to_erpm x))])
    ∧ (spec_fits 32 (spec_rad_to_deg x * -1000000) →
      sendsCanonicalFrame (comm_can_set_angle x) STEER_CAN_ID CAN_PACKET_SET_POS
        [PayloadField.int32 (spec_trunc (spec_rad_to_deg x * -1000000))])
    ∧ spec_trunc (spec_rad_to_deg 0 * -1000000) = -17188734
    ∧ (∀ w : State, w.brake_buffer.length = 8 →
        ∃ msg, framesOf (comm_can_set_brake_position x w).can2.log
            = framesOf w.can2.log ++ [msg]
          ∧ msg.id = BRAKE_CAN_ID ∧ msg.len = 8 ∧ msg.data.length = 8
          ∧ msg.data[2]? = some (comm_can_set_brake_position_pos x % 256)
          ∧ msg.data[3]? = some (192 + comm_can_set_brake_position_pos x / 256 % 32)
          ∧ ¬ ∃ c t fields, isCanonicalFrame c t fields msg) := by
  have e5 : (1e5 : ℚ) = 100000 := by norm_num
  have e3 : (1e3 : ℚ) = 1000 := by norm_num
  have k5 : (100000.0 : ℚ) = 100000 := by norm_num
  have k3 : (1000.0 : ℚ) = 1000 := by norm_num
  have kp : ∀ y : ℚ, (-1.0 : ℚ) * y * 1000000.0 = y * -1000000 := by
    intro y
    norm_num
  have hthr : ((Fin.ofNat THROTTLE_CAN_ID : Byte)).val = THROTTLE_CAN_ID := by decide
  have hste : ((Fin.ofNat STEER_CAN_ID : Byte)).val = STEER_CAN_ID := by decide
  refine ⟨fun _ => sendsCanonicalFrame_of_eq _ _ _ ?_ _ 4 rfl (by norm_num) (by norm_num)
      fun w => ?_,
    fun _ => sendsCanonicalFrame_of_eq _ _ _ ?_ _ 4 rfl (by norm_num) (by norm_num)
      fun w => ?_,
    fun _ => sendsCanonicalFrame_of_eq _ _ _ ?_ _ 4 rfl (by norm_num) (by norm_num)
      fun w => ?_,
    fun _ => sendsCanonicalFrame_of_eq _ _ _ ?_ _ 4 rfl (by norm_num) (by norm_num)
      fun w => ?_,
    fun _ => sendsCanonicalFrame_of_eq _ _ _ ?_ _ 4 rfl (by norm_num) (by norm_num)
      fun w => ?_,
    fun _ => sendsCanonicalFrame_of_eq _ _ _ ?_ _ 4 rfl (by norm_num) (by norm_num)
      fun w => ?_,
    fun _ _ => sendsCanonicalFrame_of_eq _ _ _ ?_ _ 6 rfl (by norm_num) (by norm_num)
      fun w => ?_,
    fun _ _ => sendsCanonicalFrame_of_eq _ _ _ ?_ _ 6 rfl (by norm_num) (by norm_num)
      fun w => ?_,
    fun _ => sendsCanonicalFrame_of_eq _ _ _ ?_ _ 4 rfl (by norm_num) (by norm_num)
      fun w => ?_,
    fun _ => sendsCanonicalFrame_of_eq _ _ _ ?_ _ 4 rfl (by norm_num) (by norm_num)
      fun w => ?_,
    fun _ => sendsCanonicalFrame_of_eq _ _ _ ?_ _ 4 rfl (by norm_num) (by norm_num)
      fun w => ?_,
    fun _ => ?_, fun _ => ?_, spec_rad_to_deg_zero.2, fun w hw => ?_⟩
  any_goals (simp [CAN_PACKET_IDs]; done)
  · rw [comm_can_set_duty_eq, k5, float_to_int_eq_spec_trunc]
    rfl
  · rw [comm_can_set_current_eq, k3, float_to_int_eq_spec_trunc]
    rfl
  · rw [comm_can_set_current_brake_eq, k3, float_to_int_eq_spec_trunc]
    rfl
  · rw [comm_can_set_rpm_eq, float_to_int_eq_spec_trunc]
    rfl
  · rw [comm_can_set_pos_eq, kp, float_to_int_eq_spec_trunc]
    rfl
  · rw [comm_can_set_current_rel_eq, e5, float_to_int_eq_spec_trunc]
    rfl
  · rw [comm_can_set_current_off_delay_eq, k3, e3, float_to_int_eq_spec_trunc,
      float_to_int_eq_spec_trunc]
    rfl
  · rw [comm_can_set_current_rel_off_delay_eq, e5, e3, float_to_int_eq_spec_trunc,
      float_to_int_eq_spec_trunc]
    rfl
  · rw [comm_can_set_current_brake_rel_eq, e5, float_to_int_eq_spec_trunc]
    rfl
  · rw [comm_can_set_handbrake_eq, e3, float_to_int_eq_spec_trunc]
    rfl
  · rw [comm_can_set_handbrake_rel_eq, e5, float_to_int_eq_spec_trunc]
    rfl
  · rw [← hthr]
    refine sendsCanonicalFrame_of_eq _ _ _ (by simp [CAN_PACKET_IDs]) _ 4 rfl (by norm_num)
      (by norm_num) fun w => ?_
    rw [comm_can_set_speed_eq]
    rfl
  · rw [← hste]
    refine sendsCanonicalFrame_of_eq _ _ _ (by simp [CAN_PACKET_IDs]) _ 4 rfl (by norm_num)
      (by norm_num) fun w => ?_
    rw [comm_can_set_angle_eq, comm_can_set_pos_eq, kp, float_to_int_eq_spec_trunc]
    rfl
  · obtain ⟨b2, b3⟩ := brake_position_bytes (comm_can_set_brake_position_pos x)
    have hfr : framesOf (comm_can_set_brake_position x w).can2.log
        = framesOf w.can2.log ++ [CANMessage.new BRAKE_CAN_ID
            ((w.brake_buffer.set 2 ((comm_can_set_brake_position_pos x &&& 0xFF) % 256)).set 3
              ((0xC0 ||| ((comm_can_set_brake_position_pos x >>> 8) &&& 0x1F)) % 256))
            8 CANType.CANData CANFormat.CANExtended] := by
      rw [comm_can_set_brake_position, framesOf_can_transmit_eid]
    generalize hbuf : (w.brake_buffer.set 2
        ((comm_can_set_brake_position_pos x &&& 0xFF) % 256)).set 3
        ((0xC0 ||| ((comm_can_set_brake_position_pos x >>> 8) &&& 0x1F)) % 256) = buf at hfr
    have hlen : buf.length = 8 := by
      rw [← hbuf]
      simp [hw]
    have h2 : buf[2]? = some (comm_can_set_brake_position_pos x % 256) := by
      rw [← hbuf, List.getElem?_set_ne (by omega), List.getElem?_set_self (by rw [hw]; omega),
        b2]
    have h3 : buf[3]? = some (192 + comm_can_set_brake_position_pos x / 256 % 32) := by
      rw [← hbuf, List.getElem?_set_self (by simp [hw]), b3]
    have htake : buf.take (min 8 8) = buf := List.take_of_length_le (by rw [hlen]; norm_num)
    refine ⟨_, hfr, ?_, ?_, ?_, ?_, ?_, ?_⟩
    · simp [CANMessage.new, BRAKE_CAN_ID]
    · simp [CANMessage.new]
    · simp only [CANMessage.new, htake, hlen]
    · simp only [CANMessage.new, htake, h2]
    · simp only [CANMessage.new, htake, h3]
    · rintro ⟨c, t, fields, h⟩
      have h6 := h.2.2.2.2.1
      simp [CANMessage.new] at h6

/-- Claim C12 (amended) applied to the duty cycle `1/2` at the controller `0`, whose value
`50000` fits 32 bits, and to the brake fraction `1/2` in the initial state, whose
function-static buffer has 8 cells. -/
theorem vesc_frames_canonical_witness :
    (spec_fits 32 ((1 / 2 : ℚ) * 100000)
      ∧ sendsCanonicalFrame (comm_can_set_duty 0 (1 / 2)) (0 : Byte).val CAN_PACKET_SET_DUTY
          [PayloadField.int32 (spec_trunc ((1 / 2 : ℚ) * 100000))])
    ∧ initialState.brake_buffer.length = 8
    ∧ ∃ msg, framesOf (comm_can_set_brake_position (1 / 2) initialState).can2.log
          = framesOf initialState.can2.log ++ [msg]
        ∧ msg.id = BRAKE_CAN_ID ∧ msg.len = 8 ∧ msg.data.length = 8
        ∧ msg.data[2]? = some (comm_can_set_brake_position_pos (1 / 2) % 256)
        ∧ msg.data[3]? = some (192 + comm_can_set_brake_position_pos (1 / 2) / 256 % 32)
        ∧ ¬ ∃ c t fields, isCanonicalFrame c t fields msg := by
  have hv : spec_trunc ((1 / 2 : ℚ) * 100000) = 50000 := by
    have e : ((1 / 2 : ℚ) * 100000) = ((50000 : Int) : ℚ) := by norm_num
    rw [e, spec_trunc_intCast]
  have hf : spec_fits 32 ((1 / 2 : ℚ) * 100000) := by
    unfold spec_fits
    rw [hv]
    norm_num
  exact ⟨⟨hf, (vesc_frames_canonical 0 (1 / 2) 0).1 hf⟩, by decide,
    (vesc_frames_canonical 0 (1 / 2) 0).2.2.2.2.2.2.2.2.2.2.2.2.2.2 initialState
      (by decide)⟩

end tritonai.gkc

/-! ## Theorems: `FeedLine` -/

namespace FUTABA_SBUS

/-- One more iteration than there are readable bytes does not change the result of the
loop. -/
theorem FeedLine_loop_succ (n : Nat) :
    ∀ s : FUTABA_SBUS, s.sbusSerial.length ≤ n → FeedLine_loop (n + 1) s = FeedLine_loop n s := by
  induction n with
  | zero =>
    intro s h
    have : s.sbusSerial = [] := List.length_eq_zero.mp (Nat.le_zero.mp h)
    simp [FeedLine_loop, this]
  | succ n ih =>
    intro s h
    rw [FeedLine_loop, FeedLine_loop]
    cases hs : s.sbusSerial with
    | nil => rfl
    | cons byte rest =>
      have hr : rest.length ≤ n := by
        rw [hs] at h
        simpa using h
      simp only []
      split_ifs
      · rfl
      · exact ih _ (by simp; omega)
      · exact ih _ hr

/-- The bound on the number of iterations in `FeedLine` is never reached before the loop
ends: any larger bound gives the same result. -/
theorem FeedLine_loop_fuel_stable (s : FUTABA_SBUS) (k : Nat) :
    FeedLine_loop (s.sbusSerial.length + k) s = FeedLine s := by
  induction k with
  | zero => rfl
  | succ k ih =>
    rw [← ih, ← Nat.add_assoc]
    exact FeedLine_loop_succ _ s (Nat.le_add_right _ _)

/-- Bytes that are not the start byte are read and dropped. -/
theorem FeedLine_loop_skip (pre : List Byte) (hpre : ∀ b ∈ pre, b.val ≠ SBUS_START_BYTE) :
    ∀ (fuel : Nat) (s : FUTABA_SBUS) (tail : List Byte), s.sbusSerial = pre ++ tail →
      FeedLine_loop (pre.length + fuel) s = FeedLine_loop fuel { s with sbusSerial := tail } := by
  induction pre with
  | nil =>
    intro fuel s tail hs
    simp only [List.nil_append] at hs
    simp only [List.length_nil, Nat.zero_add]
    rw [← hs]
  | cons b pre ih =>
    intro fuel s tail hs
    have hb : b.val ≠ SBUS_START_BYTE := hpre b (List.mem_cons_self _ _)
    have e : (b :: pre).length + fuel = (pre.length + fuel) + 1 := by
      simp only [List.length_cons]
      omega
    rw [e, FeedLine_loop]
    simp only [hs, List.cons_append, if_neg hb]
    exact ih (fun x hx => hpre x (List.mem_cons_of_mem _ hx)) fuel _ tail rfl

/-- With nothing to read the loop leaves at once. -/
theorem FeedLine_loop_nil (fuel : Nat) (s : FUTABA_SBUS) (h : s.sbusSerial = []) :
    FeedLine_loop fuel s = s := by
  cases fuel with
  | zero => rfl
  | succ n => simp [FeedLine_loop, h]

/-- A stream without start byte is consumed, and nothing else changes. -/
theorem FeedLine_no_start (s : FUTABA_SBUS)
    (h : ∀ b ∈ s.sbusSerial, b.val ≠ SBUS_START_BYTE) :
    FeedLine s = { s with sbusSerial := [] } := by
  have := FeedLine_loop_skip s.sbusSerial h 0 s [] (by simp)
  simp only [Nat.add_zero] at this
  rw [FeedLine, this]
  rfl

/-- A start byte followed by at least 24 readable bytes: the frame is stored, the flag is
raised and the loop returns. -/
theorem FeedLine_full_frame (s : FUTABA_SBUS) (pre rest : List Byte) (start : Byte)
    (hs : s.sbusSerial = pre ++ start :: rest)
    (hpre : ∀ b ∈ pre, b.val ≠ SBUS_START_BYTE) (hstart : start.val = SBUS_START_BYTE)
    (hrest : 24 ≤ rest.length) :
    FeedLine s =
      { s with
        frameBuffer := storeFrame s.frameBuffer start (rest.take 24)
        sbusSerial := rest.drop 24
        toChannels := 1 } := by
  have hl : s.sbusSerial.length = pre.length + (rest.length + 1) := by
    rw [hs]
    simp
  rw [FeedLine, hl, FeedLine_loop_skip pre hpre _ s _ hs, FeedLine_loop]
  have hfull : (List.take (SBUS_FRAME_SIZE - 1) rest).length = SBUS_FRAME_SIZE - 1 := by
    simp only [SBUS_FRAME_SIZE, List.length_take]
    omega
  simp only [if_pos hstart, if_pos hfull]
  rfl

/-- A start byte followed by fewer than 24 readable bytes, which are the last ones: the
bytes are stored in the frame buffer, the flag keeps its value. -/
theorem FeedLine_short_read (s : FUTABA_SBUS) (pre rest : List Byte) (start : Byte)
    (hs : s.sbusSerial = pre ++ start :: rest)
    (hpre : ∀ b ∈ pre, b.val ≠ SBUS_START_BYTE) (hstart : start.val = SBUS_START_BYTE)
    (hrest : rest.length < 24) :
    FeedLine s =
      { s with
        frameBuffer := storeFrame s.frameBuffer start rest
        sbusSerial := [] } := by
  have hl : s.sbusSerial.length = pre.length + (rest.length + 1) := by
    rw [hs]
    simp
  rw [FeedLine, hl, FeedLine_loop_skip pre hpre _ s _ hs, FeedLine_loop]
  have hshort : ¬ rest.length = SBUS_FRAME_SIZE - 1 := by
    simp only [SBUS_FRAME_SIZE]
    omega
  have htake : List.take (SBUS_FRAME_SIZE - 1) rest = rest :=
    List.take_of_length_le (by simp only [SBUS_FRAME_SIZE]; omega)
  have hdrop : List.drop (SBUS_FRAME_SIZE - 1) rest = [] :=
    List.drop_of_length_le (by simp only [SBUS_FRAME_SIZE]; omega)
  simp only [if_pos hstart, htake, hdrop, if_neg hshort]
  exact FeedLine_loop_nil _ _ rfl

/-- Claim C16.  For every decoder state with no frame pending and every input byte stream
that contains no start marker `0x0F`, `FeedLine` does not signal frame-ready, and
`FeedLine` followed by `UpdateChannels` leaves all 16 channel values exactly as they
were. -/
theorem FeedLine_without_start_marker (s : FUTABA_SBUS) (hpending : s.toChannels = 0)
    (hstream : ∀ b ∈ s.sbusSerial, b.val ≠ 0x0F) :
    (FeedLine s).toChannels = 0
    ∧ ∀ k : Fin 16, (UpdateChannels (FeedLine s)).channels k = s.channels k := by
  rw [FeedLine_no_start s hstream]
  refine ⟨hpending, fun k => ?_⟩
  simp only [UpdateChannels, hpending, if_true]

/-- No readable byte of the idle state is the start marker. -/
theorem idleState_no_start : ∀ b ∈ idleState.sbusSerial, b.val ≠ 0x0F := by
  intro b hb
  simp only [idleState, List.mem_cons, List.mem_singleton, List.not_mem_nil, or_false] at hb
  rcases hb with rfl | rfl | rfl <;> decide

/-- Claim C16 applied to the idle state, at channel 5. -/
theorem FeedLine_without_start_marker_witness :
    idleState.toChannels = 0 ∧ (∀ b ∈ idleState.sbusSerial, b.val ≠ 0x0F)
    ∧ (FeedLine idleState).toChannels = 0
    ∧ (UpdateChannels (FeedLine idleState)).channels 5 = idleState.channels 5 :=
  ⟨rfl, idleState_no_start,
   (FeedLine_without_start_marker idleState rfl idleState_no_start).1,
   (FeedLine_without_start_marker idleState rfl idleState_no_start).2 5⟩

/-- The frame buffer after a complete read holds the start byte and the 24 bytes that
followed it. -/
theorem storeFrame_full (frameBuffer : Fin 25 → Byte) (start : Byte) (rest : List Byte)
    (hrest : 24 ≤ rest.length) (i : Fin 25) :
    storeFrame frameBuffer start (rest.take 24) i = (start :: rest).getD i.val 0 := by
  unfold storeFrame
  have hi := i.isLt
  by_cases h0 : i.val = 0
  · rw [if_pos h0, h0]
    rfl
  · have hlen : (rest.take 24).length = 24 := by
      rw [List.length_take]
      omega
    have hle : i.val ≤ (rest.take 24).length := by omega
    rw [if_neg h0, if_pos hle]
    obtain ⟨j, hj⟩ : ∃ j, i.val = j + 1 := ⟨i.val - 1, by omega⟩
    have hj1 : j < rest.length := by omega
    have hj2 : j < (rest.take 24).length := by omega
    rw [hj, Nat.add_sub_cancel, List.getD_cons_succ]
    simp only [List.getD_eq_getElem?_getD]
    rw [List.getElem?_take_of_lt (by omega)]
    rw [List.getElem?_eq_getElem hj1]
    rfl

/-- Claim C18.  For every input byte stream (all bytes available to read) that contains a
start marker `0x0F` followed by at least 24 more bytes, `FeedLine` discards the bytes before
the first `0x0F`, stores exactly the 25 bytes beginning at that first `0x0F` in the frame
buffer, sets the frame-ready flag to 1 and returns, leaving every later byte of the stream
unread. -/
theorem FeedLine_stores_first_frame (s : FUTABA_SBUS) (pre rest : List Byte) (start : Byte)
    (hs : s.sbusSerial = pre ++ start :: rest)
    (hpre : ∀ b ∈ pre, b.val ≠ 0x0F) (hstart : start.val = 0x0F)
    (hrest : 24 ≤ rest.length) :
    (∀ i : Fin 25, (FeedLine s).frameBuffer i = (start :: rest).getD i.val 0)
    ∧ (FeedLine s).toChannels = 1
    ∧ (FeedLine s).sbusSerial = rest.drop 24
    ∧ (FeedLine s).channels = s.channels := by
  rw [FeedLine_full_frame s pre rest start hs hpre hstart hrest]
  exact ⟨fun i => storeFrame_full s.frameBuffer start rest hrest i, rfl, rfl, rfl⟩

/-- The two stray bytes of the framed state are not start markers. -/
theorem framedState_pre : ∀ b ∈ ([1, 2] : List Byte), b.val ≠ 0x0F := by
  intro b hb
  simp only [List.mem_cons, List.mem_singleton, List.not_mem_nil, or_false] at hb
  rcases hb with rfl | rfl <;> decide

/-- Claim C18 applied to the framed state: the frame is the start marker followed by
`0, .., 23`, and the bytes `24, 25` stay unread. -/
theorem FeedLine_stores_first_frame_witness :
    (framedState.sbusSerial = [1, 2] ++ 0x0F :: (List.range 26).map (fun n => Fin.ofNat n)
      ∧ (∀ b ∈ ([1, 2] : List Byte), b.val ≠ 0x0F) ∧ (0x0F : Byte).val = 0x0F
      ∧ 24 ≤ ((List.range 26).map (fun n => (Fin.ofNat n : Byte))).length)
    ∧ (FeedLine framedState).toChannels = 1
    ∧ (FeedLine framedState).sbusSerial
        = ((List.range 26).map (fun n => (Fin.ofNat n : Byte))).drop 24 :=
  ⟨⟨rfl, framedState_pre, rfl, by simp⟩,
   (FeedLine_stores_first_frame framedState [1, 2] _ 0x0F rfl framedState_pre rfl
      (by simp)).2.1,
   (FeedLine_stores_first_frame framedState [1, 2] _ 0x0F rfl framedState_pre rfl
      (by simp)).2.2.1⟩

/-- With no frame pending, a short read changes neither the flag nor the channels. -/
theorem FeedLine_short_read_no_pending (s : FUTABA_SBUS) (pre rest : List Byte)
    (start : Byte) (hpending : s.toChannels = 0)
    (hs : s.sbusSerial = pre ++ start :: rest)
    (hpre : ∀ b ∈ pre, b.val ≠ SBUS_START_BYTE) (hstart : start.val = SBUS_START_BYTE)
    (hrest : rest.length < 24) :
    (FeedLine s).toChannels = 0
    ∧ (UpdateChannels (FeedLine s)).channels = (UpdateChannels s).channels := by
  rw [FeedLine_short_read s pre rest start hs hpre hstart hrest]
  refine ⟨hpending, ?_⟩
  simp only [UpdateChannels, hpending, if_true]

/-- Claim C17 (evaluation at the failing input).  In the pending state a complete frame
waits to be decoded (`toChannels = 1`) and the input is a start marker followed by two
bytes.  `FeedLine` stores the three bytes over the start of the pending frame and leaves the
flag raised, so `UpdateChannels` decodes a mixture: channel 0 becomes `1027`, whereas
`UpdateChannels` alone gives `1328`. -/
theorem FeedLine_short_read_overwrites_pending_frame :
    pendingState.toChannels = 1
    ∧ (UpdateChannels (FeedLine pendingState)).channels 0 = 1027
    ∧ (UpdateChannels pendingState).channels 0 = 1328
    ∧ (UpdateChannels (FeedLine pendingState)).channels
        ≠ (UpdateChannels pendingState).channels := by
  have h1 : (UpdateChannels (FeedLine pendingState)).channels 0 = 1027 := by decide
  have h2 : (UpdateChannels pendingState).channels 0 = 1328 := by decide
  refine ⟨rfl, h1, h2, fun h => ?_⟩
  have := congrFun h 0
  rw [h1, h2] at this
  exact absurd this (by decide)

end FUTABA_SBUS

/-! ## Theorems: `Translation` -/

namespace Translation

/-- The value of `normalize` in terms of the clamped raw value. -/
theorem normalize_eq (v : Int) :
    normalize v =
      if max 174 (min v 1800) ≥ 992 then ((max 174 (min v 1800) - 992 : Int) : ℚ) / 808
      else ((max 174 (min v 1800) - 992 : Int) : ℚ) / 818 := by
  have hc : (if (if v > 1800 then 1800 else v) < 174 then 174
      else (if v > 1800 then 1800 else v)) = max 174 (min v 1800) := by
    split_ifs <;> omega
  simp only [normalize, hc]
  have h : max 174 (min v 1800) - 992 ≥ 0 ↔ max 174 (min v 1800) ≥ 992 := by omega
  simp only [h]
  norm_num

/-- Claim C19.  For every integer raw value `v`, `normalize v` lies in `[-1, 1]`: with
`c = v` clamped to `[174, 1800]`, the result is `(c - 992) / 808` when `c ≥ 992` and
`(c - 992) / 818` otherwise, so `normalize 992 = 0`, `normalize v = 1` for every
`v ≥ 1800` and `normalize v = -1` for every `v ≤ 174`. -/
theorem normalize_range (v : Int) :
    normalize v =
        (if max 174 (min v 1800) ≥ 992 then ((max 174 (min v 1800) - 992 : Int) : ℚ) / 808
         else ((max 174 (min v 1800) - 992 : Int) : ℚ) / 818)
    ∧ -1 ≤ normalize v ∧ normalize v ≤ 1
    ∧ normalize 992 = 0
    ∧ (v ≥ 1800 → normalize v = 1)
    ∧ (v ≤ 174 → normalize v = -1) := by
  have hc1 : 174 ≤ max 174 (min v 1800) := le_max_left _ _
  have hc2 : max 174 (min v 1800) ≤ 1800 := max_le (by norm_num) (min_le_right _ _)
  refine ⟨normalize_eq v, ?_, ?_, ?_, fun h => ?_, fun h => ?_⟩
  · rw [normalize_eq]
    split_ifs with hge
    · have : (0 : ℚ) ≤ ((max 174 (min v 1800) - 992 : Int) : ℚ) := by
        exact_mod_cast (by omega : (0 : Int) ≤ max 174 (min v 1800) - 992)
      have := div_nonneg this (by norm_num : (0 : ℚ) ≤ 808)
      linarith
    · rw [le_div_iff₀ (by norm_num)]
      have : ((-818 : Int) : ℚ) ≤ ((max 174 (min v 1800) - 992 : Int) : ℚ) := by
        exact_mod_cast (by omega : (-818 : Int) ≤ max 174 (min v 1800) - 992)
      push_cast at this ⊢
      linarith
  · rw [normalize_eq]
    split_ifs with hge
    · rw [div_le_iff₀ (by norm_num)]
      have : ((max 174 (min v 1800) - 992 : Int) : ℚ) ≤ ((808 : Int) : ℚ) := by
        exact_mod_cast (by omega : max 174 (min v 1800) - 992 ≤ (808 : Int))
      push_cast at this ⊢
      linarith
    · have : ((max 174 (min v 1800) - 992 : Int) : ℚ) ≤ 0 := by
        exact_mod_cast (by omega : max 174 (min v 1800) - 992 ≤ (0 : Int))
      have := div_nonpos_of_nonpos_of_nonneg this (by norm_num : (0 : ℚ) ≤ 818)
      linarith
  · rw [normalize_eq]
    norm_num
  · have : max 174 (min v 1800) = 1800 := by omega
    rw [normalize_eq, this]
    norm_num
  · have : max 174 (min v 1800) = 174 := by omega
    rw [normalize_eq, this]
    norm_num

/-- Claim C19 applied at the raw values `2000` and `100`. -/
theorem normalize_range_witness :
    ((2000 : Int) ≥ 1800 ∧ normalize 2000 = 1) ∧ ((100 : Int) ≤ 174 ∧ normalize 100 = -1) :=
  ⟨⟨by decide, (normalize_range 2000).2.2.2.2.1 (by decide)⟩,
   ⟨by decide, (normalize_range 100).2.2.2.2.2 (by decide)⟩⟩

/-- The threshold `-0.5` on the normalized value is the threshold `582` on the raw value. -/
theorem normalize_lt_iff (v : Int) : normalize v < -0.5 ↔ v ≤ 582 := by
  rw [normalize_eq]
  split_ifs with hge
  · have h0 : (0 : ℚ) ≤ ((max 174 (min v 1800) - 992 : Int) : ℚ) := by
      exact_mod_cast (by omega : (0 : Int) ≤ max 174 (min v 1800) - 992)
    have := div_nonneg h0 (by norm_num : (0 : ℚ) ≤ 808)
    constructor
    · intro h
      have hneg : (-0.5 : ℚ) < 0 := by norm_num
      exact absurd (lt_of_le_of_lt this (lt_trans h hneg)) (lt_irrefl _)
    · intro h
      omega
  · rw [div_lt_iff₀ (by norm_num)]
    constructor
    · intro h
      have h2 : ((max 174 (min v 1800) - 992 : Int) : ℚ) < ((-409 : Int) : ℚ) := by
        norm_num at h ⊢
        linarith
      have h3 : max 174 (min v 1800) - 992 < (-409 : Int) := by exact_mod_cast h2
      omega
    · intro h
      have h3 : max 174 (min v 1800) - 992 < (-409 : Int) := by omega
      have h2 : ((max 174 (min v 1800) - 992 : Int) : ℚ) < ((-409 : Int) : ℚ) := by
        exact_mod_cast h3
      norm_num at h2 ⊢
      linarith

/-- The threshold `0.4` on the normalized value is the threshold `1316` on the raw value. -/
theorem normalize_gt_iff (v : Int) : normalize v > 0.4 ↔ v ≥ 1316 := by
  rw [normalize_eq]
  split_ifs with hge
  · rw [gt_iff_lt, lt_div_iff₀ (by norm_num)]
    constructor
    · intro h
      have h2 : ((323 : Int) : ℚ) < ((max 174 (min v 1800) - 992 : Int) : ℚ) := by
        norm_num at h ⊢
        linarith
      have h3 : (323 : Int) < max 174 (min v 1800) - 992 := by exact_mod_cast h2
      omega
    · intro h
      have h3 : (324 : Int) ≤ max 174 (min v 1800) - 992 := by omega
      have h2 : ((324 : Int) : ℚ) ≤ ((max 174 (min v 1800) - 992 : Int) : ℚ) := by
        exact_mod_cast h3
      norm_num at h2 ⊢
      linarith
  · have h0 : ((max 174 (min v 1800) - 992 : Int) : ℚ) ≤ 0 := by
      exact_mod_cast (by omega : max 174 (min v 1800) - 992 ≤ (0 : Int))
    have := div_nonpos_of_nonpos_of_nonneg h0 (by norm_num : (0 : ℚ) ≤ 818)
    constructor
    · intro h
      have hpos : (0 : ℚ) < 0.4 := by norm_num
      exact absurd (lt_of_lt_of_le (lt_trans hpos h) this) (lt_irrefl _)
    · intro h
      omega

/-- The classification in terms of the raw value. -/
theorem getTriSwitchMode_eq (v : Int) :
    getTriSwitchMode v =
      if v ≤ 582 then TriSwitchMode.DOWN
      else if v ≥ 1316 then TriSwitchMode.UP
      else TriSwitchMode.MID := by
  simp only [getTriSwitchMode, normalize_lt_iff, normalize_gt_iff]

/-- Claim C20.  For every integer raw value `v`, `getTriSwitchMode v` classifies into
exactly one of `DOWN`, `MID`, `UP` by fixed thresholds on the normalized value: `DOWN` iff
`normalize v < -0.5` (equivalently `v ≤ 582`), `UP` iff `normalize v > 0.4` (equivalently
`v ≥ 1316`), `MID` otherwise (`583 ≤ v ≤ 1315`); in particular `174` gives `DOWN`, `992`
gives `MID`, `1800` gives `UP`, and the classification is non-decreasing in `v`. -/
theorem getTriSwitchMode_thresholds (v : Int) :
    (getTriSwitchMode v = TriSwitchMode.DOWN ↔ normalize v < -0.5)
    ∧ (normalize v < -0.5 ↔ v ≤ 582)
    ∧ (getTriSwitchMode v = TriSwitchMode.UP ↔ normalize v > 0.4)
    ∧ (normalize v > 0.4 ↔ v ≥ 1316)
    ∧ (getTriSwitchMode v = TriSwitchMode.MID ↔ 583 ≤ v ∧ v ≤ 1315)
    ∧ getTriSwitchMode 174 = TriSwitchMode.DOWN
    ∧ getTriSwitchMode 992 = TriSwitchMode.MID
    ∧ getTriSwitchMode 1800 = TriSwitchMode.UP
    ∧ (∀ v2 : Int, v ≤ v2 → (getTriSwitchMode v).toNat ≤ (getTriSwitchMode v2).toNat) := by
  refine ⟨?_, normalize_lt_iff v, ?_, normalize_gt_iff v, ?_, ?_, ?_, ?_, fun v2 h => ?_⟩
  · rw [normalize_lt_iff, getTriSwitchMode_eq]
    split_ifs <;> simp <;> omega
  · rw [normalize_gt_iff, getTriSwitchMode_eq]
    split_ifs <;> simp <;> omega
  · rw [getTriSwitchMode_eq]
    split_ifs <;> simp <;> omega
  · rw [getTriSwitchMode_eq]
    decide
  · rw [getTriSwitchMode_eq]
    decide
  · rw [getTriSwitchMode_eq]
    decide
  · rw [getTriSwitchMode_eq, getTriSwitchMode_eq]
    split_ifs <;> simp [TriSwitchMode.toNat] <;> omega

/-- Claim C20 applied at the raw values `583 ≤ 1316`. -/
theorem getTriSwitchMode_thresholds_witness :
    (583 : Int) ≤ 1316
    ∧ (getTriSwitchMode 583).toNat ≤ (getTriSwitchMode 1316).toNat :=
  ⟨by decide, (getTriSwitchMode_thresholds 583).2.2.2.2.2.2.2.2 1316 (by decide)⟩

end Translation

/-! ## Theorems: bus write failures, bus assignment and the brake frame -/

namespace tritonai.gkc

/-- Claim C21.  On a bus write failure `can_transmit_eid` does not block or retry: every call
makes exactly one write attempt; if the write is rejected it performs exactly one bus reset
followed by re-setting the bit rate to `CAN2_BAUDRATE` (500000) and returns with the frame
dropped; if the write succeeds no reset is performed. -/
theorem can_transmit_eid_single_attempt (id : Nat) (data : List Nat) (len : Nat) (w : State) :
    CAN2_BAUDRATE = 500000
    ∧ framesOf (can_transmit_eid id data len w).can2.log
        = framesOf w.can2.log
            ++ [CANMessage.new id data len CANType.CANData CANFormat.CANExtended]
    ∧ (w.can2.accepts w.can2.log
          (CANMessage.new id data len CANType.CANData CANFormat.CANExtended) = false →
        (can_transmit_eid id data len w).can2.log
          = w.can2.log ++
              [CANEvent.write
                 (CANMessage.new id data len CANType.CANData CANFormat.CANExtended) false,
               CANEvent.reset, CANEvent.frequency 500000])
    ∧ (w.can2.accepts w.can2.log
          (CANMessage.new id data len CANType.CANData CANFormat.CANExtended) = true →
        (can_transmit_eid id data len w).can2.log
          = w.can2.log ++
              [CANEvent.write
                 (CANMessage.new id data len CANType.CANData CANFormat.CANExtended) true])
    ∧ (can_transmit_eid id data len w).can1 = w.can1
    ∧ (can_transmit_eid id data len w).can2.accepts = w.can2.accepts := by
  refine ⟨rfl, framesOf_can_transmit_eid id data len w, fun h => ?_, fun h => ?_,
    can_transmit_eid_can1 id data len w, ?_⟩
  · rw [can_transmit_eid_log, h]
    simp [CAN2_BAUDRATE]
  · rw [can_transmit_eid_log, h]
    simp
  · simp only [can_transmit_eid, CAN.write, CAN.reset, CAN.frequency]
    split_ifs <;> rfl

/-- Claim C21 applied to the zero-RPM frame in the state whose second bus rejects every
write. -/
theorem can_transmit_eid_single_attempt_witness :
    rejectingState.can2.accepts rejectingState.can2.log
        (CANMessage.new 0x301 [0, 0, 0, 0] 4 CANType.CANData CANFormat.CANExtended) = false
    ∧ (can_transmit_eid 0x301 [0, 0, 0, 0] 4 rejectingState).can2.log
        = rejectingState.can2.log ++
            [CANEvent.write
               (CANMessage.new 0x301 [0, 0, 0, 0] 4 CANType.CANData CANFormat.CANExtended)
               false,
             CANEvent.reset, CANEvent.frequency 500000] :=
  ⟨rfl, (can_transmit_eid_single_attempt 0x301 [0, 0, 0, 0] 4 rejectingState).2.2.1 rfl⟩

/-- The function-static buffer is not touched by `can_transmit_eid`. -/
theorem can_transmit_eid_brake_buffer (id : Nat) (data : List Nat) (len : Nat) (w : State) :
    (can_transmit_eid id data len w).brake_buffer = w.brake_buffer := by
  simp only [can_transmit_eid]
  split_ifs <;> rfl

/-- The fourth byte of the brake frame, in arithmetic form. -/
theorem brake_byte3 (pos : Nat) : 0xC0 ||| ((pos >>> 8) &&& 0x1F) = 192 + pos / 256 % 32 := by
  have h31 : ∀ x : Nat, x &&& 31 = x % 32 := fun x => Nat.and_pow_two_sub_one_eq_mod x 5
  have hor : ∀ y : Nat, y < 32 → 192 ||| y = 192 + y := by
    intro y hy
    have := Nat.mul_add_lt_is_or (show y < 2 ^ 5 by norm_num; exact hy) 6
    norm_num at this
    exact this.symm
  rw [h31, Nat.shiftRight_eq_div_pow, hor _ (Nat.mod_lt _ (by norm_num))]

/-- The frame that `comm_can_set_brake_position` hands to `can_transmit_eid` when the
function-static buffer has its shape. -/
theorem comm_can_set_brake_position_eq (b : ℚ) (w : State) (hw : brakeBufferShape w) :
    comm_can_set_brake_position b w
      = can_transmit_eid BRAKE_CAN_ID (spec_brake_frame (comm_can_set_brake_position_pos b)).data
          8 { w with
              brake_buffer := (spec_brake_frame (comm_can_set_brake_position_pos b)).data } := by
  obtain ⟨b2, b3, hbuf⟩ := hw
  have h2 : (comm_can_set_brake_position_pos b &&& 0xFF) % 256
      = comm_can_set_brake_position_pos b &&& 0xFF := by
    rw [and_255, Nat.mod_mod]
  have h3 : (0xC0 ||| ((comm_can_set_brake_position_pos b >>> 8) &&& 0x1F)) % 256
      = 0xC0 ||| ((comm_can_set_brake_position_pos b >>> 8) &&& 0x1F) := by
    rw [brake_byte3]
    omega
  simp only [comm_can_set_brake_position, hbuf, List.set, h2, h3, spec_brake_frame]

/-- The frame built from the brake bytes is the specified brake frame. -/
theorem brake_message_eq (pos : Nat) :
    CANMessage.new BRAKE_CAN_ID (spec_brake_frame pos).data 8 CANType.CANData
        CANFormat.CANExtended = spec_brake_frame pos := by
  simp [CANMessage.new, spec_brake_frame, BRAKE_CAN_ID]

/-- The shape of the function-static buffer is kept by `comm_can_set_brake_position`. -/
theorem brakeBufferShape_step (b : ℚ) (w : State) (hw : brakeBufferShape w) :
    brakeBufferShape (comm_can_set_brake_position b w) := by
  rw [comm_can_set_brake_position_eq b w hw]
  unfold brakeBufferShape
  rw [can_transmit_eid_brake_buffer]
  exact ⟨_, _, rfl⟩

/-- The shape of the function-static buffer holds after any sequence of brake calls. -/
theorem brakeBufferShape_afterBrakeCalls (earlier : List ℚ) :
    ∀ w : State, brakeBufferShape w → brakeBufferShape (afterBrakeCalls earlier w) := by
  induction earlier with
  | nil => exact fun w hw => hw
  | cons x rest ih =>
    intro w hw
    exact ih _ (brakeBufferShape_step x w hw)

/-- The position value is recovered from the two position bytes of the frame. -/
theorem brake_pos_recover (pos : Nat) (h : pos < 2 ^ 13) :
    (pos &&& 0xFF) ||| (((0xC0 ||| ((pos >>> 8) &&& 0x1F)) &&& 0x1F) <<< 8) = pos := by
  have h31 : ∀ x : Nat, x &&& 31 = x % 32 := fun x => Nat.and_pow_two_sub_one_eq_mod x 5
  rw [brake_byte3, h31, and_255,
    FUTABA_SBUS.lor_shiftLeft_eq_add _ _ 8 (by norm_num; exact Nat.mod_lt _ (by norm_num))]
  norm_num at h ⊢
  omega

/-- The interface `can1` is not touched by `comm_can_set_brake_position`. -/
theorem comm_can_set_brake_position_can1 (b : ℚ) (w : State) :
    (comm_can_set_brake_position b w).can1 = w.can1 := by
  simp only [comm_can_set_brake_position, can_transmit_eid_can1]

/-- Claim C22 (evaluation at the failing input).  The configuration assigns the brake to
CAN 1 (`CAN_BRAKE = CAN_1`, `BRAKE_CAN_PORT = 1`), but `comm_can_set_brake_position` sends
through `can_transmit_eid`, which writes on `can2`: for the brake fraction `0` in the initial
state the history of the bus of CAN 1 stays empty and the brake frame is added to the bus of
CAN 2. -/
theorem brake_frame_is_sent_on_can2 :
    CAN_BRAKE = CANName.CAN_1 ∧ BRAKE_CAN_PORT = 1
    ∧ framesOf ((comm_can_set_brake_position 0 initialState).bus CAN_BRAKE).log = []
    ∧ framesOf ((comm_can_set_brake_position 0 initialState).bus CANName.CAN_2).log
        = [{ id := 0x00FF0000, data := [0x0F, 0x4A, 0x58, 0xC2, 0, 0, 0, 0], len := 8,
             type := CANType.CANData, format := CANFormat.CANExtended }] := by
  refine ⟨rfl, rfl, ?_, ?_⟩
  · simp only [State.bus, CAN_BRAKE, comm_can_set_brake_position_can1]
    rfl
  · show framesOf (comm_can_set_brake_position 0 initialState).can2.log = _
    rw [brake_zero_log]
    rfl

/-- Claim C23.  For every `brake_position`, whatever calls were made before, the frame sent
by `comm_can_set_brake_position` is the 8 bytes
`0x0F, 0x4A, pos & 0xFF, 0xC0 | ((pos >> 8) & 0x1F), 0, 0, 0, 0` at the extended identifier
`0x00FF0000`, and `pos` is recovered from it as `byte2 | ((byte3 & 0x1F) << 8)`, since
`pos ≤ 3000 < 2 ^ 13`; the function-static buffer keeps its shape, so the frame depends only
on the current argument. -/
theorem brake_frame_depends_only_on_argument (w : State) (hw : brakeBufferShape w)
    (earlier : List ℚ) (b : ℚ) :
    framesOf (comm_can_set_brake_position b (afterBrakeCalls earlier w)).can2.log
        = framesOf (afterBrakeCalls earlier w).can2.log
            ++ [spec_brake_frame (comm_can_set_brake_position_pos b)]
    ∧ (spec_brake_frame (comm_can_set_brake_position_pos b)).data
        = [0x0F, 0x4A, comm_can_set_brake_position_pos b &&& 0xFF,
           0xC0 ||| ((comm_can_set_brake_position_pos b >>> 8) &&& 0x1F), 0, 0, 0, 0]
    ∧ (spec_brake_frame (comm_can_set_brake_position_pos b)).id = 0x00FF0000
    ∧ (spec_brake_frame (comm_can_set_brake_position_pos b)).format = CANFormat.CANExtended
    ∧ (comm_can_set_brake_position_pos b &&& 0xFF)
        ||| (((0xC0 ||| ((comm_can_set_brake_position_pos b >>> 8) &&& 0x1F)) &&& 0x1F) <<< 8)
        = comm_can_set_brake_position_pos b
    ∧ comm_can_set_brake_position_pos b ≤ 3000
    ∧ brakeBufferShape (comm_can_set_brake_position b (afterBrakeCalls earlier w)) := by
  have hs := brakeBufferShape_afterBrakeCalls earlier w hw
  have hp := brake_pos_le b
  refine ⟨?_, rfl, rfl, rfl, brake_pos_recover _ (by norm_num; omega), hp,
    brakeBufferShape_step b _ hs⟩
  rw [comm_can_set_brake_position_eq b _ hs, framesOf_can_transmit_eid, brake_message_eq]

/-- The function-static buffer has its shape in the initial state. -/
theorem brakeBufferShape_initialState : brakeBufferShape initialState :=
  ⟨0x00, 0xC0, rfl⟩

/-- Claim C23 applied to the brake fraction `1/2` after the earlier calls `1`, `0` from the
initial state. -/
theorem brake_frame_depends_only_on_argument_witness :
    brakeBufferShape initialState
    ∧ framesOf (comm_can_set_brake_position (1 / 2)
          (afterBrakeCalls [1, 0] initialState)).can2.log
        = framesOf (afterBrakeCalls [1, 0] initialState).can2.log
            ++ [spec_brake_frame (comm_can_set_brake_position_pos (1 / 2))] :=
  ⟨brakeBufferShape_initialState,
   (brake_frame_depends_only_on_argument initialState brakeBufferShape_initialState [1, 0]
      (1 / 2)).1⟩

end tritonai.gkc

/-! ## Theorems: the traversal of the steering table -/

namespace tritonai.gkc

/-- The `float` value of the literal `0.523599`. -/
theorem lit_0_523599 : to_float (to_double 0.523599) = 4392267 / 8388608 := by
  have h1 : to_double 0.523599 = 4716160522583129 / 9007199254740992 := by
    rw [to_double_eq 0.523599 (-1) 4716160522583129 (by norm_num [abs_of_nonneg])
      (by norm_num [abs_of_nonneg]) (by norm_num) (by norm_num [abs_lt])]
    norm_num
  rw [h1, to_float_eq _ (-1) 8784534 (by norm_num [abs_of_nonneg])
    (by norm_num [abs_of_nonneg]) (by norm_num) (by norm_num [abs_lt])]
  norm_num

/-- The `float` value of the literal `0.15708`. -/
theorem lit_0_15708 : to_float (to_double 0.15708) = 2635365 / 16777216 := by
  have h1 : to_double 0.15708 = 1414850858934715 / 9007199254740992 := by
    rw [to_double_eq 0.15708 (-3) 5659403435738860 (by norm_num [abs_of_nonneg])
      (by norm_num [abs_of_nonneg]) (by norm_num) (by norm_num [abs_lt])]
    norm_num
  rw [h1, to_float_eq _ (-3) 10541460 (by norm_num [abs_of_nonneg])
    (by norm_num [abs_of_nonneg]) (by norm_num) (by norm_num [abs_lt])]
  norm_num

/-- The `float` value of the literal `0.872665`. -/
theorem lit_0_872665 : to_float (to_double 0.872665) = 14640889 / 16777216 := by
  have h1 : to_double 0.872665 = 1965066884409637 / 2251799813685248 := by
    rw [to_double_eq 0.872665 (-1) 7860267537638548 (by norm_num [abs_of_nonneg])
      (by norm_num [abs_of_nonneg]) (by norm_num) (by norm_num [abs_lt])]
    norm_num
  rw [h1, to_float_eq _ (-1) 14640889 (by norm_num [abs_of_nonneg])
    (by norm_num [abs_of_nonneg]) (by norm_num) (by norm_num [abs_lt])]
  norm_num

/-- The `float` value of the literal `0.20944`. -/
theorem lit_0_20944 : to_float (to_double 0.20944) = 878455 / 4194304 := by
  have h1 : to_double 0.20944 = 7545871247651813 / 36028797018963968 := by
    rw [to_double_eq 0.20944 (-3) 7545871247651813 (by norm_num [abs_of_nonneg])
      (by norm_num [abs_of_nonneg]) (by norm_num) (by norm_num [abs_lt])]
    norm_num
  rw [h1, to_float_eq _ (-3) 14055280 (by norm_num [abs_of_nonneg])
    (by norm_num [abs_of_nonneg]) (by norm_num) (by norm_num [abs_lt])]
  norm_num

/-- The `float` value of the literal `1.22173`. -/
theorem lit_1_22173 : to_float (to_double 1.22173) = 5124307 / 4194304 := by
  have h1 : to_double 1.22173 = 1375545693186839 / 1125899906842624 := by
    rw [to_double_eq 1.22173 0 5502182772747356 (by norm_num [abs_of_nonneg])
      (by norm_num [abs_of_nonneg]) (by norm_num) (by norm_num [abs_lt])]
    norm_num
  rw [h1, to_float_eq _ 0 10248614 (by norm_num [abs_of_nonneg])
    (by norm_num [abs_of_nonneg]) (by norm_num) (by norm_num [abs_lt])]
  norm_num

/-- The `float` value of the literal `0.296706`. -/
theorem lit_0_296706 : to_float (to_double 0.296706) = 9955801 / 33554432 := by
  have h1 : to_double 0.296706 = 2672490062077181 / 9007199254740992 := by
    rw [to_double_eq 0.296706 (-2) 5344980124154362 (by norm_num [abs_of_nonneg])
      (by norm_num [abs_of_nonneg]) (by norm_num) (by norm_num [abs_lt])]
    norm_num
  rw [h1, to_float_eq _ (-2) 9955801 (by norm_num [abs_of_nonneg])
    (by norm_num [abs_of_nonneg]) (by norm_num) (by norm_num [abs_lt])]
  norm_num

/-- The `float` value of the literal `1.39626`. -/
theorem lit_1_39626 : to_float (to_double 1.39626) = 5856339 / 4194304 := by
  have h1 : to_double 1.39626 = 6288196015712329 / 4503599627370496 := by
    rw [to_double_eq 1.39626 0 6288196015712329 (by norm_num [abs_of_nonneg])
      (by norm_num [abs_of_nonneg]) (by norm_num) (by norm_num [abs_lt])]
    norm_num
  rw [h1, to_float_eq _ 0 11712678 (by norm_num [abs_of_nonneg])
    (by norm_num [abs_of_nonneg]) (by norm_num) (by norm_num [abs_lt])]
  norm_num

/-- The `float` value of the literal `0.349066`. -/
theorem lit_0_349066 : to_float (to_double 0.349066) = 11712711 / 33554432 := by
  have h1 : to_double 0.349066 = 3144107015055419 / 9007199254740992 := by
    rw [to_double_eq 0.349066 (-2) 6288214030110838 (by norm_num [abs_of_nonneg])
      (by norm_num [abs_of_nonneg]) (by norm_num) (by norm_num [abs_lt])]
    norm_num
  rw [h1, to_float_eq _ (-2) 11712711 (by norm_num [abs_of_nonneg])
    (by norm_num [abs_of_nonneg]) (by norm_num) (by norm_num [abs_lt])]
  norm_num

/-- The `float` value of the literal `1.57079`. -/
theorem lit_1_57079 : to_float (to_double 1.57079) = 6588371 / 4194304 := by
  have h1 : to_double 1.57079 = 7074209258677301 / 4503599627370496 := by
    rw [to_double_eq 1.57079 0 7074209258677301 (by norm_num [abs_of_nonneg])
      (by norm_num [abs_of_nonneg]) (by norm_num) (by norm_num [abs_lt])]
    norm_num
  rw [h1, to_float_eq _ 0 13176742 (by norm_num [abs_of_nonneg])
    (by norm_num [abs_of_nonneg]) (by norm_num) (by norm_num [abs_lt])]
  norm_num

/-- The `float` value of the literal `0.401425`. -/
theorem lit_0_401425 : to_float (to_double 0.401425) = 3367397 / 8388608 := by
  have h1 : to_double 0.401425 = 7231429921668805 / 18014398509481984 := by
    rw [to_double_eq 0.401425 (-2) 7231429921668805 (by norm_num [abs_of_nonneg])
      (by norm_num [abs_of_nonneg]) (by norm_num) (by norm_num [abs_lt])]
    norm_num
  rw [h1, to_float_eq _ (-2) 13469588 (by norm_num [abs_of_nonneg])
    (by norm_num [abs_of_nonneg]) (by norm_num) (by norm_num [abs_lt])]
  norm_num

/-- The `float` value of the literal `1.74532`. -/
theorem lit_1_74532 : to_float (to_double 1.74532) = 14640805 / 8388608 := by
  have h1 : to_double 1.74532 = 3930111250821137 / 2251799813685248 := by
    rw [to_double_eq 1.74532 0 7860222501642274 (by norm_num [abs_of_nonneg])
      (by norm_num [abs_of_nonneg]) (by norm_num) (by norm_num [abs_lt])]
    norm_num
  rw [h1, to_float_eq _ 0 14640805 (by norm_num [abs_of_nonneg])
    (by norm_num [abs_of_nonneg]) (by norm_num) (by norm_num [abs_lt])]
  norm_num

/-- The `float` value of the literal `0.453785`. -/
theorem lit_0_453785 : to_float (to_double 0.453785) = 7613249 / 16777216 := by
  have h1 : to_double 0.453785 = 4087331913812641 / 9007199254740992 := by
    rw [to_double_eq 0.453785 (-2) 8174663827625282 (by norm_num [abs_of_nonneg])
      (by norm_num [abs_of_nonneg]) (by norm_num) (by norm_num [abs_lt])]
    norm_num
  rw [h1, to_float_eq _ (-2) 15226498 (by norm_num [abs_of_nonneg])
    (by norm_num [abs_of_nonneg]) (by norm_num) (by norm_num [abs_lt])]
  norm_num

/-- The `float` value of the literal `1.91986`. -/
theorem lit_1_91986 : to_float (to_double 1.91986) = 16104953 / 8388608 := by
  have h1 : to_double 1.91986 = 67549068598465 / 35184372088832 := by
    rw [to_double_eq 1.91986 0 8646280780603520 (by norm_num [abs_of_nonneg])
      (by norm_num [abs_of_nonneg]) (by norm_num) (by norm_num [abs_lt])]
    norm_num
  rw [h1, to_float_eq _ 0 16104953 (by norm_num [abs_of_nonneg])
    (by norm_num [abs_of_nonneg]) (by norm_num) (by norm_num [abs_lt])]
  norm_num

/-- The `float` value of the literal `0.506145`. -/
theorem lit_0_506145 : to_float (to_double 0.506145) = 1061463 / 2097152 := by
  have h1 : to_double 0.506145 = 4558948866790879 / 9007199254740992 := by
    rw [to_double_eq 0.506145 (-1) 4558948866790879 (by norm_num [abs_of_nonneg])
      (by norm_num [abs_of_nonneg]) (by norm_num) (by norm_num [abs_lt])]
    norm_num
  rw [h1, to_float_eq _ (-1) 8491704 (by norm_num [abs_of_nonneg])
    (by norm_num [abs_of_nonneg]) (by norm_num) (by norm_num [abs_lt])]
  norm_num

/-- The `float` map of `map_steer2motor`: the pairs of `STERING_MAPPING` rounded to `float`,
in the order of the initializer list. -/
theorem binary32_mapping_eq :
    binary32.mapping =
      [(0, 0),
         (4392267 / 8388608, 2635365 / 16777216),
         (14640889 / 16777216, 878455 / 4194304),
         (5124307 / 4194304, 9955801 / 33554432),
         (5856339 / 4194304, 11712711 / 33554432),
         (6588371 / 4194304, 3367397 / 8388608),
         (14640805 / 8388608, 7613249 / 16777216),
         (16104953 / 8388608, 1061463 / 2097152)] := by
  have z : to_float (to_double 0) = 0 := by
    rw [to_double, round_binary_zero, to_float_zero]
  simp only [binary32.mapping, STERING_MAPPING, List.map, z, lit_0_523599, lit_0_15708, lit_0_872665, lit_0_20944, lit_1_22173, lit_0_296706, lit_1_39626, lit_0_349066, lit_1_57079, lit_0_401425, lit_1_74532, lit_0_453785, lit_1_91986, lit_0_506145]
  norm_num [std_map, std_map_insert]

set_option linter.unnecessarySeqFocus false in
/-- For `0 ≤ a ≤ 1061463 / 2 ^ 21` the traversal of the `float` table returns at one of its
first seven iterations: the iterations before it do not return, the successor exists and
its wheel angle is at least `a`. -/
theorem binary32_loop_in_table (sg x a : ℚ) (ha : sg * x = a) (h7 : a ≤ 1061463 / 2097152) :
    ∃ i, i < 7
      ∧ binary32.map_steer2motor_loop sg x binary32.mapping
          = binary32.map_steer2motor_loop sg x (binary32.mapping.drop i)
      ∧ (∃ it next rest, binary32.mapping.drop i = it :: next :: rest ∧ next.2 ≥ sg * x)
      ∧ ∃ v, binary32.map_steer2motor_loop sg x binary32.mapping = some v := by
  rw [binary32_mapping_eq]
  by_cases c1 : a ≤ 2635365 / 16777216
  · refine ⟨0, by norm_num, ?_, ⟨_, _, _, rfl, by rw [ha]; exact c1⟩, ?_⟩
    · simp only [binary32.map_steer2motor_loop, List.head?, ha, ge_iff_le, List.drop]
    · simp only [binary32.map_steer2motor_loop, List.head?, ha, ge_iff_le, if_pos c1]
      exact ⟨_, rfl⟩
  by_cases c2 : a ≤ 878455 / 4194304
  · refine ⟨1, by norm_num, ?_, ⟨_, _, _, rfl, by rw [ha]; exact c2⟩, ?_⟩
    · simp only [binary32.map_steer2motor_loop, List.head?, ha, ge_iff_le, List.drop, if_neg c1]
    · simp only [binary32.map_steer2motor_loop, List.head?, ha, ge_iff_le, if_pos c2, if_neg c1]
      exact ⟨_, rfl⟩
  by_cases c3 : a ≤ 9955801 / 33554432
  · refine ⟨2, by norm_num, ?_, ⟨_, _, _, rfl, by rw [ha]; exact c3⟩, ?_⟩
    · simp only [binary32.map_steer2motor_loop, List.head?, ha, ge_iff_le, List.drop, if_neg c1, if_neg c2]
    · simp only [binary32.map_steer2motor_loop, List.head?, ha, ge_iff_le, if_pos c3, if_neg c1, if_neg c2]
      exact ⟨_, rfl⟩
  by_cases c4 : a ≤ 11712711 / 33554432
  · refine ⟨3, by norm_num, ?_, ⟨_, _, _, rfl, by rw [ha]; exact c4⟩, ?_⟩
    · simp only [binary32.map_steer2motor_loop, List.head?, ha, ge_iff_le, List.drop, if_neg c1, if_neg c2, if_neg c3]
    · simp only [binary32.map_steer2motor_loop, List.head?, ha, ge_iff_le, if_pos c4, if_neg c1, if_neg c2, if_neg c3]
      exact ⟨_, rfl⟩
  by_cases c5 : a ≤ 3367397 / 8388608
  · refine ⟨4, by norm_num, ?_, ⟨_, _, _, rfl, by rw [ha]; exact c5⟩, ?_⟩
    · simp only [binary32.map_steer2motor_loop, List.head?, ha, ge_iff_le, List.drop, if_neg c1, if_neg c2, if_neg c3, if_neg c4]
    · simp only [binary32.map_steer2motor_loop, List.head?, ha, ge_iff_le, if_pos c5, if_neg c1, if_neg c2, if_neg c3, if_neg c4]
      exact ⟨_, rfl⟩
  by_cases c6 : a ≤ 7613249 / 16777216
  · refine ⟨5, by norm_num, ?_, ⟨_, _, _, rfl, by rw [ha]; exact c6⟩, ?_⟩
    · simp only [binary32.map_steer2motor_loop, List.head?, ha, ge_iff_le, List.drop, if_neg c1, if_neg c2, if_neg c3, if_neg c4, if_neg c5]
    · simp only [binary32.map_steer2motor_loop, List.head?, ha, ge_iff_le, if_pos c6, if_neg c1, if_neg c2, if_neg c3, if_neg c4, if_neg c5]
      exact ⟨_, rfl⟩
  · refine ⟨6, by norm_num, ?_, ⟨_, _, _, rfl, by rw [ha]; exact h7⟩, ?_⟩
    · simp only [binary32.map_steer2motor_loop, List.head?, ha, ge_iff_le, List.drop, if_neg c1, if_neg c2, if_neg c3, if_neg c4, if_neg c5, if_neg c6]
    · simp only [binary32.map_steer2motor_loop, List.head?, ha, ge_iff_le, if_pos h7, if_neg c1, if_neg c2, if_neg c3, if_neg c4, if_neg c5, if_neg c6]
      exact ⟨_, rfl⟩

/-- Beyond the largest wheel angle of the `float` table seven iterations pass without
return, and the traversal reads through the past-the-end iterator at the last entry. -/
theorem binary32_loop_out_of_table (sg x : ℚ) (h : 1061463 / 2097152 < sg * x) :
    binary32.map_steer2motor_loop sg x binary32.mapping
        = binary32.map_steer2motor_loop sg x (binary32.mapping.drop 7)
    ∧ (∃ it, binary32.mapping.drop 7 = [it])
    ∧ binary32.map_steer2motor_loop sg x binary32.mapping = none := by
  rw [binary32_mapping_eq]
  have n1 : ¬ sg * x ≤ 2635365 / 16777216 := by intro c; norm_num at c h; linarith
  have n2 : ¬ sg * x ≤ 878455 / 4194304 := by intro c; norm_num at c h; linarith
  have n3 : ¬ sg * x ≤ 9955801 / 33554432 := by intro c; norm_num at c h; linarith
  have n4 : ¬ sg * x ≤ 11712711 / 33554432 := by intro c; norm_num at c h; linarith
  have n5 : ¬ sg * x ≤ 3367397 / 8388608 := by intro c; norm_num at c h; linarith
  have n6 : ¬ sg * x ≤ 7613249 / 16777216 := by intro c; norm_num at c h; linarith
  have n7 : ¬ sg * x ≤ 1061463 / 2097152 := not_le.mpr h
  refine ⟨?_, ⟨_, rfl⟩, ?_⟩
  · simp only [binary32.map_steer2motor_loop, List.head?, ge_iff_le, if_neg n1, if_neg n2,
      if_neg n3, if_neg n4, if_neg n5, if_neg n6, if_neg n7, List.drop]
  · simp only [binary32.map_steer2motor_loop, List.head?, ge_iff_le, if_neg n1, if_neg n2,
      if_neg n3, if_neg n4, if_neg n5, if_neg n6, if_neg n7]

/-- Unfolding of the `float` `map_steer2motor`. -/
theorem binary32_map_steer2motor_eq (x : ℚ) :
    binary32.map_steer2motor x
      = binary32.map_steer2motor_loop (if x ≥ 0 then 1 else -1) x binary32.mapping := rfl

/-- The interpolation of the `float` `map_range` at the upper end of the last bracket is
the last motor angle. -/
theorem binary32_map_range_at_last_key :
    binary32.map_range (1061463 / 2097152) (7613249 / 16777216) (1061463 / 2097152)
        (14640805 / 8388608) (16104953 / 8388608) = 16104953 / 8388608 := by
  have hc : clamp (1061463 / 2097152) (7613249 / 16777216) (1061463 / 2097152)
      = 1061463 / 2097152 := clamp_of_mem (by norm_num) le_rfl
  have h1 : to_float ((1061463 / 2097152 : ℚ) - 7613249 / 16777216) = 878455 / 16777216 := by
    rw [to_float_eq _ (-5) 14055280 (by norm_num [abs_of_nonneg])
      (by norm_num [abs_of_nonneg]) (by norm_num) (by norm_num [abs_lt])]
    norm_num
  have h2 : to_float ((878455 / 16777216 : ℚ) / (878455 / 16777216)) = 1 := by
    rw [to_float_eq _ 0 8388608 (by norm_num [abs_of_nonneg])
      (by norm_num [abs_of_nonneg]) (by norm_num) (by norm_num [abs_lt])]
    norm_num
  have h3 : to_float ((16104953 / 8388608 : ℚ) - 14640805 / 8388608) = 366037 / 2097152 := by
    rw [to_float_eq _ (-3) 11713184 (by norm_num [abs_of_nonneg])
      (by norm_num [abs_of_nonneg]) (by norm_num) (by norm_num [abs_lt])]
    norm_num
  have h4 : to_float ((1 : ℚ) * (366037 / 2097152)) = 366037 / 2097152 := by
    rw [to_float_eq _ (-3) 11713184 (by norm_num [abs_of_nonneg])
      (by norm_num [abs_of_nonneg]) (by norm_num) (by norm_num [abs_lt])]
    norm_num
  have h5 : to_float ((366037 / 2097152 : ℚ) + 14640805 / 8388608) = 16104953 / 8388608 := by
    rw [to_float_eq _ 0 16104953 (by norm_num [abs_of_nonneg])
      (by norm_num [abs_of_nonneg]) (by norm_num) (by norm_num [abs_lt])]
    norm_num
  simp only [binary32.map_range, hc, h1, h2, h3, h4, h5]

/-- Claim C24 as stated fails.  The key of the last table entry is the `float`
`0.506145f = 1061463 / 2 ^ 21`, which is above the decimal `0.506145`.  For the steering
angle `x = 0.506145f`, which has `|x| > 0.506145`, the seventh iteration returns, with the
last motor angle `1.91986f = 16104953 / 2 ^ 23`: the branch without successor is not
reached. -/
theorem map_steer2motor_returns_at_last_key :
    (0.506145 : ℚ) < |(1061463 / 2097152 : ℚ)|
    ∧ to_float (to_double 0.506145) = 1061463 / 2097152
    ∧ to_float (to_double 1.91986) = 16104953 / 8388608
    ∧ binary32.map_steer2motor (1061463 / 2097152)
        = binary32.map_steer2motor_loop 1 (1061463 / 2097152) (binary32.mapping.drop 6)
    ∧ binary32.map_steer2motor (1061463 / 2097152) = some (16104953 / 8388608) := by
  have hs : (if (1061463 / 2097152 : ℚ) ≥ 0 then (1 : ℚ) else -1) = 1 := by norm_num
  have n1 : ¬ (1061463 / 2097152 : ℚ) ≤ 2635365 / 16777216 := by norm_num
  have n2 : ¬ (1061463 / 2097152 : ℚ) ≤ 878455 / 4194304 := by norm_num
  have n3 : ¬ (1061463 / 2097152 : ℚ) ≤ 9955801 / 33554432 := by norm_num
  have n4 : ¬ (1061463 / 2097152 : ℚ) ≤ 11712711 / 33554432 := by norm_num
  have n5 : ¬ (1061463 / 2097152 : ℚ) ≤ 3367397 / 8388608 := by norm_num
  have n6 : ¬ (1061463 / 2097152 : ℚ) ≤ 7613249 / 16777216 := by norm_num
  refine ⟨by rw [abs_of_nonneg (by norm_num)]; norm_num, lit_0_506145, lit_1_91986, ?_, ?_⟩
  · rw [binary32_map_steer2motor_eq, hs, binary32_mapping_eq]
    simp only [binary32.map_steer2motor_loop, List.head?, ge_iff_le, one_mul, if_neg n1,
      if_neg n2, if_neg n3, if_neg n4, if_neg n5, if_neg n6, List.drop]
  · rw [binary32_map_steer2motor_eq, hs, binary32_mapping_eq]
    simp only [binary32.map_steer2motor_loop, List.head?, ge_iff_le, one_mul, if_neg n1,
      if_neg n2, if_neg n3, if_neg n4, if_neg n5, if_neg n6, le_refl, if_true,
      binary32_map_range_at_last_key]

/-- Claim C24, amended.  The bound is the `float` `0.506145f = 1061463 / 2 ^ 21`, the key of
the last entry of the `float` table.  For every steering angle `x` with `|x| ≤ 0.506145f`,
the table traversal in `map_steer2motor` returns within its first 7 iterations: after
`i ≤ 6` iterations that do not return, the iterator is at entry `i`, its successor exists
and has a wheel angle of at least `|x|`, so the iteration returns a value and
`std::next(it)` is never read at the last table entry.  For every `|x| > 0.506145f` seven
iterations pass without return, the iterator reaches the last entry, and the successor that
is read there does not exist. -/
theorem map_steer2motor_traversal (x : ℚ) :
    binary32.mapping.length = 8
    ∧ (tableAt binary32.mapping 7).2 = 1061463 / 2097152
    ∧ (|x| ≤ 1061463 / 2097152 →
      ∃ i, i < 7
        ∧ binary32.map_steer2motor x
            = binary32.map_steer2motor_loop (if x ≥ 0 then 1 else -1) x
                (binary32.mapping.drop i)
        ∧ (∃ it next rest, binary32.mapping.drop i = it :: next :: rest
            ∧ next.2 ≥ (if x ≥ 0 then 1 else -1) * x)
        ∧ ∃ v, binary32.map_steer2motor x = some v)
    ∧ (1061463 / 2097152 < |x| →
        binary32.map_steer2motor x
            = binary32.map_steer2motor_loop (if x ≥ 0 then 1 else -1) x
                (binary32.mapping.drop 7)
        ∧ (∃ it, binary32.mapping.drop 7 = [it])
        ∧ binary32.map_steer2motor x = none) := by
  refine ⟨by rw [binary32_mapping_eq]; rfl, by rw [binary32_mapping_eq]; rfl,
    fun hx => ?_, fun hx => ?_⟩
  · simp only [binary32_map_steer2motor_eq]
    exact binary32_loop_in_table _ x |x| (sign_mul_eq_abs x) hx
  · simp only [binary32_map_steer2motor_eq]
    exact binary32_loop_out_of_table _ x (by rw [sign_mul_eq_abs]; exact hx)

/-- Claim C24 (amended) applied at the steering angles `0.3` (inside the table) and `0.6`
(beyond it). -/
theorem map_steer2motor_traversal_witness :
    (|(0.3 : ℚ)| ≤ 1061463 / 2097152 ∧ ∃ v, binary32.map_steer2motor 0.3 = some v)
    ∧ ((1061463 / 2097152 : ℚ) < |(0.6 : ℚ)| ∧ binary32.map_steer2motor 0.6 = none) := by
  have h3 : |(0.3 : ℚ)| ≤ 1061463 / 2097152 := by
    rw [abs_of_nonneg (by norm_num)]
    norm_num
  have h6 : (1061463 / 2097152 : ℚ) < |(0.6 : ℚ)| := by
    rw [abs_of_nonneg (by norm_num)]
    norm_num
  obtain ⟨i, -, -, -, hv⟩ := (map_steer2motor_traversal 0.3).2.2.1 h3
  exact ⟨⟨h3, hv⟩, ⟨h6, ((map_steer2motor_traversal 0.6).2.2.2 h6).2.2⟩⟩

end tritonai.gkc

/-! ## Theorems: `UpdateChannels` as a function of the frame -/

namespace FUTABA_SBUS

/-- The effect of `UpdateChannels` on the channels and on the flag is a function of the
flag, the channels and the bytes 1 to 22 of the frame buffer. -/
theorem UpdateChannels_congr (s1 s2 : FUTABA_SBUS) (hflag : s1.toChannels = s2.toChannels)
    (hch : s1.channels = s2.channels)
    (hfb : ∀ i : Fin 25, 1 ≤ i.val → i.val ≤ 22 → s1.frameBuffer i = s2.frameBuffer i) :
    (UpdateChannels s1).channels = (UpdateChannels s2).channels
    ∧ (UpdateChannels s1).toChannels = (UpdateChannels s2).toChannels := by
  have h1 := hfb 1 (by decide) (by decide)
  have h2 := hfb 2 (by decide) (by decide)
  have h3 := hfb 3 (by decide) (by decide)
  have h4 := hfb 4 (by decide) (by decide)
  have h5 := hfb 5 (by decide) (by decide)
  have h6 := hfb 6 (by decide) (by decide)
  have h7 := hfb 7 (by decide) (by decide)
  have h8 := hfb 8 (by decide) (by decide)
  have h9 := hfb 9 (by decide) (by decide)
  have h10 := hfb 10 (by decide) (by decide)
  have h11 := hfb 11 (by decide) (by decide)
  have h12 := hfb 12 (by decide) (by decide)
  have h13 := hfb 13 (by decide) (by decide)
  have h14 := hfb 14 (by decide) (by decide)
  have h15 := hfb 15 (by decide) (by decide)
  have h16 := hfb 16 (by decide) (by decide)
  have h17 := hfb 17 (by decide) (by decide)
  have h18 := hfb 18 (by decide) (by decide)
  have h19 := hfb 19 (by decide) (by decide)
  have h20 := hfb 20 (by decide) (by decide)
  have h21 := hfb 21 (by decide) (by decide)
  have h22 := hfb 22 (by decide) (by decide)
  by_cases hz : s2.toChannels = 0
  · simp only [UpdateChannels, hflag, hz, if_true, hch, and_self]
  · simp only [UpdateChannels, hflag, hz, if_false, h1, h2, h3, h4, h5, h6, h7, h8, h9, h10,
      h11, h12, h13, h14, h15, h16, h17, h18, h19, h20, h21, h22, and_self]

/-- Two complete reads that agree on their first 22 bytes store frames that agree on the
bytes 1 to 22. -/
theorem storeFrame_congr (frameBuffer : Fin 25 → Byte) (start : Byte) (rest1 rest2 : List Byte)
    (hr1 : 24 ≤ rest1.length) (hr2 : 24 ≤ rest2.length)
    (hsame : rest1.take 22 = rest2.take 22) (i : Fin 25) (h1 : 1 ≤ i.val) (h22 : i.val ≤ 22) :
    storeFrame frameBuffer start (rest1.take 24) i
      = storeFrame frameBuffer start (rest2.take 24) i := by
  rw [storeFrame_full _ _ _ hr1, storeFrame_full _ _ _ hr2]
  obtain ⟨j, hj⟩ : ∃ j, i.val = j + 1 := ⟨i.val - 1, by omega⟩
  have hj22 : j < 22 := by omega
  rw [hj, List.getD_cons_succ, List.getD_cons_succ]
  simp only [List.getD_eq_getElem?_getD]
  rw [← List.getElem?_take_of_lt hj22, ← List.getElem?_take_of_lt (l := rest2) hj22, hsame]

/-- Claim C25.  The channels decoded by `UpdateChannels` depend only on
`frameBuffer[1..22]`: for any two frame buffers that agree on bytes 1 to 22, the 16 decoded
channels are equal, so byte 0 (start marker), byte 23 (flags) and byte 24 (end byte) never
influence the decoded frame or whether it is accepted: two complete frames received by
`FeedLine` that differ only after their 22 payload bytes are both accepted and decode to the
same channels. -/
theorem decoded_channels_depend_only_on_payload :
    (∀ (s : FUTABA_SBUS) (fb2 : Fin 25 → Byte),
      (∀ i : Fin 25, 1 ≤ i.val → i.val ≤ 22 → s.frameBuffer i = fb2 i) →
      (∀ k : Fin 16, (UpdateChannels { s with frameBuffer := fb2 }).channels k
          = (UpdateChannels s).channels k)
      ∧ (UpdateChannels { s with frameBuffer := fb2 }).toChannels
          = (UpdateChannels s).toChannels)
    ∧ (∀ (s : FUTABA_SBUS) (pre rest1 rest2 : List Byte) (start : Byte),
      (∀ b ∈ pre, b.val ≠ 0x0F) → start.val = 0x0F →
      24 ≤ rest1.length → 24 ≤ rest2.length → rest1.take 22 = rest2.take 22 →
      (FeedLine { s with sbusSerial := pre ++ start :: rest1 }).toChannels = 1
      ∧ (FeedLine { s with sbusSerial := pre ++ start :: rest2 }).toChannels = 1
      ∧ ∀ k : Fin 16,
          (UpdateChannels (FeedLine { s with sbusSerial := pre ++ start :: rest1 })).channels k
          = (UpdateChannels
              (FeedLine { s with sbusSerial := pre ++ start :: rest2 })).channels k) := by
  constructor
  · intro s fb2 hfb
    have h := UpdateChannels_congr { s with frameBuffer := fb2 } s rfl rfl
      (fun i h1 h22 => (hfb i h1 h22).symm)
    exact ⟨fun k => congrFun h.1 k, h.2⟩
  · intro s pre rest1 rest2 start hpre hstart hr1 hr2 hsame
    rw [FeedLine_full_frame _ pre rest1 start rfl hpre hstart hr1,
      FeedLine_full_frame _ pre rest2 start rfl hpre hstart hr2]
    refine ⟨rfl, rfl, fun k => congrFun (UpdateChannels_congr _ _ ?_ ?_ ?_).1 k⟩
    · rfl
    · rfl
    · intro i h1 h22
      exact storeFrame_congr s.frameBuffer start rest1 rest2 hr1 hr2 hsame i h1 h22

/-- The sample state and its variant agree on the bytes 1 to 22 of the frame buffer. -/
theorem sampleStateOtherFlags_agrees :
    ∀ i : Fin 25, 1 ≤ i.val → i.val ≤ 22 →
      sampleState.frameBuffer i = sampleStateOtherFlags.frameBuffer i := by
  intro i h1 h22
  have hn : ¬ (i.val = 0 ∨ 23 ≤ i.val) := by omega
  simp only [sampleStateOtherFlags, if_neg hn]

/-- Claim C25 applied to the sample state and the frame buffer whose bytes 0, 23 and 24 are
`0xFF`, at channel 15. -/
theorem decoded_channels_depend_only_on_payload_witness :
    (∀ i : Fin 25, 1 ≤ i.val → i.val ≤ 22 →
        sampleState.frameBuffer i = sampleStateOtherFlags.frameBuffer i)
    ∧ (UpdateChannels
          { sampleState with frameBuffer := sampleStateOtherFlags.frameBuffer }).channels 15
        = (UpdateChannels sampleState).channels 15 :=
  ⟨sampleStateOtherFlags_agrees,
   (decoded_channels_depend_only_on_payload.1 sampleState sampleStateOtherFlags.frameBuffer
      sampleStateOtherFlags_agrees).1 15⟩

/-- Claim C26.  `UpdateChannels` consumes a received frame exactly once: after any call the
frame-ready flag `toChannels` is 0, a call made while `toChannels` is 0 changes nothing, and
therefore calling `UpdateChannels` twice in a row yields the same decoder state as calling
it once. -/
theorem UpdateChannels_idempotent (s : FUTABA_SBUS) :
    (UpdateChannels s).toChannels = 0
    ∧ (s.toChannels = 0 → UpdateChannels s = s)
    ∧ UpdateChannels (UpdateChannels s) = UpdateChannels s := by
  have h0 : (UpdateChannels s).toChannels = 0 := by
    unfold UpdateChannels
    split_ifs with h
    · exact h
    · rfl
  have hid : ∀ t : FUTABA_SBUS, t.toChannels = 0 → UpdateChannels t = t := by
    intro t ht
    simp only [UpdateChannels, ht, if_true]
  exact ⟨h0, hid s, hid _ h0⟩

/-- Claim C26 applied to the idle state, in which no frame is pending. -/
theorem UpdateChannels_idempotent_witness :
    idleState.toChannels = 0 ∧ UpdateChannels idleState = idleState :=
  ⟨rfl, (UpdateChannels_idempotent idleState).2.1 rfl⟩

end FUTABA_SBUS

/-! ## Theorems: `SBusTracker` -/

namespace SBusTracker

/-- The state of the constructor over the unbounded integers after `k` iterations of its
loop. -/
theorem spec_new_loop (H : Nat) (p : Int) (k : Nat) (hk : k ≤ H) :
    ((List.range k).foldl (spec_new_step p)
        { rolling_sum := 0, head_index := 0, tracker_array := List.replicate H 0 }).rolling_sum
      = k * p
    ∧ ((List.range k).foldl (spec_new_step p)
        { rolling_sum := 0, head_index := 0, tracker_array := List.replicate H 0 }).head_index
      = 0
    ∧ ((List.range k).foldl (spec_new_step p)
        { rolling_sum := 0, head_index := 0, tracker_array := List.replicate H 0 }).tracker_array
      = List.replicate k p ++ List.replicate (H - k) 0 := by
  induction k with
  | zero => simp
  | succ k ih =>
    obtain ⟨h1, h2, h3⟩ := ih (Nat.le_of_succ_le hk)
    rw [List.range_succ, List.foldl_append]
    simp only [List.foldl_cons, List.foldl_nil, spec_new_step, h1, h2, h3]
    refine ⟨by push_cast; ring, trivial, ?_⟩
    have hsplit : List.replicate (H - k) (0 : Int) = 0 :: List.replicate (H - (k + 1)) 0 := by
      have : H - k = (H - (k + 1)) + 1 := by omega
      rw [this, List.replicate_succ]
    have hlen : (List.replicate k p).length = k := List.length_replicate _ _
    rw [hsplit, List.set_append_right _ _ (by rw [hlen]), hlen, Nat.sub_self, List.set_cons_zero,
      List.replicate_succ', List.append_assoc]
    rfl

/-- The tracker that the constructor builds over the unbounded integers. -/
theorem spec_new_eq (H : Nat) (p : Int) :
    spec_new H p = { rolling_sum := H * p, head_index := 0, tracker_array := List.replicate H p } := by
  obtain ⟨h1, h2, h3⟩ := spec_new_loop H p H le_rfl
  have e : ∀ t : SBusTracker, t = ⟨t.rolling_sum, t.head_index, t.tracker_array⟩ := fun _ => rfl
  rw [e (spec_new H p)]
  simp only [spec_new, h1, h2, h3, Nat.sub_self, List.replicate_zero, List.append_nil]

/-- A list is split at any position below its length. -/
theorem exists_split_at (arr : List Int) (h : Nat) (hh : h < arr.length) :
    ∃ A o B, arr = A ++ o :: B ∧ A.length = h :=
  ⟨arr.take h, arr[h], arr.drop (h + 1),
    by rw [← List.drop_eq_getElem_cons hh, List.take_append_drop],
    by rw [List.length_take]; omega⟩

/-- The sliding-window invariant over the unbounded integers: the head index is the number of additions modulo the
window size, the rolling sum is the sum of the array, and the array read from the head
index on, cyclically, is the last `HISTORY_SIZE` elements of the pre-load values followed by
the added values. -/
theorem spec_after_invariant (H : Nat) (hH : 0 < H) (p : Int) (vs : List Int) :
    (spec_after H p vs).head_index = vs.length % H
    ∧ (spec_after H p vs).tracker_array.length = H
    ∧ (spec_after H p vs).rolling_sum = (spec_after H p vs).tracker_array.sum
    ∧ (spec_after H p vs).tracker_array.drop (vs.length % H)
          ++ (spec_after H p vs).tracker_array.take (vs.length % H)
        = (List.replicate H p ++ vs).drop vs.length := by
  induction vs using List.reverseRecOn with
  | nil =>
    simp only [spec_after, List.foldl_nil, spec_new_eq, List.length_nil, Nat.zero_mod, List.drop_zero,
      List.take_zero, List.append_nil, List.length_replicate, List.sum_replicate, nsmul_eq_mul,
      and_self, true_and]
  | append_singleton vs v ih =>
    obtain ⟨ih1, ih2, ih3, ih4⟩ := ih
    have hstep : spec_after H p (vs ++ [v]) = spec_add H (spec_after H p vs) v := by
      simp only [spec_after, List.foldl_append, List.foldl_cons, List.foldl_nil]
    have hmod : vs.length % H < H := Nat.mod_lt _ hH
    obtain ⟨A, o, B, harr, hA⟩ :=
      exists_split_at (spec_after H p vs).tracker_array (vs.length % H) (by rw [ih2]; exact hmod)
    have hlen : A.length + (B.length + 1) = H := by
      rw [← ih2, harr]
      simp
    have hget : (spec_after H p vs).tracker_array.getD (vs.length % H) 0 = o := by
      rw [harr, ← hA, List.getD_eq_getElem?_getD, List.getElem?_append_right (le_refl _),
        Nat.sub_self]
      simp
    have hset : (spec_after H p vs).tracker_array.set (vs.length % H) v = A ++ v :: B := by
      rw [harr, ← hA]
      simp
    have hwin : o :: (B ++ A) = (List.replicate H p ++ vs).drop vs.length := by
      rw [← ih4, harr, ← hA]
      simp
    have hnext : (List.replicate H p ++ (vs ++ [v])).drop (vs.length + 1) = B ++ A ++ [v] := by
      rw [← List.append_assoc, List.drop_append_of_le_length (by simp; omega),
        ← List.drop_drop, ← hwin]
      simp
    have hmod1 : (vs.length + 1) % H = (vs.length % H + 1) % H := by
      rw [Nat.mod_add_mod]
    rw [hstep]
    simp only [spec_add, ih1, ih3, hget, hset, List.length_append, List.length_singleton, hnext]
    refine ⟨hmod1.symm, by simp; omega, ?_, ?_⟩
    · rw [harr]
      simp only [List.sum_append, List.sum_cons]
      ring
    · rw [hmod1, ← hA]
      by_cases hlast : A.length + 1 < H
      · rw [Nat.mod_eq_of_lt hlast, List.drop_append, List.take_append]
        simp
      · have hB : B = [] := List.length_eq_zero.mp (by omega)
        have hAH : A.length + 1 = H := by omega
        subst hB
        rw [hAH, Nat.mod_self]
        simp

/-- The sum of the stored array over the unbounded integers, in terms of the added values
and the pre-load. -/
theorem spec_after_sum (H : Nat) (hH : 0 < H) (p : Int) (vs : List Int) :
    (spec_after H p vs).tracker_array.sum
      = (spec_last (min vs.length H) vs).sum + ((H - vs.length : Nat) : Int) * p := by
  obtain ⟨-, -, -, h4⟩ := spec_after_invariant H hH p vs
  have hsum : (spec_after H p vs).tracker_array.sum
      = ((spec_after H p vs).tracker_array.drop (vs.length % H)
          ++ (spec_after H p vs).tracker_array.take (vs.length % H)).sum := by
    rw [List.sum_append, add_comm, ← List.sum_append, List.take_append_drop]
  have hmin : vs.length - min vs.length H = vs.length - H := by omega
  rw [hsum, h4, List.drop_append_eq_append_drop, List.drop_replicate, List.length_replicate,
    List.sum_append, List.sum_replicate, nsmul_eq_mul, spec_last, hmin]
  ring

/-- Every stored value is the pre-load or one of the added values. -/
theorem spec_after_mem (H : Nat) (hH : 0 < H) (p : Int) (vs : List Int) (a : Int)
    (ha : a ∈ (spec_after H p vs).tracker_array) : a = p ∨ a ∈ vs := by
  obtain ⟨-, -, -, h4⟩ := spec_after_invariant H hH p vs
  have h : a ∈ (spec_after H p vs).tracker_array.drop (vs.length % H)
      ++ (spec_after H p vs).tracker_array.take (vs.length % H) := by
    rw [List.mem_append, or_comm, ← List.mem_append, List.take_append_drop]
    exact ha
  rw [h4] at h
  rcases List.mem_append.mp (List.mem_of_mem_drop h) with h1 | h1
  · exact Or.inl (List.eq_of_mem_replicate h1)
  · exact Or.inr h1

/-- The sum of a list of integers of magnitude at most `B`. -/
theorem abs_sum_le (l : List Int) (B : Int) (h : ∀ a ∈ l, |a| ≤ B) :
    |l.sum| ≤ (l.length : Int) * B := by
  induction l with
  | nil => simp
  | cons a t ih =>
    have h1 := h a (List.mem_cons_self _ _)
    have h2 := ih (fun x hx => h x (List.mem_cons_of_mem _ hx))
    rw [List.sum_cons, List.length_cons]
    push_cast
    have := abs_add a t.sum
    linarith

/-- The sum of a list without one of its cells. -/
theorem abs_sum_sub_getD_le (l : List Int) (B : Int) (h : ∀ a ∈ l, |a| ≤ B) (i : Nat)
    (hi : i < l.length) : |l.sum - l.getD i 0| ≤ (l.length : Int) * B := by
  obtain ⟨A, o, C, harr, hA⟩ := exists_split_at l i hi
  have hB : 0 ≤ B := le_trans (abs_nonneg _) (h o (by rw [harr]; simp))
  have hget : l.getD i 0 = o := by
    rw [harr, ← hA, List.getD_eq_getElem?_getD, List.getElem?_append_right (le_refl _),
      Nat.sub_self]
    simp
  have e : l.sum - l.getD i 0 = (A ++ C).sum := by
    rw [hget, harr]
    simp only [List.sum_append, List.sum_cons]
    ring
  have hb := abs_sum_le (A ++ C) B (fun a ha => h a (by
    rw [harr]
    rcases List.mem_append.mp ha with h1 | h1
    · exact List.mem_append_left _ h1
    · exact List.mem_append_right _ (List.mem_cons_of_mem _ h1)))
  have hl : ((A ++ C).length : Int) ≤ (l.length : Int) := by
    rw [harr]
    simp only [List.length_append, List.length_cons]
    push_cast
    omega
  rw [e]
  exact le_trans hb (mul_le_mul_of_nonneg_right hl hB)

/-- A value in the range of `int` is not changed by the reduction to 32 bits. -/
theorem to_int32_of_range (z : Int) (h1 : -2 ^ 31 ≤ z) (h2 : z < 2 ^ 31) : to_int32 z = z := by
  unfold to_int32
  norm_num at h1 h2 ⊢
  omega

/-- A value of magnitude below `2 ^ 31` is not changed by the reduction to 32 bits. -/
theorem to_int32_of_abs (z M : Int) (h : |z| ≤ M) (hM : M < 2 ^ 31) : to_int32 z = z := by
  rw [abs_le] at h
  exact to_int32_of_range z (by norm_num at hM ⊢; omega) (by omega)

/-- The conversion to `unsigned int` of a value that is not negative and below `2 ^ 32`. -/
theorem to_uint32_of_range (z : Int) (h1 : 0 ≤ z) (h2 : z < 2 ^ 32) :
    (to_uint32 z : Int) = z := by
  unfold to_uint32
  rw [Int.toNat_of_nonneg (Int.emod_nonneg _ (by norm_num)), Int.emod_eq_of_lt h1 h2]

/-- While no partial sum leaves the range of `int`, the constructor builds the tracker that
it builds over the unbounded integers. -/
theorem new_eq_spec_new (H : Nat) (B : Int) (hB : (H : Int) * B < 2 ^ 31) (p : Int)
    (hp : |p| ≤ B) : new H p = spec_new H p := by
  have hB0 : 0 ≤ B := le_trans (abs_nonneg _) hp
  have key : ∀ k, k ≤ H →
      (List.range k).foldl (new_step p)
          { rolling_sum := 0, head_index := 0, tracker_array := List.replicate H 0 }
        = (List.range k).foldl (spec_new_step p)
          { rolling_sum := 0, head_index := 0, tracker_array := List.replicate H 0 } := by
    intro k
    induction k with
    | zero => intro _; rfl
    | succ k ih =>
      intro hk
      obtain ⟨h1, -, -⟩ := spec_new_loop H p (k + 1) hk
      rw [List.range_succ, List.foldl_append] at h1
      rw [List.range_succ, List.foldl_append, List.foldl_append, ih (Nat.le_of_succ_le hk)]
      simp only [List.foldl_cons, List.foldl_nil, spec_new_step] at h1
      simp only [List.foldl_cons, List.foldl_nil, new_step, spec_new_step]
      have hb : |(((k + 1 : Nat) : Int)) * p| ≤ (H : Int) * B := by
        rw [abs_mul, abs_of_nonneg (Int.natCast_nonneg _)]
        exact mul_le_mul (by exact_mod_cast hk) hp (abs_nonneg _) (Int.natCast_nonneg _)
      rw [h1, to_int32_of_abs _ _ hb hB]
  exact key H le_rfl

/-- While the window sums stay in the range of `int`, the tracker is the one over the
unbounded integers. -/
theorem after_eq_spec_after (H : Nat) (hH : 0 < H) (B : Int) (hB : (H : Int) * B < 2 ^ 31)
    (p : Int) (hp : |p| ≤ B) (vs : List Int) (hvs : ∀ v ∈ vs, |v| ≤ B) :
    after H p vs = spec_after H p vs := by
  induction vs using List.reverseRecOn with
  | nil => exact new_eq_spec_new H B hB p hp
  | append_singleton vs v ih =>
    have hvs1 : ∀ x ∈ vs, |x| ≤ B := fun x hx => hvs x (List.mem_append_left _ hx)
    have ih1 := ih hvs1
    have hstep : after H p (vs ++ [v]) = add H (after H p vs) v := by
      simp only [after, List.foldl_append, List.foldl_cons, List.foldl_nil]
    have hstep2 : spec_after H p (vs ++ [v]) = spec_add H (spec_after H p vs) v := by
      simp only [spec_after, List.foldl_append, List.foldl_cons, List.foldl_nil]
    obtain ⟨i1, i2, i3, -⟩ := spec_after_invariant H hH p vs
    obtain ⟨-, -, j3, -⟩ := spec_after_invariant H hH p (vs ++ [v])
    have hmem : ∀ a ∈ (spec_after H p vs).tracker_array, |a| ≤ B := by
      intro a ha
      rcases spec_after_mem H hH p vs a ha with h | h
      · rw [h]; exact hp
      · exact hvs1 a h
    have hmem2 : ∀ a ∈ (spec_after H p (vs ++ [v])).tracker_array, |a| ≤ B := by
      intro a ha
      rcases spec_after_mem H hH p (vs ++ [v]) a ha with h | h
      · rw [h]; exact hp
      · exact hvs a h
    have b1 := abs_sum_sub_getD_le _ B hmem (spec_after H p vs).head_index
      (by rw [i1, i2]; exact Nat.mod_lt _ hH)
    rw [i2, ← i3] at b1
    have b2 := abs_sum_le _ B hmem2
    rw [(spec_after_invariant H hH p (vs ++ [v])).2.1, ← j3, hstep2] at b2
    simp only [spec_add] at b2
    rw [hstep, hstep2, ih1]
    simp only [add, spec_add]
    rw [to_int32_of_abs _ _ b1 hB, to_int32_of_abs _ _ b2 hB]

/-- Claim C27 as stated fails for values whose window sum leaves the range of `int`.  With
`HISTORY_SIZE = 3` and the pre-load `2147483647`, the sum `6442450941` of the stored array
is not representable in 32 bits: right after construction `get_rolling_sum` is `2147483645`
and `get_estimated` is `715827881`, not the pre-load.  With the pre-load `-1` the stored
array sums to `-3` and `get_rolling_sum`, an `unsigned int`, is `4294967293`. -/
theorem sliding_window_wraps_at_32_bits :
    (after 3 2147483647 []).tracker_array = [2147483647, 2147483647, 2147483647]
    ∧ get_rolling_sum (after 3 2147483647 []) = 2147483645
    ∧ get_estimated 3 (after 3 2147483647 []) = 715827881
    ∧ (after 3 (-1) []).tracker_array = [-1, -1, -1]
    ∧ get_rolling_sum (after 3 (-1) []) = 4294967293 := by
  refine ⟨by decide, by decide, by decide, by decide, by decide⟩

/-- Claim C27, amended.  `SBusTracker` keeps a sliding window as long as the sums stay in
the range of `int`.  For every window size `HISTORY_SIZE = H` with `0 < H < 2 ^ 31`, every
bound `B` with `H * B < 2 ^ 31`, every pre-load `p` and every sequence `vs` of `n` added
values, all of magnitude at most `B`, after the constructor and the calls of `add`:
`head_index` is `n % H`, which is below `H`, and `get_head_index` returns it; the array has
`H` cells; `rolling_sum` is the sum of the stored array; that sum is the sum of the last
`min n H` added values plus `(H - n) * p` (truncated subtraction); `get_rolling_sum` returns
that sum modulo `2 ^ 32`, which is the sum when it is not negative; right after the
construction `get_estimated` is `p` when `0 ≤ p`; and once `H ≤ n` the rolling sum is the
sum of the last `H` added values, without the pre-load. -/
theorem sliding_window_correct (H : Nat) (hH : 0 < H) (hH31 : H < 2 ^ 31) (B : Int)
    (hB : (H : Int) * B < 2 ^ 31) (p : Int) (hp : |p| ≤ B) (vs : List Int)
    (hvs : ∀ v ∈ vs, |v| ≤ B) :
    (after H p vs).head_index = vs.length % H
    ∧ (after H p vs).head_index < H
    ∧ get_head_index (after H p vs) = vs.length % H
    ∧ (after H p vs).tracker_array.length = H
    ∧ (after H p vs).rolling_sum = (after H p vs).tracker_array.sum
    ∧ (after H p vs).tracker_array.sum
        = (spec_last (min vs.length H) vs).sum + ((H - vs.length : Nat) : Int) * p
    ∧ (get_rolling_sum (after H p vs) : Int) = (after H p vs).tracker_array.sum % 2 ^ 32
    ∧ (0 ≤ (after H p vs).tracker_array.sum →
        (get_rolling_sum (after H p vs) : Int) = (after H p vs).tracker_array.sum)
    ∧ (0 ≤ p → (get_estimated H (after H p []) : Int) = p)
    ∧ (H ≤ vs.length → (after H p vs).rolling_sum = (spec_last H vs).sum) := by
  have hB0 : 0 ≤ B := le_trans (abs_nonneg _) hp
  have hBlt : B < 2 ^ 31 := by
    have h1 : (1 : Int) ≤ H := by exact_mod_cast hH
    nlinarith
  have he := after_eq_spec_after H hH B hB p hp vs hvs
  have he0 := after_eq_spec_after H hH B hB p hp [] (by simp)
  obtain ⟨h1, h2, h3, -⟩ := spec_after_invariant H hH p vs
  have hs := spec_after_sum H hH p vs
  have hmod : vs.length % H < H := Nat.mod_lt _ hH
  have hH0 : (H : Int) ≠ 0 := Int.natCast_ne_zero.mpr (Nat.pos_iff_ne_zero.mp hH)
  have hmem : ∀ a ∈ (spec_after H p vs).tracker_array, |a| ≤ B := by
    intro a ha
    rcases spec_after_mem H hH p vs a ha with h | h
    · rw [h]; exact hp
    · exact hvs a h
  have hsb := abs_sum_le _ B hmem
  rw [h2] at hsb
  rw [he]
  refine ⟨h1, by rw [h1]; exact hmod, ?_, h2, h3, hs, ?_, fun h0 => ?_, fun h0 => ?_,
    fun hn => ?_⟩
  · rw [get_head_index, h1]
    exact Nat.mod_eq_of_lt (by
      have : (2 : Nat) ^ 31 < 2 ^ 32 := by norm_num
      omega)
  · rw [get_rolling_sum, to_uint32, Int.toNat_of_nonneg (Int.emod_nonneg _ (by norm_num)), h3]
  · rw [get_rolling_sum, h3]
    apply to_uint32_of_range _ h0
    rw [abs_le] at hsb
    norm_num at hB ⊢
    omega
  · rw [he0]
    simp only [get_estimated, spec_after, List.foldl_nil, spec_new_eq,
      Int.mul_tdiv_cancel_left p hH0]
    rw [to_int32_of_abs p B hp hBlt]
    apply to_uint32_of_range _ h0
    rw [abs_le] at hp
    norm_num at hBlt ⊢
    omega
  · rw [h3, hs, Nat.min_eq_right hn, Nat.sub_eq_zero_of_le hn]
    simp

/-- Claim C27 (amended) applied at `HISTORY_SIZE = 3`, the bound `2047` of an SBUS channel
value, the pre-load `992` and the added values `1000, 1010, 1020, 1030`: the head index is
`1` and the rolling sum of the last three values is `3060`. -/
theorem sliding_window_correct_witness :
    0 < 3 ∧ 3 < 2 ^ 31 ∧ ((3 : Nat) : Int) * 2047 < 2 ^ 31 ∧ |(992 : Int)| ≤ 2047
    ∧ (∀ v ∈ [(1000 : Int), 1010, 1020, 1030], |v| ≤ 2047)
    ∧ (after 3 992 [1000, 1010, 1020, 1030]).head_index = 1
    ∧ get_rolling_sum (after 3 992 [1000, 1010, 1020, 1030]) = 3060
    ∧ get_estimated 3 (after 3 992 [1000, 1010, 1020, 1030]) = 1020
    ∧ (after 3 992 [1000, 1010, 1020, 1030]).rolling_sum
        = (after 3 992 [1000, 1010, 1020, 1030]).tracker_array.sum
    ∧ (after 3 992 [1000, 1010, 1020, 1030]).rolling_sum
        = (spec_last 3 [1000, 1010, 1020, 1030]).sum := by
  have hv : ∀ v ∈ [(1000 : Int), 1010, 1020, 1030], |v| ≤ 2047 := by decide
  have h := sliding_window_correct 3 (by decide) (by decide) 2047 (by decide) 992 (by decide)
    [1000, 1010, 1020, 1030] hv
  exact ⟨by decide, by decide, by decide, by decide, hv, by decide, by decide, by decide,
    h.2.2.2.2.1, h.2.2.2.2.2.2.2.2.2 (by decide)⟩

end SBusTracker
